import Mathlib

/-!
IO-Hints-Benchmark: the experiment-execution engine.

A shallow embedding of the two benchmark programs
`src/prefetch-benchmark-sequential/prefetch-benchmark.c` and
`src/prefetch-benchmark-random/prefetch-benchmark.c`.

* `uint64_t` / `size_t` values are natural numbers, every operation that can
  leave the 64-bit range is reduced modulo `2 ^ 64` (`wadd`, `wsub`, `wmul`).
* `double` values are modelled exactly: binary64 rounding (to nearest, ties to
  even) is `round53` for the integers of a loop test and `f64_round` for the
  operations of the throughput, whose value is `throughput_value` (a NaN or an
  infinity when the billable time is zero).
* A `for` loop whose body never assigns its control variable is the list of the
  values the control variable takes (`for_volume`, bounded by fuel because the
  64-bit increment can wrap) and the left-to-right fold of the body over it.
* The clock, the C library generator and the file system are the environment
  (`Env`): the k-th call of `gettimeofday` returns `Env.gettimeofday k`, the
  k-th `read`/`fread` of a campaign returns `Env.read_result k`.
* Every call the program makes is recorded, in order, in the trace of the
  machine state (`Run.trace`).  A run ends normally, by `exit(0)`, in an
  operation that C leaves undefined, or is still running when the fuel is spent
  (`Outcome`).
* Inside a campaign a call of `client_cache_drop` is `client_cache_drop_call`:
  it returns, or it ends the process by `exit(0)` when the `open` or the
  `write` on `/proc/sys/vm/drop_caches` fails (`Env.drop_caches`); its own body,
  call by call, is `client_cache_drop`.
* The function `main` is the list of its calls for a given result of `fopen`
  (`main`); a pointer is its address, the null pointer the address 0.
* The helper functions are the calls they make: `client_cache_evict` and
  `client_cache_prefetch` their `posix_fadvise` call, `aio_prefetch` its calls
  and the new value of its static buffer, `o_direct_open` the `open` call of the
  O_DIRECT block; the pressure reads of `client_cache_drop` carry the file and
  the position of the descriptor they read from (`pressure_reads_from`).
-/

namespace IOHints

/-! ## 64-bit machine arithmetic -/

/-- Addition of two `uint64_t` values. -/
def wadd (a b : Nat) : Nat := (a + b) % 2 ^ 64

/-- Subtraction of two `uint64_t` values: the difference wraps below zero. -/
def wsub (a b : Nat) : Nat := (a % 2 ^ 64 + (2 ^ 64 - b % 2 ^ 64)) % 2 ^ 64

/-- Multiplication of two `uint64_t` values. -/
def wmul (a b : Nat) : Nat := (a * b) % 2 ^ 64

/-! ## Build-time configuration -/

/-- The two programs of the repository. -/
inductive Variant
  | sequential
  | random
  deriving DecidableEq, Repr

/-- `#define DURATION_PER_EXPERIMENT_US (15*(uint64_t)1e6)`. -/
def DURATION_PER_EXPERIMENT_US : Nat := 15 * 1000000

/-- `#define RANDOM_SEED 154645134u` (random variant). -/
def RANDOM_SEED : Nat := 154645134

/-- Modelled from the spec: the C library constant `RAND_MAX` of `<stdlib.h>`, which
this repository uses but does not define; `2 ^ 31 - 1`, the value of the GNU C
library on which the programs are built. -/
def RAND_MAX : Nat := 2147483647

/-- `static const uint64_t file_sizes[]` of each program. -/
def file_sizes : Variant → List Nat
  | .sequential => [64 * 1024 * 1024, 1024 * 1024 * 1024, 16 * 1024 * 1024 * 1024]
  | .random => [1024 * 1024 * 1024]

/-- `static const uint64_t io_sizes[]` (the same in both programs). -/
def io_sizes : List Nat :=
  [4 * 1024, 16 * 1024, 64 * 1024, 1024 * 1024, 16 * 1024 * 1024, 256 * 1024 * 1024]

/-- `static const uint64_t jit_prefetch_delays[]`, in microseconds. -/
def jit_prefetch_delays : List Nat := [0, 1000, 10000, 100000, 1000000]

/-- The inter-arrival times, in nanoseconds, that a program iterates over: the
first `io_interarrival_time_count` entries of `io_interarrival_times[]`, that is
all four in the sequential program and the first one in the random program. -/
def io_interarrival_times : Variant → List Nat
  | .sequential => [0, 100, 10000, 1000000]
  | .random => [0]

/-! ## Loop control -/

/-- The values taken by the control variable of
`for(volume = 0; cond(volume); volume += io_size)`, started at `volume`, together
with the value of `volume` when the loop is left.  `none` when the loop has not
ended after `fuel` tests of the condition. -/
def for_volume (cond : Nat → Bool) (io_size : Nat) : Nat → Nat → Option (List Nat × Nat)
  | 0, _ => none
  | fuel + 1, volume =>
    if cond volume then
      match for_volume cond io_size fuel (wadd volume io_size) with
      | some (vs, final) => some (volume :: vs, final)
      | none => none
    else some ([], volume)

/-- The loop test `volume<file_size` of the sequential pass and of every warm-up
read. -/
def sequential_cond (file_size volume : Nat) : Bool := decide (volume < file_size)

/-- Number of iterations of a full sequential drain, `⌈file_size / io_size⌉`. -/
def ceil_div (file_size io_size : Nat) : Nat := (file_size + io_size - 1) / io_size

/-! ## Random offsets -/

/-- The offset `rand() / (RAND_MAX / file_size + 1)` handed to `lseek`/`fseek`,
computed in `uint64_t` as C's conversions prescribe, for a draw `r` of `rand()`.
`none` stands for a division by zero. -/
def random_offset (r file_size : Nat) : Option Nat :=
  if file_size = 0 then none
  else if wadd (RAND_MAX / file_size) 1 = 0 then none
  else some (r / wadd (RAND_MAX / file_size) 1)

/-! ## Binary64 arithmetic of the random loop test

The random pass tests `volume<file_size*0.1`: both operands are converted to
`double`, the product is rounded to `double`, and the two doubles are compared.
Every value involved is a non-negative number below `2 ^ 65`, far inside the
normal range of binary64, where rounding keeps the 53 leading bits of the exact
value (to nearest, ties to even) and therefore commutes with scaling by a power
of two.  The constant `0.1` is the double `3602879701896397 / 2 ^ 55`, so the
exact product is `(double)file_size * 3602879701896397` in units of `2 ^ -55`. -/

/-- Number of low bits that binary64 drops from the natural number `p`. -/
def binade_shift (p : Nat) : Nat := Nat.log2 p + 1 - 53

/-- Rounding of `p` to a multiple of `2 ^ s`, to nearest, ties to the even
multiple. -/
def round_at (s p : Nat) : Nat :=
  if 2 * (p % 2 ^ s) < 2 ^ s then p / 2 ^ s * 2 ^ s
  else if 2 ^ s < 2 * (p % 2 ^ s) then (p / 2 ^ s + 1) * 2 ^ s
  else if p / 2 ^ s % 2 = 0 then p / 2 ^ s * 2 ^ s
  else (p / 2 ^ s + 1) * 2 ^ s

/-- Binary64 rounding of a natural number (of a `uint64_t` converted to `double`,
or of an exact product expressed in units of `2 ^ -55`). -/
def round53 (p : Nat) : Nat := round_at (binade_shift p) p

/-- The loop test `volume<file_size*0.1` of the random pass, both sides in units
of `2 ^ -55`. -/
def random_cond (file_size volume : Nat) : Bool :=
  decide (round53 volume * 2 ^ 55 < round53 (round53 file_size * 3602879701896397))

/-! ## Environment, events and machine state -/

/-- What the program reads from its environment. -/
structure Env where
  /-- The `(tv_sec, tv_usec)` pair stored by the k-th call of `gettimeofday`. -/
  gettimeofday : Nat → Int × Int
  /-- The value returned by the k-th `read` (a `ssize_t`) or `fread` (an item
  count) of the campaign. -/
  read_result : Nat → Int
  /-- The state in which `srand(seed)` leaves the C library generator. -/
  srand : Nat → Nat
  /-- One call of `rand()`: the value returned and the next generator state. -/
  rand : Nat → Nat × Nat
  /-- The values returned by `open("/proc/sys/vm/drop_caches", O_WRONLY)` and by
  `write(fd2, "3", 1)` in the call of `client_cache_drop` that is made when the
  trace holds `n` calls. -/
  drop_caches : Nat → Int × Int

/-- Conversion of a signed `long` to `uint64_t`. -/
def to_u64 (x : Int) : Nat := (x % 2 ^ 64).toNat

/-- Conversion of an integer value to `int` (32 bits, two's complement). -/
def to_int (x : Int) : Int := (x + 2 ^ 31) % 2 ^ 32 - 2 ^ 31

/-- The value `tv.tv_sec*(uint64_t)1e6+tv.tv_usec` returned by `get_timestamp_us`. -/
def timestamp_of (tv : Int × Int) : Nat := wadd (wmul (to_u64 tv.1) 1000000) (to_u64 tv.2)

/-- The value returned by the k-th call of `get_timestamp_us`. -/
def reading (env : Env) (k : Nat) : Nat := timestamp_of (env.gettimeofday k)

/-- The experiment blocks of the two programs, in source order: four baselines,
four offline-prefetch (warm) strategies, four just-in-time strategies and five
online strategies. -/
inductive Strategy
  | o_direct
  | not_cached
  | marked_sequential
  | marked_random
  | cached
  | cached_client_side
  | cached_server_side_1
  | cached_server_side_2
  | jit_both_sides
  | jit_client_side
  | jit_server_side
  | jit_aio
  | online_fadvise_ladvise
  | online_aio_ladvise
  | online_fadvise
  | online_ladvise
  | online_aio
  deriving DecidableEq, Repr

/-- Blocks compiled only under `#ifdef WITH_LUSTRE`. -/
def Strategy.lustre_only : Strategy → Bool
  | .cached_client_side | .jit_both_sides | .jit_server_side
  | .online_fadvise_ladvise | .online_aio_ladvise | .online_ladvise => true
  | _ => false

/-- Blocks of `perform_jit_prefetch_benchmark`. -/
def Strategy.is_jit : Strategy → Bool
  | .jit_both_sides | .jit_client_side | .jit_server_side | .jit_aio => true
  | _ => false

/-- Blocks of `perform_online_prefetch_benchmark`. -/
def Strategy.is_online : Strategy → Bool
  | .online_fadvise_ladvise | .online_aio_ladvise | .online_fadvise
  | .online_ladvise | .online_aio => true
  | _ => false

/-- Blocks of `perform_offline_prefetch_benchmark`. -/
def Strategy.is_offline : Strategy → Bool
  | .cached | .cached_client_side | .cached_server_side_1 | .cached_server_side_2 => true
  | _ => false

/-- A block is part of a build: the random program has no just-in-time and no
online block, and the Lustre blocks need `WITH_LUSTRE`. -/
def Strategy.present (variant : Variant) (lustre : Bool) (s : Strategy) : Bool :=
  (lustre || !s.lustre_only) &&
    (match variant with
     | .sequential => true
     | .random => !s.is_jit && !s.is_online)

/-- The `category='...'` text of a block's result line. -/
def Strategy.category : Strategy → String
  | .o_direct | .not_cached => "Baseline"
  | .marked_sequential | .marked_random => "Extended baseline"
  | .cached | .cached_client_side | .cached_server_side_1 | .cached_server_side_2 =>
    "Offline prefetch"
  | .jit_both_sides | .jit_client_side | .jit_server_side | .jit_aio => "JIT prefetch"
  | _ => "Online prefetch"

/-- The `label='...'` text of a block's result line (`\\n` in the C source is a
backslash followed by the letter n). -/
def Strategy.label : Strategy → String
  | .o_direct => "O_DIRECT"
  | .not_cached => "Not cached"
  | .marked_sequential => "Not cached but marked as sequential"
  | .marked_random => "Not cached but marked as random"
  | .cached => "Offline prefetch\\n(sync read)"
  | .cached_client_side => "Offline client-side prefetch\\n(sync read + ladvise evict)"
  | .cached_server_side_1 => "Offline server-side prefetch\\n(sync read + drop_cache evict)"
  | .cached_server_side_2 => "Offline server-side prefetch\\n(sync read + fadvise evict)"
  | .jit_both_sides => "JIT fadvise+ladvise prefetch of the whole file"
  | .jit_client_side => "JIT fadvise prefetch of the whole file"
  | .jit_server_side => "JIT ladvise prefetch of the whole file"
  | .jit_aio => "JIT async-io prefetch of the whole file"
  | .online_fadvise_ladvise => "fadvise+ladvise online prefetching"
  | .online_aio_ladvise => "aio_read+ladvise online prefetching"
  | .online_fadvise => "fadvise online prefetching"
  | .online_ladvise => "ladvise online prefetching"
  | .online_aio => "async-io online prefetching"

/-- A conversion specifier of a result line's format. -/
inductive Conv
  | str
  | llu
  | d
  | f3
  deriving DecidableEq, Repr

/-- A variadic argument of a result line's `fprintf`.  The throughput is the
`double` computed from `bytes/(read_duration*1e-6)/(1ul << 30)`; it is kept as the
two integers it is computed from, and its value is `throughput_value`. -/
inductive Arg
  | target_file
  | u64 (value : Nat)
  | int (value : Int)
  | throughput (bytes read_duration : Nat)
  deriving DecidableEq, Repr

/-- One `fprintf(output_file, ...)` of a result line, built with
`OUTPUT_EXPERIMENT_DESCRIPTION` false: the literal category and label of the
format, its conversion specifiers in order, and the arguments in order. -/
structure RecordCall where
  category : String
  label : String
  conversions : List Conv
  args : List Arg
  deriving DecidableEq, Repr

/-- The calls a campaign makes, as they appear in the trace. -/
inductive Event
  | get_timestamp_us (value : Nat)
  | malloc (size : Nat)
  | free
  | server_cache_evict (offset length : Nat)
  /-- A call of `client_cache_drop` that returns. -/
  | client_cache_drop
  | client_cache_evict (offset length : Nat)
  | client_cache_prefetch (offset length : Nat)
  | server_cache_prefetch (offset length : Nat)
  | aio_prefetch (offset length : Nat)
  | posix_fadvise_sequential (offset length : Nat)
  | posix_fadvise_random (offset length : Nat)
  | usleep (microseconds : Int)
  | nsleep (nanoseconds : Nat)
  | seek (offset : Nat)
  | srand (seed : Nat)
  /-- One `read`/`fread` of `count` bytes whose `int ret` is `ret`; `warm_up`
  tells a read of a warm-up loop from a read of the timed loop. -/
  | read (warm_up : Bool) (count : Nat) (ret : Int)
  | printf_read_error
  /-- The `printf` of the error message of a `client_cache_drop` whose `open` or
  `write` failed; the call does not return. -/
  | printf_drop_error
  | fprintf_record (r : RecordCall)
  | fflush
  deriving DecidableEq, Repr

/-- The machine state of a campaign: the environment cursors, the C library
generator, the trace, and the locals `t1`, `read_duration`, `total_volume` and
`experiment_count`. -/
structure Run where
  clock_calls : Nat
  io_calls : Nat
  generator : Nat
  trace : List Event
  t1 : Nat
  read_duration : Nat
  total_volume : Nat
  experiment_count : Nat
  deriving DecidableEq, Repr

/-- How a piece of the program ends. -/
inductive Outcome (α : Type)
  /-- Control reaches the end of the piece. -/
  | ok (a : α)
  /-- The process has called `exit(status)`; the state is the one at the call. -/
  | exited (status : Nat) (r : Run)
  /-- An operation without defined behaviour was reached (division by zero,
  overflow of the `int` counter). -/
  | fault
  /-- The piece is still running when the fuel is spent. -/
  | out_of_fuel
  deriving Repr

/-- Sequencing of two pieces. -/
def Outcome.bind {α β : Type} (o : Outcome α) (f : α → Outcome β) : Outcome β :=
  match o with
  | .ok a => f a
  | .exited status r => .exited status r
  | .fault => .fault
  | .out_of_fuel => .out_of_fuel

/-- The state before the first call of a program. -/
def Run.initial : Run :=
  { clock_calls := 0, io_calls := 0, generator := 0, trace := [], t1 := 0,
    read_duration := 0, total_volume := 0, experiment_count := 0 }

/-- Record one call in the trace. -/
def Run.emit (r : Run) (e : Event) : Run := { r with trace := r.trace ++ [e] }

/-- Record several calls in the trace. -/
def Run.emit_all (r : Run) (es : List Event) : Run := { r with trace := r.trace ++ es }

/-- One call of `get_timestamp_us()`. -/
def get_timestamp_us (env : Env) (r : Run) : Nat × Run :=
  (reading env r.clock_calls,
    { r with clock_calls := r.clock_calls + 1,
             trace := r.trace ++ [Event.get_timestamp_us (reading env r.clock_calls)] })

/-- The parameters of one experiment: the build, the block, one entry of each
configured array, and for the just-in-time and online blocks the third loop
variable (`prefetch_delay` or `prefetch_size`). -/
structure Config where
  variant : Variant
  lustre : Bool
  strategy : Strategy
  file_size : Nat
  io_size : Nat
  io_interarrival_time_ns : Nat
  prefetch_param : Nat
  deriving DecidableEq, Repr

/-- The `int ret` of one `read(fd, buffer, io_size)` (the O_DIRECT block, a
`ssize_t` that is `-1` or at most `io_size`) or of one
`fread(buffer, sizeof(char), io_size, fp)` (all other blocks, an item count
between 0 and `io_size`). -/
def read_ret (strategy : Strategy) (io_size : Nat) (raw : Int) : Int :=
  if strategy = Strategy.o_direct then
    if raw < 0 then -1 else to_int (min raw io_size)
  else to_int (min (max raw 0) io_size)

/-- One read and the test `if(__glibc_unlikely(ret < 0))` that follows it. -/
def do_read (env : Env) (c : Config) (warm_up : Bool) (r : Run) : Outcome Run :=
  let ret := read_ret c.strategy c.io_size (env.read_result r.io_calls)
  let r1 := { r with io_calls := r.io_calls + 1,
                     trace := r.trace ++ [Event.read warm_up c.io_size ret] }
  if ret < 0 then Outcome.exited 0 (r1.emit Event.printf_read_error)
  else Outcome.ok r1

/-- The prefetch calls of an online block at one stride boundary. -/
def online_prefetch (s : Strategy) (volume prefetch_size : Nat) : List Event :=
  match s with
  | .online_fadvise_ladvise =>
    [Event.server_cache_prefetch volume prefetch_size,
     Event.client_cache_prefetch volume prefetch_size]
  | .online_aio_ladvise =>
    [Event.server_cache_prefetch volume prefetch_size,
     Event.aio_prefetch volume prefetch_size]
  | .online_fadvise => [Event.client_cache_prefetch volume prefetch_size]
  | .online_ladvise => [Event.server_cache_prefetch volume prefetch_size]
  | .online_aio => [Event.aio_prefetch volume prefetch_size]
  | _ => []

/-- The statement `if(volume%prefetch_size==0) ...` that opens the body of an
online block's timed loop (other blocks have no such statement). -/
def online_step (c : Config) (volume : Nat) (r : Run) : Outcome Run :=
  if c.strategy.is_online then
    if c.prefetch_param = 0 then Outcome.fault
    else if volume % c.prefetch_param = 0 then
      Outcome.ok (r.emit_all (online_prefetch c.strategy volume c.prefetch_param))
    else Outcome.ok r
  else Outcome.ok r

/-- The statement `fseek(fp, rand() / (RAND_MAX / file_size + 1), SEEK_SET)` of the
random program's timed loop (the sequential program has no such statement). -/
def random_seek (env : Env) (c : Config) (r : Run) : Outcome Run :=
  match c.variant with
  | .sequential => Outcome.ok r
  | .random =>
    match random_offset (env.rand r.generator).1 c.file_size with
    | none => Outcome.fault
    | some offset =>
      Outcome.ok { r with generator := (env.rand r.generator).2,
                          trace := r.trace ++ [Event.seek offset] }

/-- The pacing statement
`if(io_interarrival_time_ns!=0){ read_duration += get_timestamp_us()-t1; nsleep(...); t1 = get_timestamp_us(); }`. -/
def pacing (env : Env) (c : Config) (r : Run) : Run :=
  if c.io_interarrival_time_ns ≠ 0 then
    let a := get_timestamp_us env r
    let r1 := { a.2 with read_duration := wadd a.2.read_duration (wsub a.1 a.2.t1) }
    let r2 := r1.emit (Event.nsleep c.io_interarrival_time_ns)
    let b := get_timestamp_us env r2
    { b.2 with t1 := b.1 }
  else r

/-- The body of the timed loop at one value of `volume`. -/
def timed_body (env : Env) (c : Config) (volume : Nat) (r : Run) : Outcome Run :=
  (online_step c volume r).bind fun r1 =>
  (random_seek env c r1).bind fun r2 =>
  (do_read env c false r2).bind fun r3 =>
  Outcome.ok (pacing env c r3)

/-- The body of a warm-up loop: one read and its error test. -/
def warmup_body (env : Env) (c : Config) (_volume : Nat) (r : Run) : Outcome Run :=
  do_read env c true r

/-- The loop `for(volume = start; cond(volume); volume += io_size) body`: the final
value of `volume` and the state. -/
def volume_loop (cond : Nat → Bool) (io_size : Nat) (body : Nat → Run → Outcome Run) :
    Nat → Nat → Run → Outcome (Nat × Run)
  | 0, _, _ => Outcome.out_of_fuel
  | fuel + 1, volume, r =>
    if cond volume then
      (body volume r).bind fun r1 => volume_loop cond io_size body fuel (wadd volume io_size) r1
    else Outcome.ok (volume, r)

/-- The test of the timed loop: `volume<file_size` in the sequential program,
`volume<file_size*0.1` in the random program. -/
def timed_cond (c : Config) : Nat → Bool :=
  match c.variant with
  | .sequential => sequential_cond c.file_size
  | .random => random_cond c.file_size

/-- The test of the warm-up loop of an offline block: `volume<file_size`, except
in the random program's "Cached client-side only" block, which tests
`volume<file_size*0.1`. -/
def warmup_cond (c : Config) : Nat → Bool :=
  match c.variant, c.strategy with
  | .random, .cached_client_side => random_cond c.file_size
  | _, _ => sequential_cond c.file_size

/-- The warm-up read of the offline blocks, `fseek(fp, 0, SEEK_SET)` included. -/
def warm_up (env : Env) (c : Config) (inner : Nat) (r : Run) : Outcome Run :=
  (volume_loop (warmup_cond c) c.io_size (warmup_body env c) inner 0
    (r.emit (Event.seek 0))).bind fun x => Outcome.ok x.2

/-- One call of `client_cache_drop(fd)` inside a campaign:
`if(fd2<0){ printf(...); exit(0); }` after the `open` of
`/proc/sys/vm/drop_caches`, `if(ret<0){ printf(...); exit(0); }` after the
`write`; otherwise the call returns. -/
def client_cache_drop_call (env : Env) (r : Run) : Outcome Run :=
  if (env.drop_caches r.trace.length).1 < 0 ∨ (env.drop_caches r.trace.length).2 < 0 then
    Outcome.exited 0 (r.emit Event.printf_drop_error)
  else Outcome.ok (r.emit Event.client_cache_drop)

/-- Everything a pass does before it takes `t1`: the cache cleaning common to all
blocks, then the block's own preparation, then (random program) `srand`. -/
def precondition (env : Env) (c : Config) (inner : Nat) (r : Run) : Outcome Run :=
  let r0 := if c.lustre then r.emit (Event.server_cache_evict 0 c.file_size) else r
  (client_cache_drop_call env r0).bind fun r1 =>
  let F := c.file_size
  let d : Int := to_int (c.prefetch_param : Int)
  let prepared : Outcome Run :=
    match c.strategy with
    | .o_direct | .not_cached => Outcome.ok (r1.emit (Event.seek 0))
    | .marked_sequential =>
      Outcome.ok (r1.emit_all [Event.seek 0, Event.posix_fadvise_sequential 0 F])
    | .marked_random =>
      Outcome.ok (r1.emit_all [Event.seek 0, Event.posix_fadvise_random 0 F])
    | .cached =>
      (warm_up env c inner r1).bind fun r2 => Outcome.ok (r2.emit (Event.seek 0))
    | .cached_client_side =>
      (warm_up env c inner r1).bind fun r2 =>
        Outcome.ok (r2.emit_all [Event.server_cache_evict 0 F, Event.seek 0])
    | .cached_server_side_1 =>
      (warm_up env c inner r1).bind fun r2 =>
        (client_cache_drop_call env r2).bind fun r3 => Outcome.ok (r3.emit (Event.seek 0))
    | .cached_server_side_2 =>
      (warm_up env c inner r1).bind fun r2 =>
        Outcome.ok (r2.emit_all [Event.client_cache_evict 0 F, Event.seek 0])
    | .jit_both_sides =>
      Outcome.ok (r1.emit_all [Event.server_cache_prefetch 0 F, Event.client_cache_prefetch 0 F,
        Event.usleep d, Event.seek 0])
    | .jit_client_side =>
      Outcome.ok (r1.emit_all [Event.client_cache_prefetch 0 F, Event.usleep d, Event.seek 0])
    | .jit_server_side =>
      Outcome.ok (r1.emit_all [Event.server_cache_prefetch 0 F, Event.usleep d, Event.seek 0])
    | .jit_aio =>
      Outcome.ok (r1.emit_all [Event.aio_prefetch 0 F, Event.usleep d, Event.seek 0])
    | _ => Outcome.ok (r1.emit (Event.seek 0))
  prepared.bind fun r2 =>
    match c.variant with
    | .sequential => Outcome.ok r2
    | .random =>
      Outcome.ok { r2 with generator := env.srand RANDOM_SEED,
                           trace := r2.trace ++ [Event.srand RANDOM_SEED] }

/-- No call of `client_cache_drop` fails: every `open` of
`/proc/sys/vm/drop_caches` and every `write` to it returns a value that is not
negative. -/
def drops_succeed (env : Env) : Prop :=
  ∀ n, 0 ≤ (env.drop_caches n).1 ∧ 0 ≤ (env.drop_caches n).2

/-- The timed part of a pass: `t1 = get_timestamp_us()`, the timed loop, the final
`read_duration += get_timestamp_us()-t1`, and in the random program
`total_volume+=volume`. -/
def timed_pass (env : Env) (c : Config) (inner : Nat) (r : Run) : Outcome Run :=
  let a := get_timestamp_us env r
  (volume_loop (timed_cond c) c.io_size (timed_body env c) inner 0
      { a.2 with t1 := a.1 }).bind fun x =>
    let b := get_timestamp_us env x.2
    let r1 := { b.2 with read_duration := wadd b.2.read_duration (wsub b.1 b.2.t1) }
    match c.variant with
    | .sequential => Outcome.ok r1
    | .random => Outcome.ok { r1 with total_volume := wadd r1.total_volume x.1 }

/-- One pass: the body of the campaign loop. -/
def run_pass (env : Env) (c : Config) (inner : Nat) (r : Run) : Outcome Run :=
  (precondition env c inner r).bind fun r1 => timed_pass env c inner r1

/-- The campaign loop
`for(experiment_count=0; get_timestamp_us() - t0 < DURATION_PER_EXPERIMENT_US; experiment_count++)`,
entered at its test.  `experiment_count` is an `int`: incrementing it past
`2 ^ 31 - 1` is not defined. -/
def campaign (env : Env) (c : Config) (inner : Nat) (t0 : Nat) : Nat → Run → Outcome Run
  | 0, _ => Outcome.out_of_fuel
  | fuel + 1, r =>
    let a := get_timestamp_us env r
    if wsub a.1 t0 < DURATION_PER_EXPERIMENT_US then
      (run_pass env c inner a.2).bind fun r1 =>
        if r1.experiment_count + 1 < 2 ^ 31 then
          campaign env c inner t0 fuel { r1 with experiment_count := r1.experiment_count + 1 }
        else Outcome.fault
    else Outcome.ok a.2

/-- The byte total of a result line: `experiment_count*file_size` (the `int` is
converted to `uint64_t`) in the sequential program, `total_volume` in the random
program. -/
def total_bytes (c : Config) (r : Run) : Nat :=
  match c.variant with
  | .sequential => wmul r.experiment_count c.file_size
  | .random => r.total_volume

/-- The `fprintf` of a block's result line.  The blocks of the baseline and
offline functions pass five arguments for five conversions; the just-in-time
and online blocks pass the prefetch parameter twice. -/
def record_call (c : Config) (r : Run) : RecordCall :=
  let common : List Arg :=
    [Arg.target_file, Arg.u64 c.file_size, Arg.u64 c.io_interarrival_time_ns, Arg.u64 c.io_size]
  let thr : Arg := Arg.throughput (total_bytes c r) r.read_duration
  if c.strategy.is_jit then
    { category := c.strategy.category, label := c.strategy.label,
      conversions := [Conv.str, Conv.llu, Conv.llu, Conv.llu, Conv.d, Conv.f3],
      args := common ++ [Arg.int (to_int c.prefetch_param), Arg.int (to_int c.prefetch_param), thr] }
  else if c.strategy.is_online then
    { category := c.strategy.category, label := c.strategy.label,
      conversions := [Conv.str, Conv.llu, Conv.llu, Conv.llu, Conv.llu, Conv.f3],
      args := common ++ [Arg.u64 c.prefetch_param, Arg.u64 c.prefetch_param, thr] }
  else
    { category := c.strategy.category, label := c.strategy.label,
      conversions := [Conv.str, Conv.llu, Conv.llu, Conv.llu, Conv.f3],
      args := common ++ [thr] }

/-- One experiment: the statements between the `continue` tests and the end of
the innermost `for` body.  (The O_DIRECT block frees the buffer before the
`fprintf`, the other blocks after it.) -/
def experiment (env : Env) (c : Config) (inner fuel : Nat) (r : Run) : Outcome Run :=
  let r1 := r.emit (Event.malloc c.io_size)
  let a := get_timestamp_us env r1
  let r2 := { a.2 with read_duration := 0, total_volume := 0, experiment_count := 0 }
  (campaign env c inner a.1 fuel r2).bind fun r3 =>
    if c.strategy = Strategy.o_direct then
      Outcome.ok (r3.emit_all [Event.free, Event.fprintf_record (record_call c r3), Event.fflush])
    else
      Outcome.ok (r3.emit_all [Event.fprintf_record (record_call c r3), Event.free, Event.fflush])

/-- The values of the third loop of a block, before its `continue` test: the
delays of a just-in-time block, the prefetch sizes of an online block, and a
single dummy value for the two-loop blocks. -/
def third_loop_values (s : Strategy) : List Nat :=
  if s.is_jit then jit_prefetch_delays
  else if s.is_online then io_sizes
  else [0]

/-- The body of the `io_sizes` loop of a block for one `(file_size, io_size)`:
`if(io_size>file_size) continue;`, then in the online blocks
`if(prefetch_size<=io_size) continue;` for each prefetch size. -/
def pair_body (env : Env) (variant : Variant) (lustre : Bool) (s : Strategy)
    (ia inner fuel file_size io_size : Nat) (r : Run) : Outcome Run :=
  if io_size > file_size then Outcome.ok r
  else
    (third_loop_values s).foldl
      (fun (o : Outcome Run) (p : Nat) =>
        o.bind fun r1 =>
          if s.is_online && decide (p ≤ io_size) then Outcome.ok r1
          else experiment env
            { variant := variant, lustre := lustre, strategy := s, file_size := file_size,
              io_size := io_size, io_interarrival_time_ns := ia, prefetch_param := p }
            inner fuel r1)
      (Outcome.ok r)

/-- One block: the loops over `file_sizes` and `io_sizes` for one inter-arrival
time. -/
def strategy_block (env : Env) (variant : Variant) (lustre : Bool) (s : Strategy)
    (ia inner fuel : Nat) (r : Run) : Outcome Run :=
  (file_sizes variant).foldl
    (fun (o : Outcome Run) (file_size : Nat) =>
      io_sizes.foldl
        (fun (o1 : Outcome Run) (io_size : Nat) =>
          o1.bind fun r1 => pair_body env variant lustre s ia inner fuel file_size io_size r1)
        o)
    (Outcome.ok r)

/-- The result lines in a trace. -/
def records (t : List Event) : List RecordCall :=
  t.filterMap fun e =>
    match e with
    | Event.fprintf_record rc => some rc
    | _ => none

/-! ## Binary64 arithmetic of the throughput

The throughput `bytes/(read_duration*1e-6)/(1ul << 30)` is computed in `double`:
the two 64-bit integers are converted, and the product and the two quotients
are rounded.  Every value that is not zero lies between `2 ^ -75` and `2 ^ 85`,
inside the normal range of binary64, where rounding keeps 53 significant bits
(on the integers `f64_round` is `round53`). -/

/-- The integer nearest to `x`, ties to the even one. -/
def round_half_even (x : ℚ) : ℤ :=
  if x - ⌊x⌋ < 1 / 2 then ⌊x⌋
  else if 1 / 2 < x - ⌊x⌋ then ⌊x⌋ + 1
  else if ⌊x⌋ % 2 = 0 then ⌊x⌋
  else ⌊x⌋ + 1

/-- Binary64 rounding (to nearest, ties to even) of a value that is not negative
and lies in the normal range: the value is rounded to a multiple of
`2 ^ (e - 52)`, where `2 ^ e ≤ x < 2 ^ (e + 1)`. -/
def f64_round (x : ℚ) : ℚ :=
  if x ≤ 0 then 0
  else (round_half_even (x / (2 : ℚ) ^ (Int.log 2 x - 52)) : ℚ) * (2 : ℚ) ^ (Int.log 2 x - 52)

/-- The `double` literal `1e-6`: the binary64 value nearest to `10 ^ -6`,
`0x3EB0C6F7A0B5ED8D`. -/
def double_1e_6 : ℚ := 4722366482869645 / 2 ^ 72

/-- A binary64 value: not a number, an infinity, or a finite value. -/
inductive Binary64
  | nan
  | infinity
  | finite (value : ℚ)
  deriving DecidableEq

/-- The `double` value of `bytes/(read_duration*1e-6)/(1ul << 30)`: both integers
are converted to `double`, the product `read_duration*1e-6` is rounded, then the
quotient by it, then the quotient by `2 ^ 30`.  A division by zero gives a NaN
when the dividend is zero and an infinity otherwise. -/
def throughput_value (bytes read_duration : Nat) : Binary64 :=
  if f64_round (f64_round read_duration * double_1e_6) = 0 then
    if f64_round bytes = 0 then Binary64.nan else Binary64.infinity
  else
    Binary64.finite
      (f64_round (f64_round (f64_round bytes /
        f64_round (f64_round read_duration * double_1e_6)) / 2 ^ 30))

/-- The `double` that an argument of a result line's `fprintf` carries. -/
def Arg.double_value : Arg → Option Binary64
  | Arg.throughput bytes read_duration => some (throughput_value bytes read_duration)
  | _ => none

/-- The `double` that a result line's `fprintf` receives for `%.3f`: the value
of its last argument. -/
def RecordCall.throughput_value (rc : RecordCall) : Option Binary64 :=
  rc.args.getLast?.bind Arg.double_value

/-- The bodies of a loop run in turn at the given values of the control
variable. -/
def run_bodies (body : Nat → Run → Outcome Run) : List Nat → Run → Outcome Run
  | [], r => Outcome.ok r
  | v :: vs, r => (body v r).bind fun r1 => run_bodies body vs r1

/-- A sample environment: the clock advances by 10 microseconds from one reading
to the next, every read is full, the generator is a linear congruential one, and
every cache drop succeeds. -/
def sample_env : Env :=
  { gettimeofday := fun k => (0, 10 * (k : Int)),
    read_result := fun _ => 2147483647,
    srand := fun seed => seed,
    rand := fun g => ((g * 1103515245 + 12345) % 2147483648,
                      (g * 1103515245 + 12345) % 2147483648),
    drop_caches := fun _ => (3, 1) }

/-- A sample experiment: the "Not cached" block of the sequential program on a
12-byte file read 4 bytes at a time, paced by 100 ns. -/
def sample_config : Config :=
  { variant := Variant.sequential, lustre := false, strategy := Strategy.not_cached,
    file_size := 12, io_size := 4, io_interarrival_time_ns := 100, prefetch_param := 0 }

/-- The state in which the timed part of the sample pass ends when it starts in
the initial state. -/
def sample_pass : Run :=
  { clock_calls := 8, io_calls := 3, generator := 0,
    trace := [Event.get_timestamp_us 0,
      Event.read false 4 4, Event.get_timestamp_us 10, Event.nsleep 100,
      Event.get_timestamp_us 20,
      Event.read false 4 4, Event.get_timestamp_us 30, Event.nsleep 100,
      Event.get_timestamp_us 40,
      Event.read false 4 4, Event.get_timestamp_us 50, Event.nsleep 100,
      Event.get_timestamp_us 60,
      Event.get_timestamp_us 70],
    t1 := 60, read_duration := 40, total_volume := 0, experiment_count := 0 }

/-- The generator state after `n` calls of `rand()`. -/
def generator_after (env : Env) : Nat → Nat → Nat
  | g, 0 => g
  | g, n + 1 => generator_after env (env.rand g).2 n

/-- The offsets of the first `n` random seeks of a pass of the random program
that draws from generator state `g`. -/
def seek_offsets (env : Env) (file_size : Nat) : Nat → Nat → List Nat
  | _, 0 => []
  | g, n + 1 =>
    (random_offset (env.rand g).1 file_size).getD 0 ::
      seek_offsets env file_size (env.rand g).2 n

/-- The calls of one iteration of the timed loop at `volume`, when `k` clock
readings and `io` reads have been made and the generator is in state `g`. -/
def body_events (env : Env) (c : Config) (volume k io g : Nat) : List Event :=
  (if c.strategy.is_online = true ∧ volume % c.prefetch_param = 0
    then online_prefetch c.strategy volume c.prefetch_param else []) ++
  (match c.variant with
   | Variant.sequential => []
   | Variant.random => [Event.seek ((random_offset (env.rand g).1 c.file_size).getD 0)]) ++
  [Event.read false c.io_size (read_ret c.strategy c.io_size (env.read_result io))] ++
  (if c.io_interarrival_time_ns ≠ 0
    then [Event.get_timestamp_us (reading env k), Event.nsleep c.io_interarrival_time_ns,
          Event.get_timestamp_us (reading env (k + 1))]
    else [])

/-- Clock readings taken by one iteration of the timed loop. -/
def readings_per_read (c : Config) : Nat := if c.io_interarrival_time_ns ≠ 0 then 2 else 0

/-- The generator state after one iteration of the timed loop. -/
def generator_step (env : Env) (c : Config) (g : Nat) : Nat :=
  match c.variant with
  | Variant.sequential => g
  | Variant.random => (env.rand g).2

/-- The calls of the iterations of the timed loop at the values `vs`. -/
def timed_events (env : Env) (c : Config) : List Nat → Nat → Nat → Nat → List Event
  | [], _, _, _ => []
  | v :: vs, k, io, g =>
    body_events env c v k io g ++
      timed_events env c vs (k + readings_per_read c) (io + 1) (generator_step env c g)

/-- The reads of a warm-up loop of `n` iterations that starts when `io` reads
have been made. -/
def warmup_events (env : Env) (c : Config) : Nat → Nat → List Event
  | 0, _ => []
  | n + 1, io =>
    Event.read true c.io_size (read_ret c.strategy c.io_size (env.read_result io)) ::
      warmup_events env c n (io + 1)

/-- The calls of a block's own preparation (after the cache cleaning common to
all blocks), with `n` warm-up reads starting when `io` reads have been made. -/
def preparation_events (env : Env) (c : Config) (n io : Nat) : List Event :=
  match c.strategy with
  | .o_direct | .not_cached => [Event.seek 0]
  | .marked_sequential => [Event.seek 0, Event.posix_fadvise_sequential 0 c.file_size]
  | .marked_random => [Event.seek 0, Event.posix_fadvise_random 0 c.file_size]
  | .cached => [Event.seek 0] ++ warmup_events env c n io ++ [Event.seek 0]
  | .cached_client_side =>
    [Event.seek 0] ++ warmup_events env c n io ++
      [Event.server_cache_evict 0 c.file_size, Event.seek 0]
  | .cached_server_side_1 =>
    [Event.seek 0] ++ warmup_events env c n io ++ [Event.client_cache_drop, Event.seek 0]
  | .cached_server_side_2 =>
    [Event.seek 0] ++ warmup_events env c n io ++
      [Event.client_cache_evict 0 c.file_size, Event.seek 0]
  | .jit_both_sides =>
    [Event.server_cache_prefetch 0 c.file_size, Event.client_cache_prefetch 0 c.file_size,
      Event.usleep (to_int (c.prefetch_param : Int)), Event.seek 0]
  | .jit_client_side =>
    [Event.client_cache_prefetch 0 c.file_size,
      Event.usleep (to_int (c.prefetch_param : Int)), Event.seek 0]
  | .jit_server_side =>
    [Event.server_cache_prefetch 0 c.file_size,
      Event.usleep (to_int (c.prefetch_param : Int)), Event.seek 0]
  | .jit_aio =>
    [Event.aio_prefetch 0 c.file_size,
      Event.usleep (to_int (c.prefetch_param : Int)), Event.seek 0]
  | _ => [Event.seek 0]

/-- The statement `srand(RANDOM_SEED);` that the random program has just before it
takes `t1`. -/
def reseed_events : Variant → List Event
  | Variant.sequential => []
  | Variant.random => [Event.srand RANDOM_SEED]

/-- The calls of a pass before it takes `t1`. -/
def precondition_events (env : Env) (c : Config) (n io : Nat) : List Event :=
  (if c.lustre then [Event.server_cache_evict 0 c.file_size] else []) ++
  [Event.client_cache_drop] ++ preparation_events env c n io ++ reseed_events c.variant

/-- The generator state when a pass takes `t1`. -/
def generator_at_t1 (env : Env) (c : Config) (g : Nat) : Nat :=
  match c.variant with
  | Variant.sequential => g
  | Variant.random => env.srand RANDOM_SEED

/-- A call is a reading of the clock. -/
def is_clock_reading : Event → Bool
  | .get_timestamp_us _ => true
  | _ => false

/-- A call belongs to the precondition of a pass: the cache cleaning, a warm-up
read, the eviction that follows the warm-up, the whole-file pattern advice, the
just-in-time prefetch of the whole file and its lead-time sleep, the re-seeding
of the generator.  (In an online block the prefetch calls are issued by the
timed loop and are not part of the precondition.) -/
def is_precondition_call (c : Config) : Event → Bool
  | .server_cache_evict _ _ => true
  | .client_cache_drop => true
  | .client_cache_evict _ _ => true
  | .posix_fadvise_sequential _ _ => true
  | .posix_fadvise_random _ _ => true
  | .usleep _ => true
  | .srand _ => true
  | .read warm_up _ _ => warm_up
  | .client_cache_prefetch _ _ => !c.strategy.is_online
  | .server_cache_prefetch _ _ => !c.strategy.is_online
  | .aio_prefetch _ _ => !c.strategy.is_online
  | _ => false

/-- Number of intervals that a pass with `n` timed reads adds to
`read_duration`: one after each read and a last one when paced, a single one
otherwise. -/
def billed_intervals (c : Config) (n : Nat) : Nat :=
  if c.io_interarrival_time_ns ≠ 0 then n + 1 else 1

/-- One step of the scan for the calls that follow the last `srand`. -/
def srand_step (acc : List Event) : Event → List Event
  | Event.srand _ => []
  | e => acc ++ [e]

/-- The calls of a trace that follow its last `srand`. -/
def after_last_srand (t : List Event) : List Event := t.foldl srand_step []

/-- The offset of a seek. -/
def seek_of : Event → Option Nat
  | .seek offset => some offset
  | _ => none

/-- The offsets a pass of the random program seeks to in its timed loop: the
seeks of its trace after the last re-seeding. -/
def pass_seek_offsets (t : List Event) : List Nat := (after_last_srand t).filterMap seek_of

/-- A second sample experiment: the "Not cached" block of the random program on
a 100-byte file read 4 bytes at a time. -/
def sample_random_config : Config :=
  { variant := Variant.random, lustre := false, strategy := Strategy.not_cached,
    file_size := 100, io_size := 4, io_interarrival_time_ns := 0, prefetch_param := 0 }

/-- The state in which the sample pass, precondition included, ends when it
starts in the initial state. -/
def sample_run : Run :=
  { sample_pass with
    trace := [Event.client_cache_drop, Event.seek 0] ++ sample_pass.trace }

/-- A third sample experiment: the "Not cached but marked as random" block of the
random program, Lustre build, same file size and I/O size as
`sample_random_config`, paced. -/
def sample_random_config_2 : Config :=
  { variant := Variant.random, lustre := true, strategy := Strategy.marked_random,
    file_size := 100, io_size := 4, io_interarrival_time_ns := 100, prefetch_param := 0 }

/-- Number of reads of the timed loop of a pass (0 when the loop does not end
within the fuel). -/
def timed_reads (c : Config) (inner : Nat) : Nat :=
  match for_volume (timed_cond c) c.io_size inner 0 with
  | some x => x.1.length
  | none => 0

/-- The value of `volume` when the timed loop is left (0 when the loop does not
end within the fuel). -/
def final_volume (c : Config) (inner : Nat) : Nat :=
  match for_volume (timed_cond c) c.io_size inner 0 with
  | some x => x.2
  | none => 0

/-- Number of reads of the warm-up loop of a pass (0 in the blocks without
warm-up). -/
def warmup_reads (c : Config) (inner : Nat) : Nat :=
  if c.strategy.is_offline then
    match for_volume (warmup_cond c) c.io_size inner 0 with
    | some x => x.1.length
    | none => 0
  else 0

/-- Clock readings from one budget test to the next: the test, `t1`, the
readings of the pacing statements, the final reading. -/
def readings_per_pass (c : Config) (inner : Nat) : Nat :=
  3 + readings_per_read c * timed_reads c inner

/-- The billable time of a pass whose `t1` is the reading of index `k`: the sum
of the intervals it adds to `read_duration`. -/
def pass_billable (env : Env) (c : Config) (inner k : Nat) : Nat :=
  ∑ j ∈ Finset.range (billed_intervals c (timed_reads c inner)),
    wsub (reading env (k + 1 + 2 * j)) (reading env (k + 2 * j))

/-- The bytes a pass accounts for: the final `volume` in the random program
(`total_volume+=volume`), the bytes requested by its reads in the sequential
program (which keeps no byte counter). -/
def pass_bytes (c : Config) (inner : Nat) : Nat :=
  match c.variant with
  | Variant.sequential => timed_reads c inner * c.io_size
  | Variant.random => final_volume c inner

/-- The budget test of the campaign loop on the clock reading of index `k`. -/
def budget_test (env : Env) (t0 k : Nat) : Bool :=
  decide (wsub (reading env k) t0 < DURATION_PER_EXPERIMENT_US)

/-- The state in which the campaign loop of an experiment is entered: the
buffer is allocated, `t0` is read, and `read_duration`, `total_volume` and
`experiment_count` are zero. -/
def campaign_start (env : Env) (c : Config) (r : Run) : Run :=
  let a := get_timestamp_us env (r.emit (Event.malloc c.io_size))
  { a.2 with read_duration := 0, total_volume := 0, experiment_count := 0 }

/-- The sample environment with another clock: the k-th reading is `f k`
seconds. -/
def sample_env_with_clock (f : Nat → Int) : Env :=
  { sample_env with gettimeofday := fun k => (f k, 0) }

/-- The clock lets every campaign of the configured sizes end: from every
reading `k` taken as `t0`, and for every number `q` of clock readings from one
budget test to the next (at least 3: the test, `t1` and the final reading; at
most `3 + 2 * 2 ^ 22`, a paced pass of `2 ^ 22` reads), one of the first `2 ^ 31`
budget tests fails. -/
def Live (env : Env) : Prop :=
  ∀ k q, 3 ≤ q → q ≤ 3 + 2 * 2 ^ 22 →
    ∃ n, n < 2 ^ 31 ∧ budget_test env (reading env k) (k + 1 + n * q) = false

/-- Number of experiments, hence of result lines, of a block for a pair
`(file_size, io_size)` that is not skipped: one per delay in a just-in-time
block, one per prefetch size above `io_size` in an online block, one
otherwise. -/
def records_per_pair (s : Strategy) (io_size : Nat) : Nat :=
  ((third_loop_values s).filter
    (fun p => !(s.is_online && decide (p ≤ io_size)))).length

/-- The experiment of the "Not cached" block of the sequential program on the
1 GiB file read 4 KiB at a time, unpaced. -/
def not_cached_scenario (lustre : Bool) : Config :=
  { variant := Variant.sequential, lustre := lustre, strategy := Strategy.not_cached,
    file_size := 1024 * 1024 * 1024, io_size := 4 * 1024, io_interarrival_time_ns := 0,
    prefetch_param := 0 }

/-- A wall clock, in seconds at each reading, that is stepped back by two
seconds during the first pass of an unpaced experiment and runs forward
otherwise: `t0` and the first budget test read 100 s, every pass takes `t1` two
seconds after its budget test and ends one second later, and the first pass,
which takes `t1` at 102 s, ends at a reading of 101 s. -/
def stepped_clock (k : Nat) : Nat :=
  [100, 100, 102, 101, 101, 103, 104, 104, 106, 107, 107, 109, 110, 110, 112, 113,
    113, 115, 116, 116].getD k 116

/-- The sample environment with the wall clock `stepped_clock`. -/
def stepped_env : Env := sample_env_with_clock fun k => (stepped_clock k : Int)

/-- The sample environment when the process may not write to
`/proc/sys/vm/drop_caches`: every `open` of it returns `-1`. -/
def sample_env_drop_fails : Env :=
  { sample_env with drop_caches := fun _ => (-1, 0) }

/-- The experiment of a block for one `(file_size, io_size)` and one value `p`
of the block's third loop. -/
def pair_config (variant : Variant) (lustre : Bool) (s : Strategy)
    (ia file_size io_size p : Nat) : Config :=
  { variant := variant, lustre := lustre, strategy := s, file_size := file_size,
    io_size := io_size, io_interarrival_time_ns := ia, prefetch_param := p }

/-- The state is the one of an `exit` taken right after a failed read: the last
two calls are the read, whose `ret` is negative, and the `printf` of the error
message, and no read was issued after it. -/
def exited_after_read (env : Env) (c : Config) (x : Run) : Prop :=
  ∃ (t : List Event) (w : Bool) (j : Nat), x.io_calls = j + 1 ∧
    read_ret c.strategy c.io_size (env.read_result j) < 0 ∧
    x.trace = t ++ [Event.read w c.io_size
      (read_ret c.strategy c.io_size (env.read_result j)), Event.printf_read_error]

/-- The state is the one of an `exit` taken inside `client_cache_drop`: the
`open` or the `write` of that call failed, and the last call is the `printf` of
its error message. -/
def exited_in_drop (env : Env) (x : Run) : Prop :=
  ∃ t : List Event,
    ((env.drop_caches t.length).1 < 0 ∨ (env.drop_caches t.length).2 < 0) ∧
      x.trace = t ++ [Event.printf_drop_error]

/-- The reads of the timed loops in a trace: the requested size and the `ret` of
each. -/
def timed_reads_of (t : List Event) : List (Nat × Int) :=
  t.filterMap fun e =>
    match e with
    | Event.read false n ret => some (n, ret)
    | _ => none

/-- The sample environment with other read results: the j-th read returns
`f j`. -/
def sample_env_with_reads (f : Nat → Int) : Env :=
  { sample_env with read_result := f }

/-- A sample experiment of the O_DIRECT block: the sequential program on a
12-byte file read 4 bytes at a time, unpaced. -/
def sample_o_direct_config : Config :=
  { variant := Variant.sequential, lustre := false, strategy := Strategy.o_direct,
    file_size := 12, io_size := 4, io_interarrival_time_ns := 0, prefetch_param := 0 }

/-- An experiment of the "Not cached" block of the sequential program whose loop
variable wraps: `file_size = 2 ^ 64 - 1` and `io_size = 2 ^ 63`. -/
def wrap_config : Config :=
  { variant := Variant.sequential, lustre := false, strategy := Strategy.not_cached,
    file_size := 2 ^ 64 - 1, io_size := 2 ^ 63, io_interarrival_time_ns := 0,
    prefetch_param := 0 }

/-- An experiment of the "Not cached" block of the sequential program whose
reads are of `2 ^ 31` bytes: `file_size = 2 ^ 31 + 1` and `io_size = 2 ^ 31`. -/
def full_read_config : Config :=
  { variant := Variant.sequential, lustre := false, strategy := Strategy.not_cached,
    file_size := 2 ^ 31 + 1, io_size := 2 ^ 31, io_interarrival_time_ns := 0,
    prefetch_param := 0 }

/-! ## The formatter's arguments -/

/-- An argument has the type that a conversion specifier expects: `%s` a string,
`%llu` a 64-bit unsigned integer, `%d` an `int`, `%.3f` a `double`. -/
def Arg.fits : Conv → Arg → Bool
  | Conv.str, Arg.target_file => true
  | Conv.llu, Arg.u64 _ => true
  | Conv.d, Arg.int _ => true
  | Conv.f3, Arg.throughput _ _ => true
  | _, _ => false

/-- The arguments of a result line match its conversion specifiers one-to-one in
number and order. -/
def RecordCall.well_formed (rc : RecordCall) : Bool :=
  decide (rc.conversions.length = rc.args.length) &&
    (List.zipWith Arg.fits rc.conversions rc.args).all id

/-! ## The function main -/

/-- The calls of `main`. -/
inductive MainCall
  | fopen (name : String)
  | printf_open_error
  | exit (status : Nat)
  | perform_baseline_benchmark
  | perform_offline_prefetch_benchmark
  | perform_jit_prefetch_benchmark
  | perform_online_prefetch_benchmark
  | fclose
  deriving DecidableEq, Repr

/-- The test on the result of `fopen`, a pointer given by its address (the null
pointer is the address 0): `if(log_file < 0)` in the sequential program,
`if(log_file <= 0)` in the random program.  The comparison is the one of the
address with the address of the null pointer. -/
def open_failure_test (variant : Variant) (log_file : Nat) : Bool :=
  match variant with
  | Variant.sequential => decide (log_file < 0)
  | Variant.random => decide (log_file ≤ 0)

/-- The calls of `main` when `fopen` returns the pointer `log_file`. -/
def main (variant : Variant) (lustre : Bool) (log_file : Nat) : List MainCall :=
  MainCall.fopen (if lustre then "output-lustre.csv" else "output.csv") ::
    (if open_failure_test variant log_file then
      [MainCall.printf_open_error, MainCall.exit 0]
    else
      match variant with
      | Variant.sequential =>
        [MainCall.perform_baseline_benchmark, MainCall.perform_offline_prefetch_benchmark,
          MainCall.perform_jit_prefetch_benchmark, MainCall.perform_online_prefetch_benchmark,
          MainCall.fclose]
      | Variant.random =>
        [MainCall.perform_baseline_benchmark, MainCall.perform_offline_prefetch_benchmark,
          MainCall.fclose])

/-! ## The function client_cache_drop -/

/-- `#define SECONDARY_IO_SIZE 4194304`. -/
def SECONDARY_IO_SIZE : Nat := 4194304

/-- `#define SECONDARY_IO_COUNT 1024`. -/
def SECONDARY_IO_COUNT : Nat := 1024

/-- The calls of `client_cache_drop`. -/
inductive DropCall
  | sync
  | open_drop_caches
  | printf_open_error
  | write (data : String) (count : Nat)
  | printf_write_error
  | close
  | malloc (size : Nat)
  | read (size : Nat) (ret : Int)
  | free
  | exit (status : Nat)
  deriving DecidableEq, Repr

/-- The loop `for(int i = 0; i<SECONDARY_IO_COUNT; i++) read(fd, buffer, SECONDARY_IO_SIZE);`
whose reads return `reads i`; the returned values are not looked at. -/
def pressure_reads (reads : Nat → Int) : List DropCall :=
  (List.range SECONDARY_IO_COUNT).map fun i => DropCall.read SECONDARY_IO_SIZE (reads i)

/-- The calls of one `client_cache_drop(fd)`, when `open` returns `fd2` and
`write` returns `ret`.  A list that ends with `exit` is a call that does not
return. -/
def client_cache_drop (lustre : Bool) (fd2 ret : Int) (reads : Nat → Int) : List DropCall :=
  [DropCall.sync, DropCall.open_drop_caches] ++
    (if fd2 < 0 then [DropCall.printf_open_error, DropCall.exit 0]
    else
      DropCall.write "3" 1 ::
        (if ret < 0 then [DropCall.printf_write_error, DropCall.exit 0]
        else
          DropCall.close ::
            ((if lustre then []
              else [DropCall.malloc SECONDARY_IO_SIZE] ++ pressure_reads reads ++
                [DropCall.free]) ++
            [DropCall.sync])))

/-- A call is one of the pressure reads. -/
def DropCall.is_read : DropCall → Bool
  | DropCall.read _ _ => true
  | _ => false

/-! ## Online prefetching -/

/-- The prefetch calls in a trace. -/
def prefetch_calls_of (t : List Event) : List Event :=
  t.filter fun e =>
    match e with
    | Event.client_cache_prefetch _ _ => true
    | Event.server_cache_prefetch _ _ => true
    | Event.aio_prefetch _ _ => true
    | _ => false

/-- The prefetch calls that an online block issues over the values `vs` of the
loop variable: the block's calls for `(volume, prefetch_size)` at each value that
is a multiple of `prefetch_size`. -/
def prefetch_schedule (s : Strategy) (prefetch_size : Nat) : List Nat → List Event
  | [] => []
  | v :: vs =>
    (if v % prefetch_size = 0 then online_prefetch s v prefetch_size else []) ++
      prefetch_schedule s prefetch_size vs

/-- A sample experiment of the "fadvise online prefetching" block: a 12-byte
file read 4 bytes at a time with a prefetch every 8 bytes. -/
def sample_online_config : Config :=
  { variant := Variant.sequential, lustre := false, strategy := Strategy.online_fadvise,
    file_size := 12, io_size := 4, io_interarrival_time_ns := 0, prefetch_param := 8 }

/-! ## The advisory calls on the client page cache -/

/-- The advice of a `posix_fadvise` call. -/
inductive Advice
  | POSIX_FADV_DONTNEED
  | POSIX_FADV_WILLNEED
  deriving DecidableEq, Repr

/-- One call `posix_fadvise(fd, offset, len, advice)`: its second, third and
fourth arguments. -/
structure FadviseCall where
  offset : Nat
  len : Nat
  advice : Advice
  deriving DecidableEq, Repr

/-- The call made by `client_cache_evict(fd, offset, length)`:
`posix_fadvise(fd, offset, offset+length, POSIX_FADV_DONTNEED)`, the sum
computed in `uint64_t`. -/
def client_cache_evict (offset length : Nat) : FadviseCall :=
  { offset := offset, len := wadd offset length, advice := Advice.POSIX_FADV_DONTNEED }

/-- The call made by `client_cache_prefetch(fd, offset, length)`:
`posix_fadvise(fd, offset, length, POSIX_FADV_WILLNEED)`. -/
def client_cache_prefetch (offset length : Nat) : FadviseCall :=
  { offset := offset, len := length, advice := Advice.POSIX_FADV_WILLNEED }

/-! ## The open call of the O_DIRECT block -/

/-- The flags that the programs name in their `open` calls. -/
inductive OpenFlag
  | O_RDONLY
  | O_WRONLY
  | O_DIRECT
  | O_SYNC
  deriving DecidableEq, Repr

/-- One call of `open`: the path, the flags or-ed in the second argument, and the
flags or-ed in the third argument (which `open` takes as the file mode). -/
structure OpenCall where
  path : String
  flags : List OpenFlag
  mode : List OpenFlag
  deriving DecidableEq, Repr

/-- `#define TARGET_FILE` of each build. -/
def TARGET_FILE (lustre : Bool) : String :=
  if lustre then "/fs1/nicolasl/random_file.bin" else "/mnt/disk/nicolasl/random_file.bin"

/-- The call `open(TARGET_FILE, O_RDONLY, O_DIRECT | O_SYNC)` that opens the
file read by the block whose result lines are labelled `O_DIRECT` (the same in
both programs). -/
def o_direct_open (lustre : Bool) : OpenCall :=
  { path := TARGET_FILE lustre, flags := [OpenFlag.O_RDONLY],
    mode := [OpenFlag.O_DIRECT, OpenFlag.O_SYNC] }

/-! ## The columns of a result line -/

/-- The names that the format of a block's result line gives to its conversion
specifiers, in order (`category` and `label` are literal text of the format). -/
def column_names (s : Strategy) : List String :=
  if s.is_jit then
    ["target", "file_size", "interarrival_time_us", "io_size", "prefetch_delay",
      "throughput_gb_per_second"]
  else if s.is_online then
    ["target", "file_size", "interarrival_time_us", "io_size", "prefetch_size",
      "throughput_gb_per_second"]
  else
    ["target", "file_size", "interarrival_time_us", "io_size", "throughput_gb_per_second"]

/-- A clock that reads 20 s at its first reading and 0 s afterwards: the wall
clock is stepped back after `t0` is taken. -/
def stepped_back_clock (k : Nat) : Int := if k = 0 then 20 else 0

/-! ## The pressure reads of client_cache_drop -/

/-- The file a descriptor is open on. -/
inductive FileId
  | target_file
  | drop_caches
  | output_file
  deriving DecidableEq, Repr

/-- An open file descriptor: its file and its position. -/
structure Descriptor where
  file : FileId
  position : Nat
  deriving DecidableEq, Repr

/-- One `read(fd, buffer, SECONDARY_IO_SIZE)` of `client_cache_drop`: the file and
the position of `fd` at the call, the requested size, the returned value. -/
structure PressureRead where
  file : FileId
  position : Nat
  size : Nat
  ret : Int
  deriving DecidableEq, Repr

/-- The `n` reads `read(fd, buffer, SECONDARY_IO_SIZE)` of `client_cache_drop(fd)`
from the `j`-th on, the `i`-th returning `reads i`.  The function is given the
descriptor, reads from it and does not move it otherwise; a read that returns a
count moves the position of the descriptor forward by that count. -/
def pressure_reads_from (reads : Nat → Int) : Nat → Nat → Descriptor → List PressureRead
  | 0, _, _ => []
  | n + 1, j, d =>
    { file := d.file, position := d.position, size := SECONDARY_IO_SIZE, ret := reads j } ::
      pressure_reads_from reads n (j + 1) { d with position := d.position + (reads j).toNat }

/-- The descriptor `fd` of the O_DIRECT block when its first pass calls
`client_cache_drop(fd)`: it comes from `open(TARGET_FILE, ...)`, and the calls
in between (`malloc`, `get_timestamp_us`, in the Lustre build
`server_cache_evict`) do not read from it. -/
def first_drop_descriptor : Descriptor := { file := FileId.target_file, position := 0 }

/-- The pressure reads of the first `client_cache_drop(fd)` of a run in the
build without Lustre. -/
def first_drop_reads (reads : Nat → Int) : List PressureRead :=
  pressure_reads_from reads SECONDARY_IO_COUNT 0 first_drop_descriptor

/-! ## The buffer of aio_prefetch -/

/-- `static const int file_size_count` of each program. -/
def file_size_count : Variant → Nat
  | Variant.sequential => 3
  | Variant.random => 1

/-- The size `sizeof(char)*file_sizes[file_size_count-1]` of the buffer of
`aio_prefetch`. -/
def aio_buffer_size (variant : Variant) : Nat :=
  (file_sizes variant).getD (file_size_count variant - 1) 0

/-- The calls of `aio_prefetch`. -/
inductive AioCall
  | malloc (size : Nat)
  | lseek_cur
  | aio_read (offset nbytes : Nat)
  | lseek_set
  deriving DecidableEq, Repr

/-- A call of `malloc`. -/
def AioCall.is_malloc : AioCall → Bool
  | AioCall.malloc _ => true
  | _ => false

/-- One call `aio_prefetch(fd, offset, length)` when the `static char *buffer`
holds the address `buffer` (0 = null) and `malloc` would return
`malloc_result`: the new value of `buffer` and the calls made. -/
def aio_prefetch (variant : Variant) (malloc_result buffer offset length : Nat) :
    Nat × List AioCall :=
  if buffer = 0 then
    (malloc_result, [AioCall.malloc (aio_buffer_size variant), AioCall.lseek_cur,
      AioCall.aio_read offset length, AioCall.lseek_set])
  else
    (buffer, [AioCall.lseek_cur, AioCall.aio_read offset length, AioCall.lseek_set])

/-- The calls made by the successive calls `aio_prefetch(fd, offset, length)` of
a run, for the given `(offset, length)` pairs; the `k`-th call of `malloc`
returns `mallocs k`. -/
def aio_prefetches (variant : Variant) (mallocs : Nat → Nat) :
    List (Nat × Nat) → Nat → Nat → List AioCall
  | [], _, _ => []
  | call :: rest, buffer, k =>
    (aio_prefetch variant (mallocs k) buffer call.1 call.2).2 ++
      aio_prefetches variant mallocs rest
        (aio_prefetch variant (mallocs k) buffer call.1 call.2).1
        (if buffer = 0 then k + 1 else k)

/-- An experiment of the "fadvise online prefetching" block whose loop variable
wraps: `file_size = 2 ^ 64 - 1`, `io_size = 2 ^ 62`, `prefetch_size = 2 ^ 63` (a
pair with `prefetch_size > io_size`, which the block does not skip). -/
def wrap_online_config : Config :=
  { variant := Variant.sequential, lustre := false, strategy := Strategy.online_fadvise,
    file_size := 2 ^ 64 - 1, io_size := 2 ^ 62, io_interarrival_time_ns := 0,
    prefetch_param := 2 ^ 63 }

/-! ## Theorems -/

theorem for_volume_count (cond : Nat → Bool) (S : Nat) :
    ∀ (n k fuel : Nat), (∀ i, k ≤ i → i < k + n → cond (i * S) = true) →
      cond ((k + n) * S) = false → (k + n) * S < 2 ^ 64 → n < fuel →
      for_volume cond S fuel (k * S) =
        some ((List.range' k n).map (fun i => i * S), (k + n) * S) := by
  intro n
  induction n with
  | zero =>
    intro k fuel _ hfalse _ hfuel
    obtain ⟨fuel, rfl⟩ : ∃ f, fuel = f + 1 := ⟨fuel - 1, by omega⟩
    simp only [Nat.add_zero] at hfalse
    simp [for_volume, hfalse]
  | succ n ih =>
    intro k fuel htrue hfalse hlt hfuel
    obtain ⟨fuel, rfl⟩ : ∃ f, fuel = f + 1 := ⟨fuel - 1, by omega⟩
    have hstep : wadd (k * S) S = (k + 1) * S := by
      have : (k + 1) * S ≤ (k + (n + 1)) * S := Nat.mul_le_mul_right _ (by omega)
      unfold wadd
      rw [Nat.mod_eq_of_lt (by nlinarith)]
      ring
    have e : k + 1 + n = k + (n + 1) := by omega
    rw [for_volume, if_pos (htrue k (le_refl _) (by omega)), hstep,
      ih (k + 1) fuel (fun i h1 h2 => htrue i (by omega) (by omega)) (by rw [e]; exact hfalse)
        (by rw [e]; exact hlt) (by omega)]
    simp [List.range', e]

theorem for_volume_one (cond : Nat → Bool) (S fuel : Nat) (h0 : cond 0 = true)
    (h1 : cond (wadd 0 S) = false) :
    for_volume cond S (fuel + 2) 0 = some ([0], wadd 0 S) := by
  simp [for_volume, h0, h1]

theorem ceil_div_spec (F S : Nat) (hF : 1 ≤ F) (hS : 1 ≤ S) :
    F ≤ ceil_div F S * S ∧ (ceil_div F S - 1) * S < F ∧ 1 ≤ ceil_div F S := by
  unfold ceil_div
  have h1 := Nat.div_add_mod (F + S - 1) S
  have h2 := Nat.mod_lt (F + S - 1) (show S > 0 by omega)
  have hpos : 1 ≤ (F + S - 1) / S := by
    rw [Nat.one_le_div_iff (by omega)]
    omega
  obtain ⟨q, hq⟩ : ∃ q, (F + S - 1) / S = q + 1 := ⟨(F + S - 1) / S - 1, by omega⟩
  rw [hq] at h1 ⊢
  have e1 : S * (q + 1) = q * S + S := by ring
  have e2 : (q + 1) * S = q * S + S := by ring
  simp only [Nat.add_sub_cancel]
  refine ⟨?_, ?_, by omega⟩ <;> omega

theorem sequential_for_volume (F S fuel : Nat) (hS : 1 ≤ S) (hSF : S ≤ F)
    (hwrap : ceil_div F S * S < 2 ^ 64) (hfuel : ceil_div F S < fuel) :
    for_volume (sequential_cond F) S fuel 0 =
      some ((List.range (ceil_div F S)).map (fun i => i * S), ceil_div F S * S) := by
  obtain ⟨h1, h2, h3⟩ := ceil_div_spec F S (by omega) hS
  have h := for_volume_count (sequential_cond F) S (ceil_div F S) 0 fuel
    (fun i _ hi => by
      have : i * S ≤ (ceil_div F S - 1) * S := Nat.mul_le_mul_right _ (by omega)
      simp only [sequential_cond, decide_eq_true_eq]
      omega)
    (by simpa [sequential_cond] using h1) (by simpa using hwrap) hfuel
  simpa [List.range_eq_range'] using h

/-- C1 (as amended).  For every file size `F ≥ 1` and I/O size `S` with
`1 ≤ S ≤ F` such that `⌈F/S⌉ * S` is below `2 ^ 64` (the 64-bit loop variable does
not wrap), one sequential pass runs its body, hence issues a read, exactly
`⌈F/S⌉` times, the loop variable takes exactly the values
`0, S, 2S, ..., (⌈F/S⌉ - 1) * S`, the last of them is below `F`, and the loop is
left with `volume = ⌈F/S⌉ * S`. -/
theorem sequential_pass_offsets (F S fuel : Nat) (hS : 1 ≤ S) (hSF : S ≤ F)
    (hwrap : ceil_div F S * S < 2 ^ 64) (hfuel : ceil_div F S < fuel) :
    for_volume (sequential_cond F) S fuel 0 =
        some ((List.range (ceil_div F S)).map (fun i => i * S), ceil_div F S * S) ∧
      ((List.range (ceil_div F S)).map (fun i => i * S)).length = ceil_div F S ∧
      (ceil_div F S - 1) * S < F :=
  ⟨sequential_for_volume F S fuel hS hSF hwrap hfuel, by simp,
    (ceil_div_spec F S (by omega) hS).2.1⟩

/-- Witness of `sequential_pass_offsets`: a 10-byte file read 3 bytes at a time. -/
theorem sequential_pass_offsets_witness :
    for_volume (sequential_cond 10) 3 5 0 =
        some ((List.range (ceil_div 10 3)).map (fun i => i * 3), ceil_div 10 3 * 3) ∧
      ((List.range (ceil_div 10 3)).map (fun i => i * 3)).length = ceil_div 10 3 ∧
      (ceil_div 10 3 - 1) * 3 < 10 :=
  sequential_pass_offsets 10 3 5 (by decide) (by decide) (by decide) (by decide)

theorem sequential_wrap_loops :
    ∀ fuel, for_volume (sequential_cond (2 ^ 64 - 1)) (2 ^ 63) fuel 0 = none ∧
      for_volume (sequential_cond (2 ^ 64 - 1)) (2 ^ 63) fuel (2 ^ 63) = none := by
  intro fuel
  induction fuel with
  | zero => exact ⟨rfl, rfl⟩
  | succ n ih =>
    have c0 : sequential_cond (2 ^ 64 - 1) 0 = true := by decide
    have c1 : sequential_cond (2 ^ 64 - 1) (2 ^ 63) = true := by decide
    have w0 : wadd 0 (2 ^ 63) = 2 ^ 63 := by decide
    have w1 : wadd (2 ^ 63) (2 ^ 63) = 0 := by decide
    constructor
    · rw [for_volume, if_pos c0, w0, ih.2]
    · rw [for_volume, if_pos c1, w1, ih.1]

/-- C1 (counterexample to the claim as stated).  `F = 2 ^ 64 - 1` and `S = 2 ^ 63`
satisfy `1 ≤ S ≤ F`, but the loop variable goes `0, 2 ^ 63, 0, 2 ^ 63, ...`: the
third value is not `2 * S`, and the pass never ends, in particular not after
`⌈F/S⌉ = 2` reads. -/
theorem sequential_pass_offsets_counterexample :
    (1 ≤ 2 ^ 63 ∧ 2 ^ 63 ≤ 2 ^ 64 - 1) ∧ ceil_div (2 ^ 64 - 1) (2 ^ 63) = 2 ∧
      wadd (wadd 0 (2 ^ 63)) (2 ^ 63) = 0 ∧
      ¬ ∃ fuel r, for_volume (sequential_cond (2 ^ 64 - 1)) (2 ^ 63) fuel 0 = some r := by
  refine ⟨by decide, by decide, by decide, ?_⟩
  rintro ⟨fuel, r, h⟩
  rw [(sequential_wrap_loops fuel).1] at h
  exact Option.noConfusion h

/-- C2.  For every file size `F ≥ 1` that fits `uint64_t` and every draw
`0 ≤ r ≤ RAND_MAX`, the divisor `RAND_MAX / F + 1` is not zero, the offset
`r / (RAND_MAX / F + 1)` is defined, and it is below `F`. -/
theorem random_offset_in_range (F r : Nat) (hF : 1 ≤ F) (hF64 : F < 2 ^ 64)
    (hr : r ≤ RAND_MAX) :
    wadd (RAND_MAX / F) 1 ≠ 0 ∧
      ∃ o, random_offset r F = some o ∧ o = r / (RAND_MAX / F + 1) ∧ 0 ≤ o ∧ o < F := by
  have hq : RAND_MAX / F ≤ RAND_MAX := Nat.div_le_self _ _
  have hM : RAND_MAX = 2147483647 := rfl
  have hw : wadd (RAND_MAX / F) 1 = RAND_MAX / F + 1 := by
    unfold wadd
    exact Nat.mod_eq_of_lt (by omega)
  have hne : wadd (RAND_MAX / F) 1 ≠ 0 := by rw [hw]; exact Nat.succ_ne_zero _
  refine ⟨hne, r / (RAND_MAX / F + 1), ?_, rfl, Nat.zero_le _, ?_⟩
  · have hF0 : ¬ F = 0 := by omega
    unfold random_offset
    rw [if_neg hF0, if_neg hne, hw]
  · rw [Nat.div_lt_iff_lt_mul (Nat.succ_pos _)]
    have h1 := Nat.div_add_mod RAND_MAX F
    have h2 := Nat.mod_lt RAND_MAX (show F > 0 by omega)
    have e : F * (RAND_MAX / F + 1) = F * (RAND_MAX / F) + F := by ring
    rw [e]
    omega

/-- Witness of `random_offset_in_range`: the configured 1 GiB file and the largest
draw. -/
theorem random_offset_in_range_witness :
    wadd (RAND_MAX / 2 ^ 30) 1 ≠ 0 ∧
      ∃ o, random_offset RAND_MAX (2 ^ 30) = some o ∧
        o = RAND_MAX / (RAND_MAX / 2 ^ 30 + 1) ∧ 0 ≤ o ∧ o < 2 ^ 30 :=
  random_offset_in_range (2 ^ 30) RAND_MAX (by decide) (by decide) (by decide)

theorem binade_shift_small (p : Nat) (h : p < 2 ^ 53) : binade_shift p = 0 := by
  unfold binade_shift
  by_cases hp : p = 0
  · subst hp; simp [Nat.log2]
  · have := (Nat.log2_lt hp).2 h
    omega

theorem binade_shift_large (p : Nat) (h : 2 ^ 53 ≤ p) :
    2 ^ 52 * 2 ^ binade_shift p ≤ p ∧ p < 2 ^ 53 * 2 ^ binade_shift p ∧
      1 ≤ binade_shift p := by
  have hp : p ≠ 0 := by
    have : 0 < 2 ^ 53 := by positivity
    omega
  have h1 : 53 ≤ Nat.log2 p := (Nat.le_log2 hp).2 h
  have h2 := Nat.log2_self_le hp
  have h3 := @Nat.lt_log2_self p
  have e : binade_shift p = Nat.log2 p - 52 := by unfold binade_shift; omega
  rw [e, ← pow_add, ← pow_add]
  have e1 : 52 + (Nat.log2 p - 52) = Nat.log2 p := by omega
  have e2 : 53 + (Nat.log2 p - 52) = Nat.log2 p + 1 := by omega
  rw [e1, e2]
  exact ⟨h2, h3, by omega⟩

theorem round_at_le (s p : Nat) : round_at s p ≤ (p / 2 ^ s + 1) * 2 ^ s := by
  have hm : 0 < 2 ^ s := by positivity
  unfold round_at
  split_ifs <;> nlinarith

theorem round_at_ge (s p : Nat) : p / 2 ^ s * 2 ^ s ≤ round_at s p := by
  have hm : 0 < 2 ^ s := by positivity
  unfold round_at
  split_ifs <;> nlinarith

theorem round_at_near (s p : Nat) : 2 * p ≤ 2 * round_at s p + 2 ^ s := by
  have hm : 0 < 2 ^ s := by positivity
  have h1 := Nat.div_add_mod p (2 ^ s)
  have h2 := Nat.mod_lt p hm
  unfold round_at
  split_ifs <;> nlinarith

theorem round_at_exact (s p a : Nat) (hdvd : 2 ^ s ∣ a) (hle : a ≤ p)
    (hclose : 2 * (p - a) < 2 ^ s) : round_at s p = a := by
  have hm : 0 < 2 ^ s := by positivity
  obtain ⟨t, rfl⟩ := hdvd
  obtain ⟨d, rfl⟩ : ∃ d, p = 2 ^ s * t + d := ⟨p - 2 ^ s * t, by omega⟩
  have hd : d < 2 ^ s := by omega
  have e1 : (2 ^ s * t + d) % 2 ^ s = d := by
    rw [Nat.mul_add_mod, Nat.mod_eq_of_lt hd]
  have e2 : (2 ^ s * t + d) / 2 ^ s = t := by
    rw [Nat.mul_add_div hm, Nat.div_eq_of_lt hd, Nat.add_zero]
  unfold round_at
  rw [e1, e2, if_pos (by omega), Nat.mul_comm]

theorem round_at_le_of_dvd (s p a : Nat) (hdvd : 2 ^ s ∣ a) (hle : p ≤ a) :
    round_at s p ≤ a := by
  have hm : 0 < 2 ^ s := by positivity
  obtain ⟨t, rfl⟩ := hdvd
  have h1 := Nat.div_add_mod p (2 ^ s)
  by_cases hr : p % 2 ^ s = 0
  · have : round_at s p = p := by
      apply round_at_exact s p p
      · exact Nat.dvd_of_mod_eq_zero hr
      · exact le_refl _
      · simp
    omega
  · have hlt : p / 2 ^ s < t := by
      by_contra hcon
      push_neg at hcon
      have : 2 ^ s * t ≤ 2 ^ s * (p / 2 ^ s) := Nat.mul_le_mul_left _ hcon
      omega
    calc round_at s p ≤ (p / 2 ^ s + 1) * 2 ^ s := round_at_le s p
      _ ≤ t * 2 ^ s := Nat.mul_le_mul_right _ hlt
      _ = 2 ^ s * t := Nat.mul_comm _ _

theorem binade_shift_eq (p s : Nat) (h1 : 2 ^ (52 + s) ≤ p) (h2 : p < 2 ^ (53 + s)) :
    binade_shift p = s := by
  have hp : p ≠ 0 := by
    have : 0 < 2 ^ (52 + s) := by positivity
    omega
  have a1 : 52 + s ≤ Nat.log2 p := (Nat.le_log2 hp).2 h1
  have a2 : Nat.log2 p < 53 + s := (Nat.log2_lt hp).2 h2
  unfold binade_shift
  omega

theorem binade_shift_le (p b : Nat) (h : p < 2 ^ (53 + b)) : binade_shift p ≤ b := by
  rcases Nat.lt_or_ge p (2 ^ 53) with h1 | h1
  · rw [binade_shift_small p h1]; exact Nat.zero_le _
  · obtain ⟨h2, _, _⟩ := binade_shift_large p h1
    have h3 : 2 ^ (52 + binade_shift p) < 2 ^ (53 + b) := by
      rw [pow_add]; omega
    have := (Nat.pow_lt_pow_iff_right (by norm_num : 1 < 2)).1 h3
    omega

theorem round53_exact (p : Nat) (h : p ≤ 2 ^ 53) : round53 p = p := by
  rcases Nat.lt_or_ge p (2 ^ 53) with h1 | h1
  · unfold round53
    rw [binade_shift_small p h1]
    exact round_at_exact 0 p p (by simp) (le_refl _) (by simp)
  · have hp : p = 2 ^ 53 := le_antisymm h h1
    have hs : binade_shift p ≤ 1 := binade_shift_le p 1 (by rw [hp]; norm_num)
    have h2 : 2 ^ binade_shift p ∣ 2 ^ 53 := Nat.pow_dvd_pow 2 (by omega)
    have hdvd : 2 ^ binade_shift p ∣ p := by
      obtain ⟨t, ht⟩ := h2
      exact ⟨t, hp.trans ht⟩
    unfold round53
    exact round_at_exact _ p p hdvd (le_refl _) (by simp)

theorem round53_ge (p : Nat) (h : 2 ^ 53 ≤ p) : 2 ^ 53 ≤ round53 p := by
  obtain ⟨h1, _, h3⟩ := binade_shift_large p h
  have hm : 0 < 2 ^ binade_shift p := by positivity
  have hq : 2 ^ 52 ≤ p / 2 ^ binade_shift p := (Nat.le_div_iff_mul_le hm).2 h1
  have h2 : 2 ^ 1 ≤ 2 ^ binade_shift p := Nat.pow_le_pow_right (by norm_num) h3
  have h4 := round_at_ge (binade_shift p) p
  unfold round53
  calc 2 ^ 53 = 2 ^ 52 * 2 ^ 1 := by norm_num
    _ ≤ p / 2 ^ binade_shift p * 2 ^ binade_shift p := Nat.mul_le_mul hq h2
    _ ≤ _ := h4

/-- The double comparison `volume < file_size*0.1` agrees with the exact
comparison `10 * volume < file_size` for every file size up to `2 ^ 53`. -/
theorem random_cond_iff (F v : Nat) (hF : 1 ≤ F) (hF53 : F ≤ 2 ^ 53) :
    random_cond F v = true ↔ 10 * v < F := by
  have hP : F * 3602879701896397 < 2 ^ (53 + 52) := by norm_num; omega
  have hs : binade_shift (F * 3602879701896397) ≤ 52 := binade_shift_le _ _ hP
  have hm : 2 ^ binade_shift (F * 3602879701896397) ≤ 2 ^ 52 :=
    Nat.pow_le_pow_right (by norm_num) hs
  have hmpos : 0 < 2 ^ binade_shift (F * 3602879701896397) := by positivity
  have hnear := round_at_near (binade_shift (F * 3602879701896397)) (F * 3602879701896397)
  unfold random_cond
  rw [round53_exact F hF53, decide_eq_true_iff]
  change round53 v * 2 ^ 55 < round_at _ _ ↔ _
  constructor
  · intro h
    by_contra hcon
    push_neg at hcon
    rcases Nat.lt_or_ge v (2 ^ 53) with hv | hv
    · rw [round53_exact v (le_of_lt hv)] at h
      have hdvd : 2 ^ binade_shift (F * 3602879701896397) ∣ v * 2 ^ 55 :=
        Dvd.dvd.mul_left (Nat.pow_dvd_pow 2 (by omega)) v
      rcases Nat.lt_or_ge (v * 2 ^ 55) (F * 3602879701896397) with hlt | hge
      · have hbig : 2 ^ 53 ≤ F * 3602879701896397 := by norm_num at hlt ⊢; omega
        obtain ⟨_, h2, _⟩ := binade_shift_large _ hbig
        have := round_at_exact (binade_shift (F * 3602879701896397)) (F * 3602879701896397)
          (v * 2 ^ 55) hdvd (le_of_lt hlt) (by norm_num at h2 hlt ⊢; omega)
        omega
      · have := round_at_le_of_dvd (binade_shift (F * 3602879701896397))
          (F * 3602879701896397) (v * 2 ^ 55) hdvd hge
        omega
    · have h1 := round53_ge v hv
      have hdvd : 2 ^ binade_shift (F * 3602879701896397) ∣ 2 ^ 105 :=
        Nat.pow_dvd_pow 2 (by omega)
      have := round_at_le_of_dvd (binade_shift (F * 3602879701896397))
        (F * 3602879701896397) (2 ^ 105) hdvd (le_of_lt hP)
      norm_num at h h1 this
      omega
  · intro h
    have hv : v ≤ 2 ^ 53 := by norm_num at hF53 ⊢; omega
    rw [round53_exact v hv]
    norm_num at hnear hm ⊢
    omega


theorem random_volume_bounds (F S : Nat) (hF : 1 ≤ F) (hF53 : F ≤ 2 ^ 53) (hS : 1 ≤ S)
    (hS64 : S < 2 ^ 64) :
    F ≤ 10 * (ceil_div F (10 * S) * S) ∧
      (∀ m, m < ceil_div F (10 * S) → 10 * (m * S) < F) ∧
      10 * (ceil_div F (10 * S) * S) < F + 10 * S ∧
      ceil_div F (10 * S) * S < 2 ^ 64 ∧ 1 ≤ ceil_div F (10 * S) := by
  obtain ⟨h1, h2, h3⟩ := ceil_div_spec F (10 * S) hF (by omega)
  generalize ceil_div F (10 * S) = n at *
  have e1 : n * (10 * S) = 10 * (n * S) := by ring
  have e2 : (n - 1) * (10 * S) = 10 * ((n - 1) * S) := by ring
  have e3 : n * S = (n - 1) * S + S := by
    obtain ⟨j, rfl⟩ : ∃ j, n = j + 1 := ⟨n - 1, by omega⟩
    simp only [Nat.add_sub_cancel]; ring
  rw [e1] at h1
  rw [e2] at h2
  have hmono : ∀ m, m < n → 10 * (m * S) < F := by
    intro m hm
    have : m * S ≤ (n - 1) * S := Nat.mul_le_mul_right _ (by omega)
    omega
  have hwrap : n * S < 2 ^ 64 := by
    rcases Nat.lt_or_ge n 2 with hn | hn
    · have : n = 1 := by omega
      subst this; simpa using hS64
    · have : 1 * S ≤ (n - 1) * S := Nat.mul_le_mul_right _ (by omega)
      norm_num at hF53 ⊢
      omega
  exact ⟨h1, hmono, by omega, hwrap, h3⟩

theorem random_for_volume (F S fuel : Nat) (hF : 1 ≤ F) (hF53 : F ≤ 2 ^ 53) (hS : 1 ≤ S)
    (hS64 : S < 2 ^ 64) (hfuel : ceil_div F (10 * S) < fuel) :
    for_volume (random_cond F) S fuel 0 =
      some ((List.range (ceil_div F (10 * S))).map (fun i => i * S),
        ceil_div F (10 * S) * S) := by
  obtain ⟨h1, hmono, _, hwrap, _⟩ := random_volume_bounds F S hF hF53 hS hS64
  have h := for_volume_count (random_cond F) S (ceil_div F (10 * S)) 0 fuel
    (fun i _ hi => (random_cond_iff F (i * S) hF hF53).2 (hmono i (by omega)))
    (by
      rw [Bool.eq_false_iff, Ne, random_cond_iff F _ hF hF53]
      simp only [Nat.zero_add]; omega)
    (by simpa using hwrap) hfuel
  simpa [List.range_eq_range'] using h

/-- C4 (as amended).  For every file size `1 ≤ F ≤ 2 ^ 53` (the sizes that the
conversion to `double` keeps exact) and every I/O size `S ≥ 1`, one random pass
issues the smallest number `n` of reads with `n * S ≥ F / 10` (the tenth taken
exactly, not rounded down), its loop variable takes the values
`0, S, ..., (n - 1) * S`, and the volume `V = n * S` it accounts satisfies
`F / 10 ≤ V < F / 10 + S`. -/
theorem random_pass_volume (F S fuel : Nat) (hF : 1 ≤ F) (hF53 : F ≤ 2 ^ 53) (hS : 1 ≤ S)
    (hS64 : S < 2 ^ 64) (hfuel : ceil_div F (10 * S) < fuel) :
    for_volume (random_cond F) S fuel 0 =
        some ((List.range (ceil_div F (10 * S))).map (fun i => i * S),
          ceil_div F (10 * S) * S) ∧
      (F : ℚ) / 10 ≤ ((ceil_div F (10 * S) * S : ℕ) : ℚ) ∧
      (∀ m : ℕ, m < ceil_div F (10 * S) → ((m * S : ℕ) : ℚ) < (F : ℚ) / 10) ∧
      ((ceil_div F (10 * S) * S : ℕ) : ℚ) < (F : ℚ) / 10 + S := by
  obtain ⟨h1, hmono, h3, _, _⟩ := random_volume_bounds F S hF hF53 hS hS64
  refine ⟨random_for_volume F S fuel hF hF53 hS hS64 hfuel, ?_, ?_, ?_⟩
  · rw [div_le_iff₀ (by norm_num)]
    exact_mod_cast (by omega : F ≤ ceil_div F (10 * S) * S * 10)
  · intro m hm
    rw [lt_div_iff₀ (by norm_num)]
    exact_mod_cast (by have := hmono m hm; omega : m * S * 10 < F)
  · have h : ((ceil_div F (10 * S) * S : ℕ) : ℚ) * 10 < (F : ℚ) + (S : ℚ) * 10 := by
      exact_mod_cast (by omega : ceil_div F (10 * S) * S * 10 < F + S * 10)
    linarith

/-- Witness of `random_pass_volume`: the scenario `F = 2 ^ 30`, `S = 2 ^ 20` of the
claim, which gives 103 reads and 108003328 bytes. -/
theorem random_pass_volume_witness :
    (ceil_div (2 ^ 30) (10 * 2 ^ 20) = 103 ∧ 103 * 2 ^ 20 = 108003328) ∧
      for_volume (random_cond (2 ^ 30)) (2 ^ 20) 104 0 =
        some ((List.range (ceil_div (2 ^ 30) (10 * 2 ^ 20))).map (fun i => i * 2 ^ 20),
          ceil_div (2 ^ 30) (10 * 2 ^ 20) * 2 ^ 20) ∧
      ((2 ^ 30 : ℕ) : ℚ) / 10 ≤ ((ceil_div (2 ^ 30) (10 * 2 ^ 20) * 2 ^ 20 : ℕ) : ℚ) ∧
      (∀ m : ℕ, m < ceil_div (2 ^ 30) (10 * 2 ^ 20) →
        ((m * 2 ^ 20 : ℕ) : ℚ) < ((2 ^ 30 : ℕ) : ℚ) / 10) ∧
      ((ceil_div (2 ^ 30) (10 * 2 ^ 20) * 2 ^ 20 : ℕ) : ℚ) <
        ((2 ^ 30 : ℕ) : ℚ) / 10 + (2 ^ 20 : ℕ) :=
  ⟨⟨by norm_num [ceil_div], by norm_num⟩,
    random_pass_volume (2 ^ 30) (2 ^ 20) 104 (by norm_num) (by norm_num)
      (by norm_num) (by norm_num) (by norm_num [ceil_div])⟩

/-- C4 (counterexample to the claim as stated).  For `F = 2 ^ 53 + 9` and
`S = 900719925474100` the conversion of `F` to `double` rounds it down to
`10 * S`, the product with `0.1` rounds to `S`, and the pass stops after one
read with `V = S`, which is below `F / 10`: one read is not enough to reach a
tenth of the file. -/
theorem random_pass_volume_counterexample :
    for_volume (random_cond 9007199254741001) 900719925474100 3 0 =
        some ([0], 900719925474100) ∧
      ((900719925474100 : ℕ) : ℚ) < ((9007199254741001 : ℕ) : ℚ) / 10 := by
  have hF : round53 9007199254741001 = 9007199254741000 := by
    unfold round53
    rw [binade_shift_eq 9007199254741001 1 (by norm_num) (by norm_num)]
    norm_num [round_at]
  have hP : round53 (9007199254741000 * 3602879701896397) = 900719925474100 * 2 ^ 55 := by
    unfold round53
    rw [binade_shift_eq _ 52 (by norm_num) (by norm_num)]
    exact round_at_exact 52 _ _ (Dvd.dvd.mul_left (Nat.pow_dvd_pow 2 (by norm_num)) _)
      (by norm_num) (by norm_num)
  have c0 : random_cond 9007199254741001 0 = true := by
    unfold random_cond
    rw [hF, hP, round53_exact 0 (by norm_num)]
    norm_num
  have c1 : random_cond 9007199254741001 900719925474100 = false := by
    unfold random_cond
    rw [hF, hP, round53_exact 900719925474100 (by norm_num)]
    norm_num
  have w : wadd 0 900719925474100 = 900719925474100 := by norm_num [wadd]
  refine ⟨?_, ?_⟩
  · have h := for_volume_one (random_cond 9007199254741001) 900719925474100 1 c0
      (by rw [w]; exact c1)
    rw [w] at h
    exact h
  · norm_num

/-! ### Frame lemmas: what each statement of a pass changes -/

theorem wadd_wadd (a x y : Nat) : wadd (wadd a x) y = wadd a (x + y) := by
  unfold wadd
  rw [Nat.add_mod, Nat.mod_mod, ← Nat.add_mod, Nat.add_assoc]

theorem wadd_zero_right (a : Nat) (h : a < 2 ^ 64) : wadd a 0 = a := by
  unfold wadd
  rw [Nat.add_zero, Nat.mod_eq_of_lt h]

theorem wsub_of_le (a b : Nat) (hab : b ≤ a) (ha : a < 2 ^ 64) : wsub a b = a - b := by
  unfold wsub
  rw [Nat.mod_eq_of_lt ha, Nat.mod_eq_of_lt (lt_of_le_of_lt hab ha)]
  have e : a + (2 ^ 64 - b) = (a - b) + 2 ^ 64 := by omega
  rw [e, Nat.add_mod_right, Nat.mod_eq_of_lt (by omega)]

theorem reading_lt (env : Env) (k : Nat) : reading env k < 2 ^ 64 := by
  unfold reading timestamp_of wadd
  exact Nat.mod_lt _ (by norm_num)

theorem do_read_ok (env : Env) (c : Config) (w : Bool) (r r1 : Run)
    (h : do_read env c w r = Outcome.ok r1) :
    0 ≤ read_ret c.strategy c.io_size (env.read_result r.io_calls) ∧
      r1 = { r with io_calls := r.io_calls + 1,
                    trace := r.trace ++ [Event.read w c.io_size
                      (read_ret c.strategy c.io_size (env.read_result r.io_calls))] } := by
  unfold do_read at h
  by_cases hneg : read_ret c.strategy c.io_size (env.read_result r.io_calls) < 0
  · simp [hneg] at h
  · simp only [hneg, if_false, Outcome.ok.injEq] at h
    exact ⟨not_lt.1 hneg, h.symm⟩

theorem online_step_ok (c : Config) (v : Nat) (r r1 : Run)
    (h : online_step c v r = Outcome.ok r1) :
    r1 = r.emit_all
      (if c.strategy.is_online = true ∧ v % c.prefetch_param = 0
        then online_prefetch c.strategy v c.prefetch_param else []) := by
  unfold online_step at h
  by_cases h1 : c.strategy.is_online = true
  · by_cases h2 : c.prefetch_param = 0
    · simp [h1, h2] at h
    · by_cases h3 : v % c.prefetch_param = 0
      · simp [h1, h2, h3] at h
        simp [h1, h3, h]
      · simp [h1, h2, h3] at h
        simp [h1, h3, ← h, Run.emit_all]
  · simp [h1] at h
    simp [h1, ← h, Run.emit_all]

theorem random_seek_ok (env : Env) (c : Config) (r r1 : Run)
    (h : random_seek env c r = Outcome.ok r1) :
    (c.variant = Variant.sequential ∧ r1 = r) ∨
      (c.variant = Variant.random ∧
        ∃ offset, random_offset (env.rand r.generator).1 c.file_size = some offset ∧
          r1 = { r with generator := (env.rand r.generator).2,
                        trace := r.trace ++ [Event.seek offset] }) := by
  unfold random_seek at h
  cases hv : c.variant with
  | sequential =>
    rw [hv] at h
    simp only [Outcome.ok.injEq] at h
    exact Or.inl ⟨rfl, h.symm⟩
  | random =>
    rw [hv] at h
    cases ho : random_offset (env.rand r.generator).1 c.file_size with
    | none => rw [ho] at h; cases h
    | some offset =>
      rw [ho] at h
      simp only [Outcome.ok.injEq] at h
      exact Or.inr ⟨rfl, offset, rfl, h.symm⟩

theorem bind_ok {α β : Type} (o : Outcome α) (f : α → Outcome β) (b : β)
    (h : o.bind f = Outcome.ok b) : ∃ a, o = Outcome.ok a ∧ f a = Outcome.ok b := by
  cases o with
  | ok a => exact ⟨a, rfl, h⟩
  | exited st r => cases h
  | fault => cases h
  | out_of_fuel => cases h

/-- The statements of a timed-loop body before the pacing statement leave the
clock cursor and the timing locals alone. -/
theorem timed_body_ok (env : Env) (c : Config) (v : Nat) (r r1 : Run)
    (h : timed_body env c v r = Outcome.ok r1) :
    ∃ r0, r1 = pacing env c r0 ∧ r0.clock_calls = r.clock_calls ∧ r0.t1 = r.t1 ∧
      r0.read_duration = r.read_duration ∧ r0.total_volume = r.total_volume ∧
      r0.experiment_count = r.experiment_count ∧ r0.io_calls = r.io_calls + 1 ∧
      ∃ es, r0.trace = r.trace ++ es ∧
        es = (if c.strategy.is_online = true ∧ v % c.prefetch_param = 0
              then online_prefetch c.strategy v c.prefetch_param else []) ++
            (match c.variant with
             | Variant.sequential => []
             | Variant.random =>
               [Event.seek ((random_offset (env.rand r.generator).1 c.file_size).getD 0)]) ++
            [Event.read false c.io_size
              (read_ret c.strategy c.io_size (env.read_result r.io_calls))] := by
  unfold timed_body at h
  obtain ⟨a, ha, h⟩ := bind_ok _ _ _ h
  obtain ⟨b, hb, h⟩ := bind_ok _ _ _ h
  obtain ⟨d, hd, h⟩ := bind_ok _ _ _ h
  have ha := online_step_ok c v r a ha
  have hd := (do_read_ok env c false b d hd).2
  simp only [Outcome.ok.injEq] at h
  refine ⟨d, h.symm, ?_⟩
  rcases random_seek_ok env c a b hb with ⟨hv, hb⟩ | ⟨hv, off, hoff, hb⟩
  · subst hb; subst hd; subst ha
    simp [Run.emit_all, hv]
  · subst hb; subst hd; subst ha
    simp only [Run.emit_all] at hoff
    simp [Run.emit_all, hv, hoff]

/-! ### Loops -/

/-- A loop that ends normally has run its body at exactly the values that
`for_volume` lists. -/
theorem volume_loop_ok (cond : Nat → Bool) (S : Nat) (body : Nat → Run → Outcome Run) :
    ∀ (fuel v : Nat) (r : Run) (out : Nat × Run),
      volume_loop cond S body fuel v r = Outcome.ok out →
      ∃ vs, for_volume cond S fuel v = some (vs, out.1) ∧
        run_bodies body vs r = Outcome.ok out.2 := by
  intro fuel
  induction fuel with
  | zero => intro v r out h; cases h
  | succ fuel ih =>
    intro v r out h
    unfold volume_loop at h
    by_cases hc : cond v = true
    · rw [if_pos hc] at h
      obtain ⟨r1, hb, h⟩ := bind_ok _ _ _ h
      obtain ⟨vs, hvs, hrun⟩ := ih _ _ _ h
      refine ⟨v :: vs, ?_, ?_⟩
      · rw [for_volume, if_pos hc, hvs]
      · rw [run_bodies, hb]
        exact hrun
    · rw [if_neg hc] at h
      simp only [Outcome.ok.injEq] at h
      subst h
      exact ⟨[], by rw [for_volume, if_neg hc], rfl⟩

/-- Conversely, when the control variable takes the values `vs` within the
fuel, the loop is the run of its bodies at `vs`. -/
theorem volume_loop_of_for_volume (cond : Nat → Bool) (S : Nat)
    (body : Nat → Run → Outcome Run) :
    ∀ (fuel v : Nat) (r : Run) (vs : List Nat) (final : Nat),
      for_volume cond S fuel v = some (vs, final) →
      volume_loop cond S body fuel v r =
        (run_bodies body vs r).bind fun r1 => Outcome.ok (final, r1) := by
  intro fuel
  induction fuel with
  | zero => intro v r vs final h; cases h
  | succ fuel ih =>
    intro v r vs final h
    unfold for_volume at h
    unfold volume_loop
    by_cases hc : cond v = true
    · rw [if_pos hc] at h
      rw [if_pos hc]
      cases hrec : for_volume cond S fuel (wadd v S) with
      | none => rw [hrec] at h; cases h
      | some p =>
        obtain ⟨ws, fin⟩ := p
        rw [hrec] at h
        simp only [Option.some.injEq, Prod.mk.injEq] at h
        obtain ⟨h1, h2⟩ := h
        subst h1; subst h2
        rw [run_bodies]
        cases hb : body v r with
        | ok r1 => simp only [Outcome.bind]; exact ih _ _ _ _ hrec
        | exited st r1 => rfl
        | fault => rfl
        | out_of_fuel => rfl
    · rw [if_neg hc] at h
      rw [if_neg hc]
      simp only [Option.some.injEq, Prod.mk.injEq] at h
      obtain ⟨h1, h2⟩ := h
      subst h1; subst h2
      rfl

/-- An invariant indexed by the number of completed iterations. -/
theorem run_bodies_inv (body : Nat → Run → Outcome Run) (Inv : Nat → Run → Prop)
    (hstep : ∀ i v r r1, Inv i r → body v r = Outcome.ok r1 → Inv (i + 1) r1) :
    ∀ (vs : List Nat) (i : Nat) (r r1 : Run), Inv i r →
      run_bodies body vs r = Outcome.ok r1 → Inv (i + vs.length) r1 := by
  intro vs
  induction vs with
  | nil =>
    intro i r r1 hi h
    simp only [run_bodies, Outcome.ok.injEq] at h
    subst h
    simpa using hi
  | cons v vs ih =>
    intro i r r1 hi h
    rw [run_bodies] at h
    obtain ⟨r2, hb, h⟩ := bind_ok _ _ _ h
    have := ih (i + 1) r2 r1 (hstep i v r r2 hi hb) h
    simpa [Nat.add_assoc, Nat.add_comm 1] using this

theorem pacing_paced (env : Env) (c : Config) (r : Run) (h : c.io_interarrival_time_ns ≠ 0) :
    pacing env c r =
      { r with clock_calls := r.clock_calls + 2,
               t1 := reading env (r.clock_calls + 1),
               read_duration := wadd r.read_duration (wsub (reading env r.clock_calls) r.t1),
               trace := r.trace ++ [Event.get_timestamp_us (reading env r.clock_calls),
                 Event.nsleep c.io_interarrival_time_ns,
                 Event.get_timestamp_us (reading env (r.clock_calls + 1))] } := by
  unfold pacing
  rw [if_pos h]
  simp [get_timestamp_us, Run.emit]

theorem pacing_unpaced (env : Env) (c : Config) (r : Run) (h : c.io_interarrival_time_ns = 0) :
    pacing env c r = r := by
  unfold pacing
  simp [h]

/-! ### The trace of a timed loop -/

theorem pacing_frame (env : Env) (c : Config) (r : Run) :
    (pacing env c r).io_calls = r.io_calls ∧ (pacing env c r).generator = r.generator ∧
      (pacing env c r).total_volume = r.total_volume ∧
      (pacing env c r).experiment_count = r.experiment_count ∧
      (pacing env c r).clock_calls = r.clock_calls + readings_per_read c ∧
      (pacing env c r).trace = r.trace ++
        (if c.io_interarrival_time_ns ≠ 0
          then [Event.get_timestamp_us (reading env r.clock_calls),
                Event.nsleep c.io_interarrival_time_ns,
                Event.get_timestamp_us (reading env (r.clock_calls + 1))]
          else []) := by
  by_cases h : c.io_interarrival_time_ns = 0
  · rw [pacing_unpaced env c r h]
    simp [readings_per_read, h]
  · rw [pacing_paced env c r h]
    simp [readings_per_read, h]

theorem timed_body_trace (env : Env) (c : Config) (v : Nat) (r r1 : Run)
    (h : timed_body env c v r = Outcome.ok r1) :
    r1.trace = r.trace ++ body_events env c v r.clock_calls r.io_calls r.generator ∧
      r1.clock_calls = r.clock_calls + readings_per_read c ∧
      r1.io_calls = r.io_calls + 1 ∧
      r1.generator = generator_step env c r.generator ∧
      0 ≤ read_ret c.strategy c.io_size (env.read_result r.io_calls) := by
  unfold timed_body at h
  obtain ⟨a, ha, h⟩ := bind_ok _ _ _ h
  obtain ⟨b, hb, h⟩ := bind_ok _ _ _ h
  obtain ⟨d, hd, h⟩ := bind_ok _ _ _ h
  have ha := online_step_ok c v r a ha
  obtain ⟨hret, hd⟩ := do_read_ok env c false b d hd
  simp only [Outcome.ok.injEq] at h
  obtain ⟨p1, p2, p3, p4, p5, p6⟩ := pacing_frame env c d
  rw [← h, p1, p2, p5, p6]
  rcases random_seek_ok env c a b hb with ⟨hv, hb⟩ | ⟨hv, off, hoff, hb⟩
  · subst hb; subst ha
    simp only [Run.emit_all] at hret
    subst hd
    simp [Run.emit_all, body_events, generator_step, hv, hret]
  · subst hb; subst ha
    simp only [Run.emit_all] at hoff hret
    subst hd
    simp [Run.emit_all, body_events, generator_step, hv, hoff, hret]

theorem run_bodies_trace (env : Env) (c : Config) :
    ∀ (vs : List Nat) (r r1 : Run), run_bodies (timed_body env c) vs r = Outcome.ok r1 →
      r1.trace = r.trace ++ timed_events env c vs r.clock_calls r.io_calls r.generator ∧
        r1.clock_calls = r.clock_calls + readings_per_read c * vs.length ∧
        r1.io_calls = r.io_calls + vs.length ∧
        (∀ j, r.io_calls ≤ j → j < r.io_calls + vs.length →
          0 ≤ read_ret c.strategy c.io_size (env.read_result j)) := by
  intro vs
  induction vs with
  | nil =>
    intro r r1 h
    simp only [run_bodies, Outcome.ok.injEq] at h
    subst h
    simp [timed_events]
    intro j h1 h2
    omega
  | cons v vs ih =>
    intro r r1 h
    rw [run_bodies] at h
    obtain ⟨r2, hb, h⟩ := bind_ok _ _ _ h
    obtain ⟨b1, b2, b3, b4, b5⟩ := timed_body_trace env c v r r2 hb
    obtain ⟨i1, i2, i3, i4⟩ := ih r2 r1 h
    refine ⟨?_, ?_, ?_, ?_⟩
    · rw [i1, b1, b2, b3, b4, timed_events, List.append_assoc]
    · rw [i2, b2, List.length_cons]; ring
    · rw [i3, b3, List.length_cons]; ring
    · intro j h1 h2
      rcases Nat.eq_or_lt_of_le h1 with h3 | h3
      · rw [← h3]; exact b5
      · exact i4 j (by omega) (by rw [b3]; simp only [List.length_cons] at h2; omega)

/-! ### The precondition of a pass -/

theorem run_bodies_warmup (env : Env) (c : Config) :
    ∀ (vs : List Nat) (r r1 : Run), run_bodies (warmup_body env c) vs r = Outcome.ok r1 →
      r1 = { r with io_calls := r.io_calls + vs.length,
                    trace := r.trace ++ warmup_events env c vs.length r.io_calls } := by
  intro vs
  induction vs with
  | nil =>
    intro r r1 h
    simp only [run_bodies, Outcome.ok.injEq] at h
    subst h
    simp [warmup_events]
  | cons v vs ih =>
    intro r r1 h
    rw [run_bodies] at h
    obtain ⟨r2, hb, h⟩ := bind_ok _ _ _ h
    obtain ⟨_, hb⟩ := do_read_ok env c true r r2 hb
    rw [ih r2 r1 h, hb]
    simp [warmup_events, Nat.add_assoc, Nat.add_comm 1]

theorem warm_up_ok (env : Env) (c : Config) (inner : Nat) (r r1 : Run)
    (h : warm_up env c inner r = Outcome.ok r1) :
    ∃ ws final, for_volume (warmup_cond c) c.io_size inner 0 = some (ws, final) ∧
      r1 = { r with io_calls := r.io_calls + ws.length,
                    trace := r.trace ++ ([Event.seek 0] ++
                      warmup_events env c ws.length r.io_calls) } := by
  unfold warm_up at h
  obtain ⟨x, hx, h⟩ := bind_ok _ _ _ h
  obtain ⟨ws, hws, hrun⟩ := volume_loop_ok _ _ _ _ _ _ _ hx
  simp only [Outcome.ok.injEq] at h
  refine ⟨ws, x.1, hws, ?_⟩
  rw [← h, run_bodies_warmup env c ws _ _ hrun]
  simp [Run.emit]

theorem client_cache_drop_call_ok (env : Env) (r r1 : Run)
    (h : client_cache_drop_call env r = Outcome.ok r1) :
    r1 = r.emit Event.client_cache_drop := by
  unfold client_cache_drop_call at h
  split_ifs at h
  simp only [Outcome.ok.injEq] at h
  exact h.symm

theorem client_cache_drop_call_completes (env : Env) (r : Run) (hdrop : drops_succeed env) :
    client_cache_drop_call env r = Outcome.ok (r.emit Event.client_cache_drop) := by
  unfold client_cache_drop_call
  have h := hdrop r.trace.length
  rw [if_neg (by omega)]

/-- A call of `client_cache_drop` inside a campaign ends the process exactly
when the body of the function, for the same results of `open` and `write`,
reaches one of its two `exit(0)`. -/
theorem client_cache_drop_call_exits_iff (env : Env) (lustre : Bool) (reads : Nat → Int)
    (r : Run) :
    (∃ x, client_cache_drop_call env r = Outcome.exited 0 x) ↔
      DropCall.exit 0 ∈ client_cache_drop lustre (env.drop_caches r.trace.length).1
        (env.drop_caches r.trace.length).2 reads := by
  have hnoexit : DropCall.exit 0 ∉ pressure_reads reads := by
    intro h
    unfold pressure_reads at h
    rw [List.mem_map] at h
    obtain ⟨_, _, h⟩ := h
    cases h
  unfold client_cache_drop_call
  generalize (env.drop_caches r.trace.length).1 = fd2
  generalize (env.drop_caches r.trace.length).2 = ret
  by_cases h1 : fd2 < 0
  · rw [if_pos (Or.inl h1)]
    exact ⟨fun _ => by simp [client_cache_drop, h1], fun _ => ⟨_, rfl⟩⟩
  · by_cases h2 : ret < 0
    · rw [if_pos (Or.inr h2)]
      exact ⟨fun _ => by simp [client_cache_drop, h1, h2], fun _ => ⟨_, rfl⟩⟩
    · rw [if_neg (by rintro (h | h) <;> contradiction)]
      constructor
      · rintro ⟨x, hx⟩
        cases hx
      · intro hmem
        exfalso
        unfold client_cache_drop at hmem
        rw [if_neg h1, if_neg h2] at hmem
        generalize pressure_reads reads = X at hmem hnoexit
        cases lustre
        · simp at hmem
          exact hnoexit hmem
        · simp at hmem

/-- A precondition that ends normally: the state it leaves is the state it
found, with the reads of the warm-up counted, the generator re-seeded (random
program) and its calls appended to the trace. -/
theorem precondition_ok (env : Env) (c : Config) (inner : Nat) (r r1 : Run)
    (h : precondition env c inner r = Outcome.ok r1) :
    ∃ n, (c.strategy.is_offline = true →
        ∃ ws final, for_volume (warmup_cond c) c.io_size inner 0 = some (ws, final) ∧
          n = ws.length) ∧
      (c.strategy.is_offline = false → n = 0) ∧
      r1 = { r with io_calls := r.io_calls + n,
                    generator := generator_at_t1 env c r.generator,
                    trace := r.trace ++ precondition_events env c n r.io_calls } := by
  unfold precondition at h
  dsimp only at h
  obtain ⟨x0, hdrop, h⟩ := bind_ok _ _ _ h
  have hx0 := client_cache_drop_call_ok env _ x0 hdrop
  obtain ⟨r2, hprep, h⟩ := bind_ok _ _ _ h
  have hfin : r1 = { r2 with generator := generator_at_t1 env c r2.generator,
                             trace := r2.trace ++ reseed_events c.variant } := by
    cases hv : c.variant with
    | sequential =>
      rw [hv] at h
      simp only [Outcome.ok.injEq] at h
      simp [← h, generator_at_t1, hv, reseed_events]
    | random =>
      rw [hv] at h
      simp only [Outcome.ok.injEq] at h
      simp [← h, generator_at_t1, hv, reseed_events]
  have h0 : x0 = { r with trace := r.trace ++
        ((if c.lustre then [Event.server_cache_evict 0 c.file_size] else []) ++
          [Event.client_cache_drop]) } := by
    rw [hx0]
    by_cases hl : c.lustre = true <;> simp [hl, Run.emit]
  have hwarm : ∀ (x y : Run) (tail : List Event),
      (warm_up env c inner x).bind (fun r2 => Outcome.ok (r2.emit_all tail)) = Outcome.ok y →
      ∃ ws final, for_volume (warmup_cond c) c.io_size inner 0 = some (ws, final) ∧
        y = { x with io_calls := x.io_calls + ws.length,
                     trace := x.trace ++ ([Event.seek 0] ++
                       warmup_events env c ws.length x.io_calls ++ tail) } := by
    intro x y tail hxy
    obtain ⟨z, hz, hxy⟩ := bind_ok _ _ _ hxy
    obtain ⟨ws, final, hws, hz⟩ := warm_up_ok env c inner x z hz
    simp only [Outcome.ok.injEq] at hxy
    refine ⟨ws, final, hws, ?_⟩
    rw [← hxy, hz]
    simp [Run.emit_all]
  clear hdrop hx0
  subst h0
  cases hs : c.strategy <;> rw [hs] at hprep
  case cached_server_side_1 =>
    dsimp only at hprep
    obtain ⟨z, hz, hprep⟩ := bind_ok _ _ _ hprep
    obtain ⟨w, hw, hprep⟩ := bind_ok _ _ _ hprep
    have hw2 := client_cache_drop_call_ok env _ w hw
    obtain ⟨ws, final, hws, hz⟩ := warm_up_ok env c inner _ z hz
    simp only [Outcome.ok.injEq] at hprep
    refine ⟨ws.length, fun _ => ⟨ws, final, hws, rfl⟩, fun hoff => ?_, ?_⟩
    · simp [hs, Strategy.is_offline] at hoff
    · rw [hfin, ← hprep, hw2, hz]
      simp [precondition_events, preparation_events, hs, List.append_assoc, Run.emit]
  case o_direct | not_cached | marked_sequential | marked_random | jit_both_sides
      | jit_client_side | jit_server_side | jit_aio | online_fadvise_ladvise
      | online_aio_ladvise | online_fadvise | online_ladvise | online_aio =>
    simp only [Run.emit, Run.emit_all, Outcome.ok.injEq] at hprep
    refine ⟨0, fun hoff => ?_, fun _ => rfl, ?_⟩
    · simp [hs, Strategy.is_offline] at hoff
    · rw [hfin, ← hprep]
      simp [precondition_events, preparation_events, hs, List.append_assoc]
  all_goals
    simp only [Run.emit, Run.emit_all, Outcome.ok.injEq] at hprep
    have hprep2 := hwarm _ r2 _ (by
      simpa [Run.emit, Run.emit_all] using hprep)
    obtain ⟨ws, final, hws, hr2⟩ := hprep2
    refine ⟨ws.length, fun _ => ⟨ws, final, hws, rfl⟩, fun hoff => ?_, ?_⟩
    · simp [hs, Strategy.is_offline] at hoff
    · rw [hfin, hr2]
      simp [precondition_events, preparation_events, hs, List.append_assoc]

/-! ### Passes that run to their end -/

theorem for_volume_mono (cond : Nat → Bool) (S : Nat) :
    ∀ (fuel v : Nat) (x : List Nat × Nat), for_volume cond S fuel v = some x →
      ∀ k, for_volume cond S (fuel + k) v = some x := by
  intro fuel
  induction fuel with
  | zero => intro v x h; cases h
  | succ fuel ih =>
    intro v x h k
    have e : fuel + 1 + k = (fuel + k) + 1 := by omega
    rw [e]
    unfold for_volume at h ⊢
    by_cases hc : cond v = true
    · rw [if_pos hc] at h ⊢
      cases hrec : for_volume cond S fuel (wadd v S) with
      | none => rw [hrec] at h; cases h
      | some p =>
        rw [hrec] at h
        rw [ih _ _ hrec k]
        exact h
    · rw [if_neg hc] at h ⊢
      exact h

theorem for_volume_unique (cond : Nat → Bool) (S fuel1 fuel2 v : Nat) (x y : List Nat × Nat)
    (h1 : for_volume cond S fuel1 v = some x) (h2 : for_volume cond S fuel2 v = some y) :
    x = y := by
  have a := for_volume_mono cond S fuel1 v x h1 fuel2
  have b := for_volume_mono cond S fuel2 v y h2 fuel1
  rw [Nat.add_comm] at b
  rw [a] at b
  exact Option.some.inj b

theorem random_offset_some (r F : Nat) (hF : F ≠ 0) : ∃ o, random_offset r F = some o := by
  have hq : RAND_MAX / F ≤ RAND_MAX := Nat.div_le_self _ _
  have hM : RAND_MAX = 2147483647 := rfl
  have hw : wadd (RAND_MAX / F) 1 = RAND_MAX / F + 1 := by
    unfold wadd
    exact Nat.mod_eq_of_lt (by omega)
  have hne : wadd (RAND_MAX / F) 1 ≠ 0 := by rw [hw]; exact Nat.succ_ne_zero _
  unfold random_offset
  rw [if_neg hF, if_neg hne]
  exact ⟨_, rfl⟩

theorem timed_body_completes (env : Env) (c : Config) (v : Nat) (r : Run)
    (hon : c.strategy.is_online = true → c.prefetch_param ≠ 0)
    (hF : c.variant = Variant.random → c.file_size ≠ 0)
    (hret : 0 ≤ read_ret c.strategy c.io_size (env.read_result r.io_calls)) :
    ∃ r1, timed_body env c v r = Outcome.ok r1 := by
  have h1 : ∃ a, online_step c v r = Outcome.ok a ∧ a.io_calls = r.io_calls ∧
      a.generator = r.generator := by
    unfold online_step
    by_cases ho : c.strategy.is_online = true
    · rw [if_pos ho, if_neg (hon ho)]
      by_cases hm : v % c.prefetch_param = 0
      · rw [if_pos hm]; exact ⟨_, rfl, rfl, rfl⟩
      · rw [if_neg hm]; exact ⟨_, rfl, rfl, rfl⟩
    · rw [if_neg ho]; exact ⟨_, rfl, rfl, rfl⟩
  obtain ⟨a, ha, ha1, ha2⟩ := h1
  have h2 : ∃ b, random_seek env c a = Outcome.ok b ∧ b.io_calls = a.io_calls := by
    unfold random_seek
    cases hv : c.variant with
    | sequential => exact ⟨_, rfl, rfl⟩
    | random =>
      obtain ⟨o, ho⟩ := random_offset_some (env.rand a.generator).1 c.file_size (hF hv)
      simp only [ho]
      exact ⟨_, rfl, rfl⟩
  obtain ⟨b, hb, hb1⟩ := h2
  have h3 : ∃ d, do_read env c false b = Outcome.ok d := by
    unfold do_read
    rw [hb1, ha1]
    simp only [not_lt.2 hret, if_false]
    exact ⟨_, rfl⟩
  obtain ⟨d, hd⟩ := h3
  unfold timed_body
  rw [ha]
  simp only [Outcome.bind]
  rw [hb]
  simp only [Outcome.bind]
  rw [hd]
  exact ⟨_, rfl⟩

theorem run_bodies_completes (env : Env) (c : Config)
    (hon : c.strategy.is_online = true → c.prefetch_param ≠ 0)
    (hF : c.variant = Variant.random → c.file_size ≠ 0)
    (hret : ∀ j, 0 ≤ read_ret c.strategy c.io_size (env.read_result j)) :
    ∀ (vs : List Nat) (r : Run), ∃ r1, run_bodies (timed_body env c) vs r = Outcome.ok r1 := by
  intro vs
  induction vs with
  | nil => intro r; exact ⟨r, rfl⟩
  | cons v vs ih =>
    intro r
    obtain ⟨r2, h2⟩ := timed_body_completes env c v r hon hF (hret _)
    obtain ⟨r1, h1⟩ := ih r2
    refine ⟨r1, ?_⟩
    rw [run_bodies, h2]
    exact h1

theorem timed_pass_completes (env : Env) (c : Config) (inner : Nat) (r : Run)
    (vs : List Nat) (final : Nat)
    (hfv : for_volume (timed_cond c) c.io_size inner 0 = some (vs, final))
    (hon : c.strategy.is_online = true → c.prefetch_param ≠ 0)
    (hF : c.variant = Variant.random → c.file_size ≠ 0)
    (hret : ∀ j, 0 ≤ read_ret c.strategy c.io_size (env.read_result j)) :
    ∃ r1, timed_pass env c inner r = Outcome.ok r1 := by
  unfold timed_pass
  dsimp only
  rw [volume_loop_of_for_volume _ _ _ _ _ _ vs final hfv]
  obtain ⟨r2, h2⟩ := run_bodies_completes env c hon hF hret vs
    { (get_timestamp_us env r).2 with t1 := (get_timestamp_us env r).1 }
  rw [h2]
  simp only [Outcome.bind]
  cases c.variant <;> exact ⟨_, rfl⟩

theorem warm_up_completes (env : Env) (c : Config) (inner : Nat) (r : Run)
    (ws : List Nat) (final : Nat)
    (hfv : for_volume (warmup_cond c) c.io_size inner 0 = some (ws, final))
    (hret : ∀ j, 0 ≤ read_ret c.strategy c.io_size (env.read_result j)) :
    ∃ r1, warm_up env c inner r = Outcome.ok r1 := by
  unfold warm_up
  rw [volume_loop_of_for_volume _ _ _ _ _ _ ws final hfv]
  have hb : ∀ (vs : List Nat) (x : Run),
      ∃ x1, run_bodies (warmup_body env c) vs x = Outcome.ok x1 := by
    intro vs
    induction vs with
    | nil => intro x; exact ⟨x, rfl⟩
    | cons v vs ih =>
      intro x
      have h0 : ∃ y, warmup_body env c v x = Outcome.ok y := by
        unfold warmup_body do_read
        simp only [not_lt.2 (hret _), if_false]
        exact ⟨_, rfl⟩
      obtain ⟨y, hy⟩ := h0
      obtain ⟨x1, hx1⟩ := ih y
      refine ⟨x1, ?_⟩
      rw [run_bodies, hy]
      exact hx1
  obtain ⟨x1, hx1⟩ := hb ws (r.emit (Event.seek 0))
  rw [hx1]
  exact ⟨_, rfl⟩

theorem precondition_completes (env : Env) (c : Config) (inner : Nat) (r : Run)
    (hfv : c.strategy.is_offline = true →
      ∃ ws final, for_volume (warmup_cond c) c.io_size inner 0 = some (ws, final))
    (hret : ∀ j, 0 ≤ read_ret c.strategy c.io_size (env.read_result j))
    (hdrop : drops_succeed env) :
    ∃ r1, precondition env c inner r = Outcome.ok r1 := by
  have hw : ∀ x : Run, c.strategy.is_offline = true →
      ∃ x1, warm_up env c inner x = Outcome.ok x1 := by
    intro x hoff
    obtain ⟨ws, final, h⟩ := hfv hoff
    exact warm_up_completes env c inner x ws final h hret
  have hfin : ∀ o : Outcome Run, (∃ x, o = Outcome.ok x) →
      ∃ r1, (o.bind fun r2 =>
        match c.variant with
        | Variant.sequential => Outcome.ok r2
        | Variant.random =>
          Outcome.ok { r2 with generator := env.srand RANDOM_SEED,
                               trace := r2.trace ++ [Event.srand RANDOM_SEED] }) =
        Outcome.ok r1 := by
    rintro o ⟨x, rfl⟩
    simp only [Outcome.bind]
    cases c.variant <;> exact ⟨_, rfl⟩
  unfold precondition
  dsimp only
  rw [client_cache_drop_call_completes env _ hdrop]
  simp only [Outcome.bind]
  apply hfin
  cases hs : c.strategy <;>
    first
    | exact ⟨_, rfl⟩
    | (obtain ⟨x1, hx1⟩ := hw
        ((if c.lustre = true then r.emit (Event.server_cache_evict 0 c.file_size) else r).emit
          Event.client_cache_drop) (by simp [hs, Strategy.is_offline])
       simp only [hx1, Outcome.bind, client_cache_drop_call_completes env _ hdrop]
       exact ⟨_, rfl⟩)

theorem run_pass_completes (env : Env) (c : Config) (inner : Nat) (r : Run)
    (vs : List Nat) (final : Nat)
    (hfv : for_volume (timed_cond c) c.io_size inner 0 = some (vs, final))
    (hfw : c.strategy.is_offline = true →
      ∃ ws final, for_volume (warmup_cond c) c.io_size inner 0 = some (ws, final))
    (hon : c.strategy.is_online = true → c.prefetch_param ≠ 0)
    (hF : c.variant = Variant.random → c.file_size ≠ 0)
    (hret : ∀ j, 0 ≤ read_ret c.strategy c.io_size (env.read_result j))
    (hdrop : drops_succeed env) :
    ∃ r1, run_pass env c inner r = Outcome.ok r1 := by
  obtain ⟨r0, h0⟩ := precondition_completes env c inner r hfw hret hdrop
  obtain ⟨r1, h1⟩ := timed_pass_completes env c inner r0 vs final hfv hon hF hret
  refine ⟨r1, ?_⟩
  unfold run_pass
  rw [h0]
  exact h1

/-! ### Billable time of one pass -/

theorem billing_telescope (R : Nat → Nat) (k : Nat) :
    ∀ n, (∀ i j, k ≤ i → i ≤ j → j < k + 2 + 2 * n → R i ≤ R j) →
      (∑ j ∈ Finset.range (n + 1), (R (k + 1 + 2 * j) - R (k + 2 * j))) +
        (∑ j ∈ Finset.range n, (R (k + 2 + 2 * j) - R (k + 1 + 2 * j))) + R k =
      R (k + 1 + 2 * n) := by
  intro n
  induction n with
  | zero =>
    intro hm
    have := hm k (k + 1) (le_refl _) (by omega) (by omega)
    simp
    omega
  | succ n ih =>
    intro hm
    have h0 := ih (fun i j h1 h2 h3 => hm i j h1 h2 (by omega))
    have h1 := hm (k + 1 + 2 * n) (k + 2 + 2 * n) (by omega) (by omega) (by omega)
    have h2 := hm (k + 2 + 2 * n) (k + 1 + 2 * (n + 1)) (by omega) (by omega) (by omega)
    have e : k + 2 * (n + 1) = k + 2 + 2 * n := by ring
    have eB : (∑ j ∈ Finset.range (n + 1 + 1), (R (k + 1 + 2 * j) - R (k + 2 * j))) =
        (∑ j ∈ Finset.range (n + 1), (R (k + 1 + 2 * j) - R (k + 2 * j))) +
          (R (k + 1 + 2 * (n + 1)) - R (k + 2 + 2 * n)) := by
      rw [Finset.sum_range_succ, e]
    have eS : (∑ j ∈ Finset.range (n + 1), (R (k + 2 + 2 * j) - R (k + 1 + 2 * j))) =
        (∑ j ∈ Finset.range n, (R (k + 2 + 2 * j) - R (k + 1 + 2 * j))) +
          (R (k + 2 + 2 * n) - R (k + 1 + 2 * n)) := Finset.sum_range_succ _ _
    rw [eB, eS]
    omega

theorem wadd_congr (a b y : Nat) (h : a % 2 ^ 64 = b % 2 ^ 64) : wadd a y = wadd b y := by
  unfold wadd
  rw [Nat.add_mod, h, ← Nat.add_mod]

/-- The timing fields of the state after the iterations of a timed loop entered
with `t1` the reading of index `k`. -/
theorem timed_bodies_timing (env : Env) (c : Config) (k rd0 io0 : Nat) (vs : List Nat)
    (r r1 : Run) (hk : r.clock_calls = k + 1) (ht1 : r.t1 = reading env k)
    (hrd : r.read_duration = rd0) (hio : r.io_calls = io0)
    (h : run_bodies (timed_body env c) vs r = Outcome.ok r1) :
    r1.io_calls = io0 + vs.length ∧ r1.total_volume = r.total_volume ∧
      r1.experiment_count = r.experiment_count ∧
      (c.io_interarrival_time_ns = 0 →
        r1.clock_calls = k + 1 ∧ r1.t1 = reading env k ∧ r1.read_duration = rd0) ∧
      (c.io_interarrival_time_ns ≠ 0 →
        r1.clock_calls = k + 1 + 2 * vs.length ∧ r1.t1 = reading env (k + 2 * vs.length) ∧
        r1.read_duration % 2 ^ 64 = (rd0 +
          (∑ j ∈ Finset.range vs.length,
            wsub (reading env (k + 1 + 2 * j)) (reading env (k + 2 * j)))) % 2 ^ 64) := by
  have key := run_bodies_inv (timed_body env c)
    (fun i x => (x.io_calls = io0 + i ∧ x.total_volume = r.total_volume ∧
      x.experiment_count = r.experiment_count ∧
      (c.io_interarrival_time_ns = 0 →
        x.clock_calls = k + 1 ∧ x.t1 = reading env k ∧ x.read_duration = rd0) ∧
      (c.io_interarrival_time_ns ≠ 0 →
        x.clock_calls = k + 1 + 2 * i ∧ x.t1 = reading env (k + 2 * i) ∧
        x.read_duration % 2 ^ 64 = (rd0 +
          (∑ j ∈ Finset.range i,
            wsub (reading env (k + 1 + 2 * j)) (reading env (k + 2 * j)))) % 2 ^ 64)))
    (by
      intro i v x x1 hi hb
      obtain ⟨a1, a2, a3, a4, a5⟩ := hi
      obtain ⟨x0, hx, b1, b2, b3, b4, b5, b6, _⟩ := timed_body_ok env c v x x1 hb
      by_cases hia : c.io_interarrival_time_ns = 0
      · rw [pacing_unpaced env c x0 hia] at hx
        subst hx
        obtain ⟨c1, c2, c3⟩ := a4 hia
        refine ⟨by omega, by omega, by omega, fun _ => ⟨by omega, ?_, by omega⟩,
          fun hne => absurd hia hne⟩
        rw [b2, c2]
      · rw [pacing_paced env c x0 hia] at hx
        subst hx
        obtain ⟨c1, c2, c3⟩ := a5 hia
        refine ⟨by simp; omega, by simp; omega, by simp; omega, fun h0 => absurd h0 hia,
          fun _ => ⟨by simp; omega, ?_, ?_⟩⟩
        · simp only
          rw [b1, c1]
          congr 1
          ring
        · simp only
          rw [b3, b1, c1, b2, c2, Finset.sum_range_succ]
          unfold wadd
          rw [Nat.mod_mod, Nat.add_mod, c3, ← Nat.add_mod, Nat.add_assoc])
    vs 0 r r1
    (by
      exact ⟨by omega, rfl, rfl, fun _ => ⟨hk, ht1, hrd⟩,
        fun _ => ⟨by omega, by simpa using ht1, by simp [hrd]⟩⟩)
    h
  simpa using key

/-- A timed pass that ends normally: the values of its loop variable, the run
of its bodies, and the final state. -/
theorem timed_pass_ok (env : Env) (c : Config) (inner : Nat) (r r1 : Run)
    (h : timed_pass env c inner r = Outcome.ok r1) :
    ∃ vs final r2,
      for_volume (timed_cond c) c.io_size inner 0 = some (vs, final) ∧
      run_bodies (timed_body env c) vs
        { r with clock_calls := r.clock_calls + 1,
                 trace := r.trace ++ [Event.get_timestamp_us (reading env r.clock_calls)],
                 t1 := reading env r.clock_calls } = Outcome.ok r2 ∧
      r1 = { r2 with
        clock_calls := r2.clock_calls + 1,
        trace := r2.trace ++ [Event.get_timestamp_us (reading env r2.clock_calls)],
        read_duration := wadd r2.read_duration (wsub (reading env r2.clock_calls) r2.t1),
        total_volume :=
          (match c.variant with
           | Variant.sequential => r2.total_volume
           | Variant.random => wadd r2.total_volume final) } := by
  unfold timed_pass at h
  obtain ⟨x, hx, h⟩ := bind_ok _ _ _ h
  obtain ⟨vs, hvs, hrun⟩ := volume_loop_ok _ _ _ _ _ _ _ hx
  refine ⟨vs, x.1, x.2, hvs, ?_, ?_⟩
  · simpa [get_timestamp_us] using hrun
  · cases hv : c.variant with
    | sequential =>
      rw [hv] at h
      simp only [Outcome.ok.injEq] at h
      rw [← h]
      simp [get_timestamp_us]
    | random =>
      rw [hv] at h
      simp only [Outcome.ok.injEq] at h
      rw [← h]
      simp [get_timestamp_us]

/-- C7.  For every pass that runs to its end and every clock that does not
decrease on the readings of the pass: the pass issues `n` reads; when the
inter-arrival delay is 0 it reads the clock twice (start and end) and adds
`end - start` to `read_duration`; when the delay is not 0 it reads the clock
`2 + 2 * n` times and adds `(end - start)` minus the sum over the reads of the
interval from the reading taken just after the read to the reading taken just
after the pacing sleep (additions to `read_duration` are 64-bit). -/
theorem pass_billable_time (env : Env) (c : Config) (inner : Nat) (r r1 : Run)
    (h : timed_pass env c inner r = Outcome.ok r1)
    (hmono : ∀ i j, r.clock_calls ≤ i → i ≤ j → j < r1.clock_calls →
      reading env i ≤ reading env j) :
    (c.io_interarrival_time_ns = 0 →
      r1.clock_calls = r.clock_calls + 2 ∧
      r1.read_duration = wadd r.read_duration
        (reading env (r.clock_calls + 1) - reading env r.clock_calls)) ∧
    (c.io_interarrival_time_ns ≠ 0 →
      r1.clock_calls = r.clock_calls + 2 + 2 * (r1.io_calls - r.io_calls) ∧
      (∑ j ∈ Finset.range (r1.io_calls - r.io_calls),
          (reading env (r.clock_calls + 2 + 2 * j) - reading env (r.clock_calls + 1 + 2 * j))) ≤
        reading env (r.clock_calls + 1 + 2 * (r1.io_calls - r.io_calls)) -
          reading env r.clock_calls ∧
      r1.read_duration = wadd r.read_duration
        ((reading env (r.clock_calls + 1 + 2 * (r1.io_calls - r.io_calls)) -
            reading env r.clock_calls) -
          ∑ j ∈ Finset.range (r1.io_calls - r.io_calls),
            (reading env (r.clock_calls + 2 + 2 * j) -
              reading env (r.clock_calls + 1 + 2 * j)))) := by
  obtain ⟨vs, final, r2, _, hrun, hr1⟩ := timed_pass_ok env c inner r r1 h
  have hclk : r1.clock_calls = r2.clock_calls + 1 := by rw [hr1]
  have hio : r1.io_calls = r2.io_calls := by rw [hr1]
  have hrd : r1.read_duration =
      wadd r2.read_duration (wsub (reading env r2.clock_calls) r2.t1) := by rw [hr1]
  obtain ⟨t1, t2, t3, t4, t5⟩ := timed_bodies_timing env c r.clock_calls
    r.read_duration r.io_calls vs
    { r with clock_calls := r.clock_calls + 1,
             trace := r.trace ++ [Event.get_timestamp_us (reading env r.clock_calls)],
             t1 := reading env r.clock_calls }
    r2 rfl rfl rfl rfl hrun
  constructor
  · intro hia
    obtain ⟨a1, a2, a3⟩ := t4 hia
    refine ⟨by omega, ?_⟩
    rw [hrd, a1, a2, a3, wsub_of_le _ _ (hmono _ _ (le_refl _) (by omega) (by omega))
      (reading_lt _ _)]
  · intro hia
    obtain ⟨a1, a2, a3⟩ := t5 hia
    have hn : r1.io_calls - r.io_calls = vs.length := by omega
    have hN : r1.clock_calls = r.clock_calls + 2 + 2 * vs.length := by omega
    have htel := billing_telescope (reading env) r.clock_calls vs.length
      (fun i j h1 h2 h3 => hmono i j h1 h2 (by omega))
    have hsum : (∑ j ∈ Finset.range vs.length,
          wsub (reading env (r.clock_calls + 1 + 2 * j)) (reading env (r.clock_calls + 2 * j))) =
        ∑ j ∈ Finset.range vs.length,
          (reading env (r.clock_calls + 1 + 2 * j) - reading env (r.clock_calls + 2 * j)) := by
      apply Finset.sum_congr rfl
      intro j hj
      have hj2 : j < vs.length := Finset.mem_range.1 hj
      exact wsub_of_le _ _ (hmono _ _ (by omega) (by omega) (by omega)) (reading_lt _ _)
    rw [hsum] at a3
    rw [hn]
    refine ⟨hN, by omega, ?_⟩
    rw [hrd, a1, a2, wsub_of_le _ _ (hmono _ _ (by omega) (by omega) (by omega))
      (reading_lt _ _)]
    unfold wadd
    rw [Nat.add_mod, a3, ← Nat.add_mod, Nat.add_assoc]
    congr 2
    rw [Finset.sum_range_succ] at htel
    omega

theorem sample_reading (k : Nat) (h : k < 2 ^ 60) : reading sample_env k = 10 * k := by
  have e : to_u64 (10 * (k : Int)) = 10 * k := by
    unfold to_u64
    have h1 : (10 * (k : Int)) % 2 ^ 64 = 10 * (k : Int) :=
      Int.emod_eq_of_lt (by positivity) (by norm_num at h ⊢; omega)
    rw [h1]
    norm_cast
  simp only [reading, sample_env, timestamp_of, e]
  have z : to_u64 0 = 0 := by simp [to_u64]
  rw [z]
  simp only [wmul, wadd, Nat.zero_mul, Nat.zero_mod, Nat.zero_add]
  exact Nat.mod_eq_of_lt (by norm_num at h ⊢; omega)

theorem sample_timed_pass :
    timed_pass sample_env sample_config 5 Run.initial = Outcome.ok sample_pass := by
  rfl

/-- Witness of `pass_billable_time`: the sample pass, three paced reads under a
clock that advances 10 microseconds per reading, is billed 70 - 30 = 40. -/
theorem pass_billable_time_witness :
    timed_pass sample_env sample_config 5 Run.initial = Outcome.ok sample_pass ∧
      sample_pass.clock_calls = 0 + 2 + 2 * (sample_pass.io_calls - 0) ∧
      sample_pass.read_duration = wadd 0
        ((reading sample_env (0 + 1 + 2 * (sample_pass.io_calls - 0)) - reading sample_env 0) -
          ∑ j ∈ Finset.range (sample_pass.io_calls - 0),
            (reading sample_env (0 + 2 + 2 * j) - reading sample_env (0 + 1 + 2 * j))) := by
  have hmono : ∀ i j, Run.initial.clock_calls ≤ i → i ≤ j → j < sample_pass.clock_calls →
      reading sample_env i ≤ reading sample_env j := by
    intro i j _ h2 h3
    have h4 : j < 8 := h3
    rw [sample_reading i (by norm_num; omega), sample_reading j (by norm_num; omega)]
    omega
  have t := (pass_billable_time sample_env sample_config 5 Run.initial sample_pass
    sample_timed_pass hmono).2 (by decide)
  exact ⟨sample_timed_pass, t.1, t.2.2⟩

/-! ### Setup is never billed -/

theorem warmup_events_no_clock (env : Env) (c : Config) :
    ∀ (n io : Nat) (e : Event), e ∈ warmup_events env c n io → is_clock_reading e = false := by
  intro n
  induction n with
  | zero => intro io e he; simp [warmup_events] at he
  | succ n ih =>
    intro io e he
    simp only [warmup_events, List.mem_cons] at he
    rcases he with he | he
    · subst he; rfl
    · exact ih _ e he

theorem precondition_events_no_clock (env : Env) (c : Config) (n io : Nat) (e : Event)
    (he : e ∈ precondition_events env c n io) : is_clock_reading e = false := by
  have hw := warmup_events_no_clock env c n io
  unfold precondition_events at he
  simp only [List.mem_append] at he
  rcases he with ((he | he) | he) | he
  · by_cases hl : c.lustre = true
    · simp [hl] at he; subst he; rfl
    · simp [hl] at he
  · simp at he; subst he; rfl
  · unfold preparation_events at he
    cases hs : c.strategy <;> rw [hs] at he <;>
      simp only [List.mem_append, List.mem_cons, List.mem_singleton, List.not_mem_nil,
        or_false, false_or] at he
    all_goals
      first
      | (rcases he with he | he | he | he <;> first | (subst he; rfl) | exact hw e he)
      | (rcases he with (he | he) | he | he <;> first | (subst he; rfl) | exact hw e he)
      | (rcases he with (he | he) | he <;> first | (subst he; rfl) | exact hw e he)
      | (rcases he with he | he | he <;> first | (subst he; rfl) | exact hw e he)
      | (rcases he with he | he <;> first | (subst he; rfl) | exact hw e he)
      | (subst he; rfl)
  · cases hv : c.variant <;> rw [hv] at he <;> simp [reseed_events] at he
    subst he; rfl

theorem online_prefetch_not_precondition (c : Config) (v P : Nat) (e : Event)
    (hon : c.strategy.is_online = true) (he : e ∈ online_prefetch c.strategy v P) :
    is_precondition_call c e = false := by
  unfold online_prefetch at he
  cases hs : c.strategy <;> rw [hs] at he <;> simp at he
  all_goals
    first
    | (rcases he with he | he <;> subst he <;> simp [is_precondition_call, hon])
    | (subst he; simp [is_precondition_call, hon])

theorem body_events_not_precondition (env : Env) (c : Config) (v k io g : Nat) (e : Event)
    (he : e ∈ body_events env c v k io g) : is_precondition_call c e = false := by
  unfold body_events at he
  simp only [List.mem_append] at he
  rcases he with ((he | he) | he) | he
  · by_cases hc : c.strategy.is_online = true ∧ v % c.prefetch_param = 0
    · rw [if_pos hc] at he
      exact online_prefetch_not_precondition c v _ e hc.1 he
    · rw [if_neg hc] at he; simp at he
  · cases hv : c.variant <;> rw [hv] at he <;> simp at he
    subst he; rfl
  · simp at he; subst he; rfl
  · by_cases hia : c.io_interarrival_time_ns ≠ 0
    · rw [if_pos hia] at he
      simp at he
      rcases he with he | he | he <;> subst he <;> rfl
    · rw [if_neg hia] at he; simp at he

theorem timed_events_not_precondition (env : Env) (c : Config) :
    ∀ (vs : List Nat) (k io g : Nat) (e : Event), e ∈ timed_events env c vs k io g →
      is_precondition_call c e = false := by
  intro vs
  induction vs with
  | nil => intro k io g e he; simp [timed_events] at he
  | cons v vs ih =>
    intro k io g e he
    simp only [timed_events, List.mem_append] at he
    rcases he with he | he
    · exact body_events_not_precondition env c v k io g e he
    · exact ih _ _ _ e he

/-- C8.  In every block of both programs, a pass that ends normally is its
precondition followed by its timed part: the precondition issues all its calls
(cache cleaning, warm-up reads, post-warm-up eviction, pattern advice,
just-in-time prefetch and lead-time sleep, re-seeding) without reading the
clock and without touching `read_duration`; the next call is the reading `t1`;
no precondition call is issued after it; and every interval added to
`read_duration` runs between two readings taken at or after `t1`. -/
theorem precondition_not_billed (env : Env) (c : Config) (inner : Nat) (r r1 : Run)
    (h : run_pass env c inner r = Outcome.ok r1) :
    ∃ (r0 : Run) (n_warm n : Nat) (timed : List Event),
      precondition env c inner r = Outcome.ok r0 ∧
      timed_pass env c inner r0 = Outcome.ok r1 ∧
      r0.trace = r.trace ++ precondition_events env c n_warm r.io_calls ∧
      (∀ e ∈ precondition_events env c n_warm r.io_calls, is_clock_reading e = false) ∧
      r0.clock_calls = r.clock_calls ∧ r0.read_duration = r.read_duration ∧
      r1.trace = r0.trace ++ Event.get_timestamp_us (reading env r.clock_calls) :: timed ∧
      (∀ e ∈ timed, is_precondition_call c e = false) ∧
      r1.read_duration % 2 ^ 64 =
        (r.read_duration + ∑ j ∈ Finset.range (billed_intervals c n),
          wsub (reading env (r.clock_calls + 1 + 2 * j))
            (reading env (r.clock_calls + 2 * j))) % 2 ^ 64 := by
  unfold run_pass at h
  obtain ⟨r0, hpre, htimed⟩ := bind_ok _ _ _ h
  obtain ⟨n_warm, _, _, hr0⟩ := precondition_ok env c inner r r0 hpre
  obtain ⟨vs, final, r2, _, hrun, hr1⟩ := timed_pass_ok env c inner r0 r1 htimed
  have hclk : r0.clock_calls = r.clock_calls := by rw [hr0]
  have hrd0 : r0.read_duration = r.read_duration := by rw [hr0]
  obtain ⟨q1, q2, q3, q4⟩ := run_bodies_trace env c vs _ r2 hrun
  obtain ⟨t1, t2, t3, t4, t5⟩ := timed_bodies_timing env c r0.clock_calls
    r0.read_duration r0.io_calls vs
    { r0 with clock_calls := r0.clock_calls + 1,
              trace := r0.trace ++ [Event.get_timestamp_us (reading env r0.clock_calls)],
              t1 := reading env r0.clock_calls }
    r2 rfl rfl rfl rfl hrun
  have hrd : r1.read_duration =
      wadd r2.read_duration (wsub (reading env r2.clock_calls) r2.t1) := by rw [hr1]
  refine ⟨r0, n_warm, vs.length,
    timed_events env c vs (r0.clock_calls + 1) r0.io_calls r0.generator ++
      [Event.get_timestamp_us (reading env r2.clock_calls)],
    hpre, htimed, by rw [hr0], precondition_events_no_clock env c n_warm r.io_calls,
    hclk, hrd0, ?_, ?_, ?_⟩
  · rw [hr1]
    simp only
    rw [q1, hclk]
    simp
  · intro e he
    rw [List.mem_append] at he
    rcases he with he | he
    · exact timed_events_not_precondition env c vs _ _ _ e he
    · simp at he; subst he; rfl
  · rw [hrd, ← hclk, ← hrd0]
    unfold billed_intervals
    by_cases hia : c.io_interarrival_time_ns = 0
    · obtain ⟨a1, a2, a3⟩ := t4 hia
      simp only [hia, ne_eq, not_true_eq_false, if_false, Finset.sum_range_one,
        Nat.mul_zero, Nat.add_zero]
      rw [a1, a2, a3]
      unfold wadd
      rw [Nat.mod_mod]
    · obtain ⟨a1, a2, a3⟩ := t5 hia
      rw [if_pos hia, Finset.sum_range_succ, a1, a2]
      unfold wadd
      rw [Nat.mod_mod, Nat.add_mod, a3, ← Nat.add_mod, Nat.add_assoc]

/-! ### Reproducible random offsets -/

theorem to_int_of_small (x : Int) (h0 : 0 ≤ x) (h1 : x < 2 ^ 31) : to_int x = x := by
  unfold to_int
  norm_num at h1 ⊢
  omega

/-- The `int ret` of an `fread` of fewer than `2 ^ 31` bytes is never negative. -/
theorem fread_ret_nonneg (s : Strategy) (S : Nat) (raw : Int) (hs : s ≠ Strategy.o_direct)
    (hS : S < 2 ^ 31) : 0 ≤ read_ret s S raw := by
  unfold read_ret
  rw [if_neg hs]
  have h0 : (0 : Int) ≤ min (max raw 0) (S : Int) := le_min (le_max_right _ _) (by positivity)
  have h1 : min (max raw 0) (S : Int) ≤ S := min_le_right _ _
  rw [to_int_of_small _ h0 (by norm_num at hS ⊢; omega)]
  exact h0

theorem foldl_after_srand : ∀ (b acc : List Event), (∀ e ∈ b, ∀ s, e ≠ Event.srand s) →
    b.foldl srand_step acc = acc ++ b := by
  intro b
  induction b with
  | nil => intro acc _; simp
  | cons e b ih =>
    intro acc h
    have he := h e (List.mem_cons_self _ _)
    have hstep : srand_step acc e = acc ++ [e] := by
      cases e <;> first | rfl | exact absurd rfl (he _)
    rw [List.foldl_cons, hstep, ih _ (fun x hx => h x (List.mem_cons_of_mem _ hx))]
    simp

theorem after_last_srand_append (a b : List Event) (seed : Nat)
    (h : ∀ e ∈ b, ∀ s, e ≠ Event.srand s) :
    after_last_srand (a ++ [Event.srand seed] ++ b) = b := by
  unfold after_last_srand
  rw [List.foldl_append, List.foldl_append]
  simp only [List.foldl_cons, List.foldl_nil, srand_step]
  rw [foldl_after_srand b [] h]
  simp

theorem online_prefetch_no_seek (s : Strategy) (v P : Nat) :
    (online_prefetch s v P).filterMap seek_of = [] := by
  cases s <;> simp [online_prefetch, seek_of]

theorem timed_events_seeks (env : Env) (c : Config) (hv : c.variant = Variant.random) :
    ∀ (vs : List Nat) (k io g : Nat),
      (timed_events env c vs k io g).filterMap seek_of =
        seek_offsets env c.file_size g vs.length := by
  intro vs
  induction vs with
  | nil => intro k io g; simp [timed_events, seek_offsets]
  | cons v vs ih =>
    intro k io g
    rw [timed_events, List.filterMap_append, ih, List.length_cons, seek_offsets]
    have hb : (body_events env c v k io g).filterMap seek_of =
        [(random_offset (env.rand g).1 c.file_size).getD 0] := by
      unfold body_events
      rw [hv]
      simp only [List.filterMap_append]
      have h1 : (if c.strategy.is_online = true ∧ v % c.prefetch_param = 0
          then online_prefetch c.strategy v c.prefetch_param else []).filterMap seek_of = [] := by
        split_ifs
        · exact online_prefetch_no_seek _ _ _
        · rfl
      have h2 : (if c.io_interarrival_time_ns ≠ 0
          then [Event.get_timestamp_us (reading env k), Event.nsleep c.io_interarrival_time_ns,
                Event.get_timestamp_us (reading env (k + 1))]
          else []).filterMap seek_of = [] := by
        split_ifs <;> simp [seek_of]
      rw [h1, h2]
      simp [seek_of]
    rw [hb]
    simp [generator_step, hv]

/-- The shape of a pass that ends normally: precondition, `t1`, the iterations
of the timed loop, the final reading. -/
theorem run_pass_shape (env : Env) (c : Config) (inner : Nat) (r r1 : Run)
    (h : run_pass env c inner r = Outcome.ok r1) :
    ∃ (n_warm : Nat) (vs : List Nat) (final : Nat),
      for_volume (timed_cond c) c.io_size inner 0 = some (vs, final) ∧
      (c.strategy.is_offline = true →
        ∃ ws wfinal, for_volume (warmup_cond c) c.io_size inner 0 = some (ws, wfinal) ∧
          n_warm = ws.length) ∧
      (c.strategy.is_offline = false → n_warm = 0) ∧
      r1.trace = r.trace ++ precondition_events env c n_warm r.io_calls ++
        Event.get_timestamp_us (reading env r.clock_calls) ::
          (timed_events env c vs (r.clock_calls + 1) (r.io_calls + n_warm)
              (generator_at_t1 env c r.generator) ++
            [Event.get_timestamp_us
              (reading env (r.clock_calls + 1 + readings_per_read c * vs.length))]) ∧
      r1.io_calls = r.io_calls + n_warm + vs.length ∧
      r1.clock_calls = r.clock_calls + 2 + readings_per_read c * vs.length ∧
      r1.experiment_count = r.experiment_count ∧
      (∀ j, r.io_calls + n_warm ≤ j → j < r.io_calls + n_warm + vs.length →
        0 ≤ read_ret c.strategy c.io_size (env.read_result j)) := by
  unfold run_pass at h
  obtain ⟨r0, hpre, htimed⟩ := bind_ok _ _ _ h
  obtain ⟨n_warm, hw1, hw2, hr0⟩ := precondition_ok env c inner r r0 hpre
  obtain ⟨vs, final, r2, hfv, hrun, hr1⟩ := timed_pass_ok env c inner r0 r1 htimed
  obtain ⟨q1, q2, q3, q4⟩ := run_bodies_trace env c vs _ r2 hrun
  obtain ⟨t1, t2, t3, _, _⟩ := timed_bodies_timing env c r0.clock_calls
    r0.read_duration r0.io_calls vs
    { r0 with clock_calls := r0.clock_calls + 1,
              trace := r0.trace ++ [Event.get_timestamp_us (reading env r0.clock_calls)],
              t1 := reading env r0.clock_calls }
    r2 rfl rfl rfl rfl hrun
  have e1 : r0.clock_calls = r.clock_calls := by rw [hr0]
  have e2 : r0.io_calls = r.io_calls + n_warm := by rw [hr0]
  have e3 : r0.generator = generator_at_t1 env c r.generator := by rw [hr0]
  have e4 : r0.trace = r.trace ++ precondition_events env c n_warm r.io_calls := by rw [hr0]
  have e5 : r0.experiment_count = r.experiment_count := by rw [hr0]
  simp only at q1 q2 q3 q4 t3
  refine ⟨n_warm, vs, final, hfv, hw1, hw2, ?_, ?_, ?_, ?_, ?_⟩
  · rw [hr1]
    simp only
    rw [q1, q2, e1, e2, e3, e4]
    simp [List.append_assoc]
  · rw [hr1]; simp only; rw [q3, e2]
  · rw [hr1]; simp only; rw [q2, e1]; ring
  · rw [hr1]; simp only; rw [t3, e5]
  · intro j h1 h2
    exact q4 j (by omega) (by omega)

/-- C3.  In the random program, with `rand` a function of the generator state:
every pass of every block that ends normally re-seeds the generator with
`RANDOM_SEED` as its last call before `t1` and draws once per read, so two
passes with the same file size and I/O size, of the same block or of two
blocks, from any two states, seek to the same offsets in their timed loops:
the offsets computed from the first `n` draws after `srand(RANDOM_SEED)`, `n`
the number of reads of the pass. -/
theorem random_offsets_reproducible (env : Env) (c1 c2 : Config) (inner1 inner2 : Nat)
    (r1 r2 x1 x2 : Run)
    (hv1 : c1.variant = Variant.random) (hv2 : c2.variant = Variant.random)
    (hF : c1.file_size = c2.file_size) (hS : c1.io_size = c2.io_size)
    (h1 : run_pass env c1 inner1 r1 = Outcome.ok x1)
    (h2 : run_pass env c2 inner2 r2 = Outcome.ok x2) :
    pass_seek_offsets x1.trace = pass_seek_offsets x2.trace ∧
      ∃ (vs : List Nat) (final : Nat),
        for_volume (random_cond c1.file_size) c1.io_size inner1 0 = some (vs, final) ∧
        pass_seek_offsets x1.trace =
          seek_offsets env c1.file_size (env.srand RANDOM_SEED) vs.length := by
  have key : ∀ (c : Config) (inner : Nat) (r x : Run), c.variant = Variant.random →
      run_pass env c inner r = Outcome.ok x →
      ∃ (vs : List Nat) (final : Nat),
        for_volume (random_cond c.file_size) c.io_size inner 0 = some (vs, final) ∧
        pass_seek_offsets x.trace =
          seek_offsets env c.file_size (env.srand RANDOM_SEED) vs.length := by
    intro c inner r x hv h
    obtain ⟨n_warm, vs, final, hfv, _, _, htrace, _⟩ := run_pass_shape env c inner r x h
    have hcond : timed_cond c = random_cond c.file_size := by
      unfold timed_cond; rw [hv]
    rw [hcond] at hfv
    refine ⟨vs, final, hfv, ?_⟩
    have hpre : precondition_events env c n_warm r.io_calls =
        ((if c.lustre then [Event.server_cache_evict 0 c.file_size] else []) ++
          [Event.client_cache_drop] ++ preparation_events env c n_warm r.io_calls) ++
          [Event.srand RANDOM_SEED] := by
      unfold precondition_events
      rw [hv]
      rfl
    rw [htrace, hpre, ← List.append_assoc]
    unfold pass_seek_offsets
    rw [after_last_srand_append]
    · simp only [List.filterMap_cons, seek_of, List.filterMap_append, List.filterMap_nil,
        List.append_nil]
      rw [timed_events_seeks env c hv]
      simp [generator_at_t1, hv]
    · intro e he s hes
      rw [List.mem_cons, List.mem_append] at he
      rcases he with he | he | he
      · rw [he] at hes; cases hes
      · have := timed_events_not_precondition env c vs _ _ _ e he
        rw [hes] at this
        simp [is_precondition_call] at this
      · simp at he
        rw [he] at hes; cases hes
  obtain ⟨vs1, f1, a1, b1⟩ := key c1 inner1 r1 x1 hv1 h1
  obtain ⟨vs2, f2, a2, b2⟩ := key c2 inner2 r2 x2 hv2 h2
  rw [← hF, ← hS] at a2
  have hu := for_volume_unique _ _ _ _ _ _ _ a1 a2
  have hlen : vs1.length = vs2.length := by
    have := congrArg Prod.fst hu
    simp only at this
    rw [this]
  refine ⟨?_, vs1, f1, a1, b1⟩
  rw [b1, b2, ← hF, hlen]

theorem sample_env_drops : drops_succeed sample_env :=
  fun _ => ⟨(by decide : (0 : Int) ≤ 3), (by decide : (0 : Int) ≤ 1)⟩

theorem sample_env_with_clock_drops (f : Nat → Int) :
    drops_succeed (sample_env_with_clock f) :=
  fun _ => ⟨(by decide : (0 : Int) ≤ 3), (by decide : (0 : Int) ≤ 1)⟩

theorem sample_env_with_reads_drops (f : Nat → Int) :
    drops_succeed (sample_env_with_reads f) :=
  fun _ => ⟨(by decide : (0 : Int) ≤ 3), (by decide : (0 : Int) ≤ 1)⟩

theorem sample_run_pass :
    run_pass sample_env sample_config 5 Run.initial = Outcome.ok sample_run := by
  rfl

/-- Witness of `precondition_not_billed`: the sample pass. -/
theorem precondition_not_billed_witness :
    run_pass sample_env sample_config 5 Run.initial = Outcome.ok sample_run ∧
      ∃ (r0 : Run) (timed : List Event),
        precondition sample_env sample_config 5 Run.initial = Outcome.ok r0 ∧
        timed_pass sample_env sample_config 5 r0 = Outcome.ok sample_run ∧
        sample_run.trace =
          r0.trace ++ Event.get_timestamp_us (reading sample_env 0) :: timed ∧
        ∀ e ∈ timed, is_precondition_call sample_config e = false := by
  obtain ⟨r0, _, _, timed, h1, h2, _, _, _, _, h7, h8, _⟩ :=
    precondition_not_billed sample_env sample_config 5 Run.initial sample_run sample_run_pass
  exact ⟨sample_run_pass, r0, timed, h1, h2, h7, h8⟩

theorem sample_random_pass_completes (c : Config) (inner : Nat) (r : Run)
    (hv : c.variant = Variant.random) (hF : c.file_size = 100) (hS : c.io_size = 4)
    (hs : c.strategy ≠ Strategy.o_direct) (hoff : c.strategy.is_offline = false)
    (hon : c.strategy.is_online = false) (hinner : 3 < inner) :
    ∃ x, run_pass sample_env c inner r = Outcome.ok x := by
  have hfv := random_for_volume 100 4 inner (by norm_num) (by norm_num) (by norm_num)
    (by norm_num) (by norm_num [ceil_div]; omega)
  have hcond : timed_cond c = random_cond 100 := by
    unfold timed_cond
    rw [hv, hF]
  rw [← hcond, ← hS] at hfv
  exact run_pass_completes sample_env c inner r _ _ hfv
    (fun h => by rw [hoff] at h; cases h)
    (fun h => by rw [hon] at h; cases h)
    (fun _ => by rw [hF]; norm_num)
    (fun j => fread_ret_nonneg _ _ _ hs (by rw [hS]; norm_num)) sample_env_drops

/-- Witness of `random_offsets_reproducible`: a pass of the "Not cached" block
from the initial state and a paced pass of the "marked as random" block of the
Lustre build from another state seek to the same offsets. -/
theorem random_offsets_reproducible_witness :
    ∃ x1 x2, run_pass sample_env sample_random_config 5 Run.initial = Outcome.ok x1 ∧
      run_pass sample_env sample_random_config_2 7 sample_run = Outcome.ok x2 ∧
      pass_seek_offsets x1.trace = pass_seek_offsets x2.trace := by
  obtain ⟨x1, h1⟩ := sample_random_pass_completes sample_random_config 5 Run.initial
    rfl rfl rfl (by decide) rfl rfl (by norm_num)
  obtain ⟨x2, h2⟩ := sample_random_pass_completes sample_random_config_2 7 sample_run
    rfl rfl rfl (by decide) rfl rfl (by norm_num)
  exact ⟨x1, x2, h1, h2,
    (random_offsets_reproducible sample_env sample_random_config sample_random_config_2 5 7
      Run.initial sample_run x1 x2 rfl rfl rfl rfl h1 h2).1⟩

/-! ### Campaigns -/

theorem records_append (a b : List Event) : records (a ++ b) = records a ++ records b := by
  unfold records
  exact List.filterMap_append _ _ _

theorem records_of_no_record (t : List Event)
    (h : ∀ e ∈ t, ∀ rc, e ≠ Event.fprintf_record rc) : records t = [] := by
  unfold records
  rw [List.filterMap_eq_nil_iff]
  intro e he
  cases e <;> first | rfl | exact absurd rfl (h _ he _)

theorem warmup_events_records (env : Env) (c : Config) :
    ∀ (n io : Nat), records (warmup_events env c n io) = [] := by
  intro n
  induction n with
  | zero => intro io; rfl
  | succ n ih =>
    intro io
    rw [warmup_events]
    have := ih (io + 1)
    simp only [records, List.filterMap_cons] at this ⊢
    exact this

theorem precondition_events_records (env : Env) (c : Config) (n io : Nat) :
    records (precondition_events env c n io) = [] := by
  have hw := warmup_events_records env c n io
  unfold precondition_events
  rw [records_append, records_append, records_append]
  have h1 : records (if c.lustre = true then [Event.server_cache_evict 0 c.file_size] else [])
      = [] := by
    split_ifs <;> rfl
  have h2 : records (reseed_events c.variant) = [] := by
    cases c.variant <;> rfl
  have h3 : records (preparation_events env c n io) = [] := by
    unfold preparation_events
    cases c.strategy <;> simp only [records_append, hw] <;> rfl
  rw [h1, h2, h3]
  rfl

theorem timed_events_records (env : Env) (c : Config) :
    ∀ (vs : List Nat) (k io g : Nat), records (timed_events env c vs k io g) = [] := by
  intro vs
  induction vs with
  | nil => intro k io g; rfl
  | cons v vs ih =>
    intro k io g
    rw [timed_events, records_append, ih]
    have hb : records (body_events env c v k io g) = [] := by
      unfold body_events
      simp only [records_append]
      have h1 : records (if c.strategy.is_online = true ∧ v % c.prefetch_param = 0
          then online_prefetch c.strategy v c.prefetch_param else []) = [] := by
        split_ifs
        · cases c.strategy <;> rfl
        · rfl
      have h2 : records (match c.variant with
          | Variant.sequential => []
          | Variant.random =>
            [Event.seek ((random_offset (env.rand g).1 c.file_size).getD 0)]) = [] := by
        cases c.variant <;> rfl
      have h3 : records (if c.io_interarrival_time_ns ≠ 0
          then [Event.get_timestamp_us (reading env k), Event.nsleep c.io_interarrival_time_ns,
                Event.get_timestamp_us (reading env (k + 1))]
          else []) = [] := by
        split_ifs <;> rfl
      rw [h1, h2, h3]
      rfl
    rw [hb]
    rfl

theorem timed_reads_eq (c : Config) (inner : Nat) (vs : List Nat) (final : Nat)
    (h : for_volume (timed_cond c) c.io_size inner 0 = some (vs, final)) :
    timed_reads c inner = vs.length ∧ final_volume c inner = final := by
  unfold timed_reads final_volume
  rw [h]
  exact ⟨rfl, rfl⟩

theorem warmup_reads_eq (c : Config) (inner n_warm : Nat)
    (h1 : c.strategy.is_offline = true →
      ∃ ws wfinal, for_volume (warmup_cond c) c.io_size inner 0 = some (ws, wfinal) ∧
        n_warm = ws.length)
    (h2 : c.strategy.is_offline = false → n_warm = 0) : warmup_reads c inner = n_warm := by
  unfold warmup_reads
  by_cases hoff : c.strategy.is_offline = true
  · obtain ⟨ws, wfinal, hfv, hn⟩ := h1 hoff
    rw [if_pos hoff, hfv, hn]
  · rw [if_neg hoff]
    exact (h2 (by simpa using hoff)).symm

/-- What a pass that ends normally changes, in terms of the start state. -/
theorem run_pass_summary (env : Env) (c : Config) (inner : Nat) (r r1 : Run)
    (h : run_pass env c inner r = Outcome.ok r1) :
    (∃ vs final, for_volume (timed_cond c) c.io_size inner 0 = some (vs, final)) ∧
      r1.clock_calls = r.clock_calls + readings_per_pass c inner - 1 ∧
      r1.io_calls = r.io_calls + warmup_reads c inner + timed_reads c inner ∧
      r1.experiment_count = r.experiment_count ∧
      r1.read_duration % 2 ^ 64 =
        (r.read_duration + pass_billable env c inner r.clock_calls) % 2 ^ 64 ∧
      (c.variant = Variant.sequential → r1.total_volume = r.total_volume) ∧
      (c.variant = Variant.random →
        r1.total_volume = wadd r.total_volume (final_volume c inner)) ∧
      records r1.trace = records r.trace := by
  obtain ⟨n_warm, vs, final, hfv, hw1, hw2, htrace, hio, hclk, hcnt, _⟩ :=
    run_pass_shape env c inner r r1 h
  obtain ⟨htr, hfin⟩ := timed_reads_eq c inner vs final hfv
  have hwr := warmup_reads_eq c inner n_warm hw1 hw2
  -- billing and total_volume
  unfold run_pass at h
  obtain ⟨r0, hpre, htimed⟩ := bind_ok _ _ _ h
  obtain ⟨n0, _, _, hr0⟩ := precondition_ok env c inner r r0 hpre
  obtain ⟨vs2, final2, r2, hfv2, hrun, hr1⟩ := timed_pass_ok env c inner r0 r1 htimed
  have hu := for_volume_unique _ _ _ _ _ _ _ hfv hfv2
  have hvs : vs2 = vs := (congrArg Prod.fst hu).symm
  have hf2 : final2 = final := (congrArg Prod.snd hu).symm
  subst hvs; subst hf2
  obtain ⟨t1, t2, t3, t4, t5⟩ := timed_bodies_timing env c r0.clock_calls
    r0.read_duration r0.io_calls vs2
    { r0 with clock_calls := r0.clock_calls + 1,
              trace := r0.trace ++ [Event.get_timestamp_us (reading env r0.clock_calls)],
              t1 := reading env r0.clock_calls }
    r2 rfl rfl rfl rfl hrun
  have e1 : r0.clock_calls = r.clock_calls := by rw [hr0]
  have e2 : r0.read_duration = r.read_duration := by rw [hr0]
  have e3 : r0.total_volume = r.total_volume := by rw [hr0]
  have hrd : r1.read_duration =
      wadd r2.read_duration (wsub (reading env r2.clock_calls) r2.t1) := by rw [hr1]
  simp only at t2
  refine ⟨⟨vs2, final2, hfv⟩, ?_, ?_, hcnt, ?_, ?_, ?_, ?_⟩
  · rw [hclk]; unfold readings_per_pass; rw [htr]; omega
  · rw [hio, hwr, htr]
  · rw [hrd, ← e1, ← e2]
    unfold pass_billable billed_intervals
    rw [htr]
    by_cases hia : c.io_interarrival_time_ns = 0
    · obtain ⟨a1, a2, a3⟩ := t4 hia
      simp only [hia, ne_eq, not_true_eq_false, if_false, Finset.sum_range_one,
        Nat.mul_zero, Nat.add_zero]
      rw [a1, a2, a3]
      unfold wadd
      rw [Nat.mod_mod]
    · obtain ⟨a1, a2, a3⟩ := t5 hia
      rw [if_pos hia, Finset.sum_range_succ, a1, a2]
      unfold wadd
      rw [Nat.mod_mod, Nat.add_mod, a3, ← Nat.add_mod, Nat.add_assoc]
  · intro hv
    rw [hr1, hv]
    simp only
    rw [t2, e3]
  · intro hv
    rw [hr1, hv]
    simp only
    rw [t2, e3, hfin]
  · rw [htrace, records_append, records_append, precondition_events_records]
    simp only [records, List.filterMap_cons, List.filterMap_append, List.filterMap_nil,
      List.append_nil]
    have := timed_events_records env c vs2 (r.clock_calls + 1) (r.io_calls + n_warm)
      (generator_at_t1 env c r.generator)
    simp only [records] at this
    rw [this]
    simp

theorem mod_add_congr (a b c M : Nat) (h : a % M = b % M) : (a + c) % M = (b + c) % M := by
  rw [Nat.add_mod a c M, h, ← Nat.add_mod]

/-- A campaign that ends normally: the passes it ran and what they changed. -/
theorem campaign_ok (env : Env) (c : Config) (inner t0 : Nat) :
    ∀ (fuel : Nat) (r r1 : Run), campaign env c inner t0 fuel r = Outcome.ok r1 →
      ∃ n, n < fuel ∧
        (∀ i, i < n →
          budget_test env t0 (r.clock_calls + i * readings_per_pass c inner) = true) ∧
        budget_test env t0 (r.clock_calls + n * readings_per_pass c inner) = false ∧
        (0 < n → (∃ vs final, for_volume (timed_cond c) c.io_size inner 0 = some (vs, final)) ∧
          r1.experiment_count < 2 ^ 31) ∧
        r1.clock_calls = r.clock_calls + n * readings_per_pass c inner + 1 ∧
        r1.experiment_count = r.experiment_count + n ∧
        r1.io_calls = r.io_calls + n * (warmup_reads c inner + timed_reads c inner) ∧
        r1.read_duration % 2 ^ 64 =
          (r.read_duration + ∑ i ∈ Finset.range n,
            pass_billable env c inner
              (r.clock_calls + i * readings_per_pass c inner + 1)) % 2 ^ 64 ∧
        (c.variant = Variant.sequential → r1.total_volume = r.total_volume) ∧
        (c.variant = Variant.random →
          r1.total_volume % 2 ^ 64 = (r.total_volume + n * final_volume c inner) % 2 ^ 64) ∧
        records r1.trace = records r.trace := by
  intro fuel
  induction fuel with
  | zero => intro r r1 h; cases h
  | succ fuel ih =>
    intro r r1 h
    rw [campaign] at h
    simp only [get_timestamp_us] at h
    by_cases hb : wsub (reading env r.clock_calls) t0 < DURATION_PER_EXPERIMENT_US
    · rw [if_pos hb] at h
      obtain ⟨p, hp, h2⟩ := bind_ok _ _ _ h
      by_cases hc : p.experiment_count + 1 < 2 ^ 31
      · rw [if_pos hc] at h2
        obtain ⟨n, hn, hchk, hlast, hpos, hclk, hcnt, hio, hrd, hseq, hrnd, hrec⟩ :=
          ih _ _ h2
        obtain ⟨s1, s2, s3, s4, s5, s6, s7, s8⟩ := run_pass_summary env c inner _ p hp
        simp only at s2 s3 s4 s5 s6 s7 s8 hchk hlast hclk hcnt hio hrd hseq hrnd hrec
        have hq : 3 ≤ readings_per_pass c inner := by unfold readings_per_pass; omega
        have hk : p.clock_calls = r.clock_calls + readings_per_pass c inner := by
          rw [s2]; omega
        have hidx : ∀ i, p.clock_calls + i * readings_per_pass c inner =
            r.clock_calls + (i + 1) * readings_per_pass c inner := by
          intro i; rw [hk, Nat.add_mul, Nat.one_mul]; omega
        refine ⟨n + 1, by omega, ?_, ?_, ?_, ?_, ?_, ?_, ?_, ?_, ?_, ?_⟩
        · intro i hi
          cases i with
          | zero =>
            simp only [Nat.zero_mul, Nat.add_zero]
            unfold budget_test
            exact decide_eq_true hb
          | succ i =>
            rw [← hidx]
            exact hchk i (by omega)
        · rw [← hidx]; exact hlast
        · intro _
          refine ⟨s1, ?_⟩
          rw [hcnt]
          rcases Nat.eq_zero_or_pos n with h0 | h0
          · rw [h0]; omega
          · have := (hpos h0).2
            rw [hcnt] at this
            exact this
        · rw [hclk, hidx]
        · rw [hcnt, s4]; omega
        · rw [hio, s3, Nat.add_mul, Nat.one_mul]; omega
        · rw [hrd, Finset.sum_range_succ']
          simp only [Nat.zero_mul, Nat.add_zero]
          have e : ∀ i, p.clock_calls + i * readings_per_pass c inner + 1 =
              r.clock_calls + (i + 1) * readings_per_pass c inner + 1 := by
            intro i; rw [hidx]
          simp only [e]
          have := mod_add_congr _ _
            (∑ i ∈ Finset.range n, pass_billable env c inner
              (r.clock_calls + (i + 1) * readings_per_pass c inner + 1)) _ s5
          rw [this]
          congr 1
          omega
        · intro hv
          rw [hseq hv, s6 hv]
        · intro hv
          rw [hrnd hv, s7 hv]
          unfold wadd
          rw [Nat.mod_add_mod, Nat.add_mul, Nat.one_mul]
          congr 1
          omega
        · rw [hrec, s8]
          simp [records]
      · rw [if_neg hc] at h2
        cases h2
    · rw [if_neg hb] at h
      cases h
      refine ⟨0, Nat.succ_pos _, ?_, ?_, ?_, ?_, ?_, ?_, ?_, ?_, ?_, ?_⟩
      · intro i hi; omega
      · simp only [Nat.zero_mul, Nat.add_zero]
        unfold budget_test
        exact decide_eq_false hb
      · intro h0; omega
      · simp
      · simp
      · simp
      · simp
      · intro _; rfl
      · intro _; simp
      · simp [records]

/-- A campaign ends normally as soon as a budget test fails, when each of its
passes does. -/
theorem campaign_completes (env : Env) (c : Config) (inner t0 : Nat)
    (hpass : ∀ r, ∃ r1, run_pass env c inner r = Outcome.ok r1) :
    ∀ (n fuel : Nat) (r : Run), n < fuel → r.experiment_count + n < 2 ^ 31 →
      (∀ i, i < n →
        budget_test env t0 (r.clock_calls + i * readings_per_pass c inner) = true) →
      budget_test env t0 (r.clock_calls + n * readings_per_pass c inner) = false →
      ∃ r1, campaign env c inner t0 fuel r = Outcome.ok r1 := by
  intro n
  induction n with
  | zero =>
    intro fuel r hf _ _ hlast
    obtain ⟨f, rfl⟩ : ∃ f, fuel = f + 1 := ⟨fuel - 1, by omega⟩
    rw [campaign]
    simp only [get_timestamp_us]
    simp only [Nat.zero_mul, Nat.add_zero] at hlast
    unfold budget_test at hlast
    rw [if_neg (of_decide_eq_false hlast)]
    exact ⟨_, rfl⟩
  | succ n ih =>
    intro fuel r hf hcnt hchk hlast
    obtain ⟨f, rfl⟩ : ∃ f, fuel = f + 1 := ⟨fuel - 1, by omega⟩
    rw [campaign]
    simp only [get_timestamp_us]
    have h0 := hchk 0 (Nat.succ_pos _)
    simp only [Nat.zero_mul, Nat.add_zero] at h0
    unfold budget_test at h0
    rw [if_pos (of_decide_eq_true h0)]
    obtain ⟨p, hp⟩ := hpass
      { r with clock_calls := r.clock_calls + 1,
               trace := r.trace ++ [Event.get_timestamp_us (reading env r.clock_calls)] }
    rw [hp]
    obtain ⟨_, s2, _, s4, _⟩ := run_pass_summary env c inner _ p hp
    simp only at s2 s4
    have hq : 3 ≤ readings_per_pass c inner := by unfold readings_per_pass; omega
    have hk : p.clock_calls = r.clock_calls + readings_per_pass c inner := by
      rw [s2]; omega
    have hidx : ∀ i, p.clock_calls + i * readings_per_pass c inner =
        r.clock_calls + (i + 1) * readings_per_pass c inner := by
      intro i; rw [hk, Nat.add_mul, Nat.one_mul]; omega
    simp only [Outcome.bind]
    rw [if_pos (by rw [s4]; omega)]
    apply ih
    · omega
    · simp only; rw [s4]; omega
    · intro i hi
      simp only
      rw [hidx]
      exact hchk (i + 1) (by omega)
    · simp only
      rw [hidx]
      exact hlast

theorem run_pass_read_duration_lt (env : Env) (c : Config) (inner : Nat) (r r1 : Run)
    (h : run_pass env c inner r = Outcome.ok r1) : r1.read_duration < 2 ^ 64 := by
  unfold run_pass at h
  obtain ⟨r0, _, htimed⟩ := bind_ok _ _ _ h
  obtain ⟨vs, final, r2, _, _, hr1⟩ := timed_pass_ok env c inner r0 r1 htimed
  rw [hr1]
  exact Nat.mod_lt _ (by norm_num)

theorem campaign_bounds (env : Env) (c : Config) (inner t0 : Nat) :
    ∀ (fuel : Nat) (r r1 : Run), campaign env c inner t0 fuel r = Outcome.ok r1 →
      r.read_duration < 2 ^ 64 → r.total_volume < 2 ^ 64 →
      r1.read_duration < 2 ^ 64 ∧ r1.total_volume < 2 ^ 64 := by
  intro fuel
  induction fuel with
  | zero => intro r r1 h; cases h
  | succ fuel ih =>
    intro r r1 h hrd htv
    rw [campaign] at h
    simp only [get_timestamp_us] at h
    by_cases hb : wsub (reading env r.clock_calls) t0 < DURATION_PER_EXPERIMENT_US
    · rw [if_pos hb] at h
      obtain ⟨p, hp, h2⟩ := bind_ok _ _ _ h
      by_cases hc : p.experiment_count + 1 < 2 ^ 31
      · rw [if_pos hc] at h2
        obtain ⟨_, _, _, _, _, s6, s7, _⟩ := run_pass_summary env c inner _ p hp
        simp only at s6 s7
        refine ih _ _ h2 (run_pass_read_duration_lt env c inner _ p hp) ?_
        simp only
        cases hv : c.variant with
        | sequential => rw [s6 hv]; exact htv
        | random => rw [s7 hv]; exact Nat.mod_lt _ (by norm_num)
      · rw [if_neg hc] at h2
        cases h2
    · rw [if_neg hb] at h
      cases h
      exact ⟨hrd, htv⟩

theorem experiment_eq (env : Env) (c : Config) (inner fuel : Nat) (r : Run) :
    experiment env c inner fuel r =
      (campaign env c inner (reading env r.clock_calls) fuel (campaign_start env c r)).bind
        fun r3 =>
          if c.strategy = Strategy.o_direct then
            Outcome.ok
              (r3.emit_all [Event.free, Event.fprintf_record (record_call c r3), Event.fflush])
          else
            Outcome.ok
              (r3.emit_all [Event.fprintf_record (record_call c r3), Event.free, Event.fflush]) :=
  rfl

theorem record_call_congr (c : Config) (r r1 : Run)
    (h1 : r1.experiment_count = r.experiment_count) (h2 : r1.total_volume = r.total_volume)
    (h3 : r1.read_duration = r.read_duration) : record_call c r1 = record_call c r := by
  unfold record_call total_bytes
  rw [h1, h2, h3]

/-- An experiment that ends normally: the passes of its campaign, what they
changed, and its result line. -/
theorem experiment_passes (env : Env) (c : Config) (inner fuel : Nat) (r r1 : Run)
    (h : experiment env c inner fuel r = Outcome.ok r1) :
    r1.experiment_count < fuel ∧
      (∀ i, i < r1.experiment_count →
        budget_test env (reading env r.clock_calls)
          (r.clock_calls + 1 + i * readings_per_pass c inner) = true) ∧
      budget_test env (reading env r.clock_calls)
        (r.clock_calls + 1 + r1.experiment_count * readings_per_pass c inner) = false ∧
      (0 < r1.experiment_count →
        (∃ vs final, for_volume (timed_cond c) c.io_size inner 0 = some (vs, final)) ∧
        r1.experiment_count < 2 ^ 31) ∧
      r1.clock_calls =
        r.clock_calls + 1 + r1.experiment_count * readings_per_pass c inner + 1 ∧
      r1.io_calls =
        r.io_calls + r1.experiment_count * (warmup_reads c inner + timed_reads c inner) ∧
      r1.read_duration =
        (∑ i ∈ Finset.range r1.experiment_count,
          pass_billable env c inner
            (r.clock_calls + 1 + i * readings_per_pass c inner + 1)) % 2 ^ 64 ∧
      (c.variant = Variant.sequential → r1.total_volume = 0) ∧
      (c.variant = Variant.random →
        r1.total_volume = (r1.experiment_count * final_volume c inner) % 2 ^ 64) ∧
      records r1.trace = records r.trace ++ [record_call c r1] := by
  rw [experiment_eq] at h
  obtain ⟨r3, hc, h3⟩ := bind_ok _ _ _ h
  obtain ⟨n, hn, hchk, hlast, hpos, hclk, hcnt, hio, hrd, hseq, hrnd, hrec⟩ :=
    campaign_ok env c inner _ fuel _ r3 hc
  obtain ⟨b1, b2⟩ := campaign_bounds env c inner _ fuel _ r3 hc
    (by simp [campaign_start]) (by simp [campaign_start])
  simp only [campaign_start, get_timestamp_us, Run.emit, Nat.zero_add] at hchk hlast hclk hcnt
  simp only [campaign_start, get_timestamp_us, Run.emit, Nat.zero_add] at hio hrd hseq hrnd hrec
  have e : r1.experiment_count = r3.experiment_count ∧ r1.clock_calls = r3.clock_calls ∧
      r1.io_calls = r3.io_calls ∧ r1.read_duration = r3.read_duration ∧
      r1.total_volume = r3.total_volume ∧
      records r1.trace = records r3.trace ++ [record_call c r3] := by
    by_cases hs : c.strategy = Strategy.o_direct
    · rw [if_pos hs] at h3
      cases h3
      refine ⟨rfl, rfl, rfl, rfl, rfl, ?_⟩
      simp [Run.emit_all, records]
    · rw [if_neg hs] at h3
      cases h3
      refine ⟨rfl, rfl, rfl, rfl, rfl, ?_⟩
      simp [Run.emit_all, records]
  obtain ⟨e1, e2, e3, e4, e5, e6⟩ := e
  have e7 : record_call c r1 = record_call c r3 := record_call_congr c r3 r1 e1 e5 e4
  rw [e1, e2, e3, e4, e5, e6, e7, hcnt]
  refine ⟨hn, hchk, hlast, ?_, hclk, hio, ?_, hseq, ?_, ?_⟩
  · intro h0
    have := hpos h0
    rw [hcnt] at this
    exact this
  · rw [← Nat.mod_eq_of_lt b1, hrd]
  · intro hv
    rw [← Nat.mod_eq_of_lt b2, hrnd hv]
  · rw [hrec]
    simp [records]

/-- An experiment ends normally with `n` passes when its first `n` budget tests
succeed and the next one fails, and each of its passes ends normally. -/
theorem experiment_completes (env : Env) (c : Config) (inner fuel : Nat) (r : Run) (n : Nat)
    (hpass : ∀ x, ∃ x1, run_pass env c inner x = Outcome.ok x1)
    (hn : n < fuel) (hn31 : n < 2 ^ 31)
    (hchk : ∀ i, i < n →
      budget_test env (reading env r.clock_calls)
        (r.clock_calls + 1 + i * readings_per_pass c inner) = true)
    (hlast : budget_test env (reading env r.clock_calls)
        (r.clock_calls + 1 + n * readings_per_pass c inner) = false) :
    ∃ r1, experiment env c inner fuel r = Outcome.ok r1 ∧ r1.experiment_count = n := by
  obtain ⟨r3, h3⟩ := campaign_completes env c inner (reading env r.clock_calls) hpass n fuel
    (campaign_start env c r) hn (by simp [campaign_start]; exact hn31)
    (by simpa [campaign_start, get_timestamp_us, Run.emit] using hchk)
    (by simpa [campaign_start, get_timestamp_us, Run.emit] using hlast)
  have hex : ∃ r1, experiment env c inner fuel r = Outcome.ok r1 := by
    rw [experiment_eq, h3]
    by_cases hs : c.strategy = Strategy.o_direct
    · simp only [Outcome.bind, if_pos hs]; exact ⟨_, rfl⟩
    · simp only [Outcome.bind, if_neg hs]; exact ⟨_, rfl⟩
  obtain ⟨r1, h1⟩ := hex
  refine ⟨r1, h1, ?_⟩
  obtain ⟨_, a2, a3, _⟩ := experiment_passes env c inner fuel r r1 h1
  rcases Nat.lt_trichotomy r1.experiment_count n with hlt | heq | hgt
  · have := hchk _ hlt
    rw [a3] at this
    cases this
  · exact heq
  · have := a2 _ hgt
    rw [hlast] at this
    cases this

/-! ### The time budget of an experiment -/

theorem to_u64_natCast (n : Nat) : to_u64 (n : Int) = n % 2 ^ 64 := by
  unfold to_u64
  have : ((n : Int)) % 2 ^ 64 = ((n % 2 ^ 64 : Nat) : Int) := by norm_cast
  rw [this, Int.toNat_ofNat]

theorem reading_with_clock (f : Nat → Int) (k : Nat) (h0 : 0 ≤ f k) (h1 : f k < 2 ^ 40) :
    reading (sample_env_with_clock f) k = (f k).toNat * 1000000 := by
  obtain ⟨m, hm⟩ := Int.eq_ofNat_of_zero_le h0
  have hm40 : m < 2 ^ 40 := by
    rw [hm] at h1
    exact_mod_cast h1
  simp only [reading, sample_env_with_clock, timestamp_of, hm, Int.toNat_ofNat]
  have e1 : to_u64 (m : Int) = m := by
    unfold to_u64
    have : ((m : Int)) % 2 ^ 64 = (m : Int) :=
      Int.emod_eq_of_lt (by positivity) (by norm_num at hm40 ⊢; omega)
    rw [this]
    rfl
  have e2 : to_u64 0 = 0 := by simp [to_u64]
  rw [e1, e2]
  unfold wadd wmul
  norm_num at hm40 ⊢
  omega

theorem second_clock_reading (k : Nat) (hk : k < 100) :
    reading (sample_env_with_clock fun k => (k : Int)) k = k * 1000000 := by
  have := reading_with_clock (fun k => (k : Int)) k (by positivity)
    (by norm_num; exact_mod_cast (by omega : k < 1099511627776))
  simpa using this

theorem budget_test_iff (env : Env) (t0 k : Nat) :
    budget_test env t0 k = true ↔ wsub (reading env k) t0 < 15000000 := by
  unfold budget_test DURATION_PER_EXPERIMENT_US
  simp

theorem unpaced_readings_per_pass (c : Config) (inner : Nat)
    (h : c.io_interarrival_time_ns = 0) : readings_per_pass c inner = 3 := by
  unfold readings_per_pass readings_per_read
  simp [h]

theorem sequential_timed_reads (c : Config) (inner : Nat)
    (hv : c.variant = Variant.sequential) (hS : 1 ≤ c.io_size) (hSF : c.io_size ≤ c.file_size)
    (hwrap : ceil_div c.file_size c.io_size * c.io_size < 2 ^ 64)
    (hfv : ∃ vs final, for_volume (timed_cond c) c.io_size inner 0 = some (vs, final)) :
    timed_reads c inner = ceil_div c.file_size c.io_size := by
  obtain ⟨vs, final, hfv⟩ := hfv
  have h1 := sequential_for_volume c.file_size c.io_size
    (ceil_div c.file_size c.io_size + 1) hS hSF hwrap (Nat.lt_succ_self _)
  have hc : timed_cond c = sequential_cond c.file_size := by
    unfold timed_cond; rw [hv]
  rw [hc] at hfv
  have hu := for_volume_unique _ _ _ _ _ _ _ hfv h1
  rw [← hc] at hfv
  have hvs : vs = List.map (fun i => i * c.io_size)
      (List.range (ceil_div c.file_size c.io_size)) := congrArg Prod.fst hu
  rw [(timed_reads_eq c inner vs final hfv).1, hvs]
  simp

theorem sequential_pass_completes (env : Env) (c : Config) (inner : Nat)
    (hv : c.variant = Variant.sequential) (hs : c.strategy ≠ Strategy.o_direct)
    (hon : c.strategy.is_online = true → c.prefetch_param ≠ 0)
    (hS : 1 ≤ c.io_size) (hSF : c.io_size ≤ c.file_size) (hS31 : c.io_size < 2 ^ 31)
    (hwrap : ceil_div c.file_size c.io_size * c.io_size < 2 ^ 64)
    (hinner : ceil_div c.file_size c.io_size < inner) (hdrop : drops_succeed env) :
    (∃ vs final, for_volume (timed_cond c) c.io_size inner 0 = some (vs, final)) ∧
      ∀ x, ∃ x1, run_pass env c inner x = Outcome.ok x1 := by
  have h1 := sequential_for_volume c.file_size c.io_size inner hS hSF hwrap hinner
  have hc : timed_cond c = sequential_cond c.file_size := by
    unfold timed_cond; rw [hv]
  have hw : warmup_cond c = sequential_cond c.file_size := by
    unfold warmup_cond; rw [hv]
  rw [← hc] at h1
  refine ⟨⟨_, _, h1⟩, fun x => ?_⟩
  refine run_pass_completes env c inner x _ _ h1 (fun _ => ?_) hon
    (fun h => by rw [hv] at h; cases h) (fun j => fread_ret_nonneg _ _ _ hs hS31) hdrop
  rw [hw, ← hc]
  exact ⟨_, _, h1⟩

theorem not_cached_scenario_facts (env : Env) (lustre : Bool) (inner : Nat)
    (hinner : 262144 < inner) (hdrop : drops_succeed env) :
    timed_reads (not_cached_scenario lustre) inner = 262144 ∧
      warmup_reads (not_cached_scenario lustre) inner = 0 ∧
      readings_per_pass (not_cached_scenario lustre) inner = 3 ∧
      ∀ x, ∃ x1, run_pass env (not_cached_scenario lustre) inner x = Outcome.ok x1 := by
  have hcd : ceil_div (not_cached_scenario lustre).file_size
      (not_cached_scenario lustre).io_size = 262144 := by
    norm_num [ceil_div, not_cached_scenario]
  obtain ⟨h1, h2⟩ := sequential_pass_completes env (not_cached_scenario lustre) inner rfl
    (by simp [not_cached_scenario]) (fun h => by cases h)
    (by norm_num [not_cached_scenario]) (by norm_num [not_cached_scenario])
    (by norm_num [not_cached_scenario]) (by rw [hcd]; norm_num [not_cached_scenario])
    (by rw [hcd]; exact hinner) hdrop
  refine ⟨?_, rfl, unpaced_readings_per_pass _ _ rfl, h2⟩
  rw [sequential_timed_reads _ inner rfl (by norm_num [not_cached_scenario])
    (by norm_num [not_cached_scenario]) (by rw [hcd]; norm_num [not_cached_scenario]) h1, hcd]

theorem least_failing_test (P : Nat → Bool) (m : Nat) (h : P m = false) :
    ∃ n, n ≤ m ∧ (∀ i, i < n → P i = true) ∧ P n = false := by
  classical
  have hex : ∃ n, P n = false := ⟨m, h⟩
  refine ⟨Nat.find hex, Nat.find_min' hex h, fun i hi => ?_, Nat.find_spec hex⟩
  have := Nat.find_min hex hi
  simpa using this

/-! ### The throughput of a result line -/

theorem round_half_even_near (x : ℚ) : |(round_half_even x : ℚ) - x| ≤ 1 / 2 := by
  have h1 := Int.floor_le x
  have h2 := Int.lt_floor_add_one x
  unfold round_half_even
  split_ifs with a b c
  · rw [abs_le]; constructor <;> linarith
  · rw [abs_le]; push_cast; constructor <;> linarith
  · rw [abs_le]; constructor <;> linarith
  · rw [abs_le]; push_cast; constructor <;> linarith

theorem f64_round_zero : f64_round 0 = 0 := by
  unfold f64_round
  rw [if_pos (le_refl _)]

theorem f64_round_near (x : ℚ) (hx : 0 ≤ x) : |f64_round x - x| ≤ x / 2 ^ 53 := by
  rcases eq_or_lt_of_le hx with h0 | hpos
  · rw [← h0, f64_round_zero]; simp
  unfold f64_round
  rw [if_neg (not_le.2 hpos)]
  set L := Int.log 2 x with hL
  have hlow : (2 : ℚ) ^ L ≤ x := by
    have := Int.zpow_log_le_self (b := 2) (by norm_num) hpos
    simpa using this
  have hp : (0 : ℚ) < (2 : ℚ) ^ (L - 52) := by positivity
  have hnear := round_half_even_near (x / (2 : ℚ) ^ (L - 52))
  have e : (round_half_even (x / (2 : ℚ) ^ (L - 52)) : ℚ) * (2 : ℚ) ^ (L - 52) - x =
      ((round_half_even (x / (2 : ℚ) ^ (L - 52)) : ℚ) - x / (2 : ℚ) ^ (L - 52)) *
        (2 : ℚ) ^ (L - 52) := by
    field_simp
  rw [e, abs_mul, abs_of_pos hp]
  have h53 : (2 : ℚ) ^ (L - 52) = (2 : ℚ) ^ L / 2 ^ 52 := by
    rw [zpow_sub₀ (by norm_num : (2 : ℚ) ≠ 0)]
    norm_num
  calc |(round_half_even (x / (2 : ℚ) ^ (L - 52)) : ℚ) - x / (2 : ℚ) ^ (L - 52)| *
        (2 : ℚ) ^ (L - 52)
      ≤ 1 / 2 * (2 : ℚ) ^ (L - 52) := by
        apply mul_le_mul_of_nonneg_right hnear hp.le
    _ = (2 : ℚ) ^ L / 2 ^ 53 := by rw [h53]; ring
    _ ≤ x / 2 ^ 53 := by
        apply div_le_div_of_nonneg_right hlow (by positivity)

theorem f64_round_pos (x : ℚ) (hx : 0 < x) : 0 < f64_round x := by
  have h := f64_round_near x hx.le
  rw [abs_le] at h
  have : x / 2 ^ 53 < x := by
    rw [div_lt_iff₀ (by positivity)]
    nlinarith
  linarith

theorem round_half_even_natCast_div (p s : Nat) :
    (round_half_even ((p : ℚ) / 2 ^ s) : ℚ) * 2 ^ s = (round_at s p : ℚ) := by
  have hM : 0 < 2 ^ s := by positivity
  have hMq : (0 : ℚ) < 2 ^ s := by positivity
  have hfl : ⌊(p : ℚ) / 2 ^ s⌋ = ((p / 2 ^ s : Nat) : ℤ) := by
    have := Rat.floor_intCast_div_natCast (p : ℤ) (2 ^ s)
    push_cast at this ⊢
    exact this
  have hdm := Nat.div_add_mod p (2 ^ s)
  have hfrac : (p : ℚ) / 2 ^ s - ((p / 2 ^ s : Nat) : ℚ) = ((p % 2 ^ s : Nat) : ℚ) / 2 ^ s := by
    have : (p : ℚ) = (2 ^ s : ℚ) * ((p / 2 ^ s : Nat) : ℚ) + ((p % 2 ^ s : Nat) : ℚ) := by
      exact_mod_cast hdm.symm
    field_simp
    linarith
  have hlt : ((p : ℚ) / 2 ^ s - ((p / 2 ^ s : Nat) : ℚ) < 1 / 2) ↔ 2 * (p % 2 ^ s) < 2 ^ s := by
    rw [hfrac, div_lt_div_iff₀ hMq (by norm_num)]
    constructor
    · intro h
      have h2 : ((2 * (p % 2 ^ s) : Nat) : ℚ) < ((2 ^ s : Nat) : ℚ) := by
        push_cast; linarith
      exact_mod_cast h2
    · intro h
      have h2 : ((2 * (p % 2 ^ s) : Nat) : ℚ) < ((2 ^ s : Nat) : ℚ) := by exact_mod_cast h
      push_cast at h2
      linarith
  have hgt : (1 / 2 < (p : ℚ) / 2 ^ s - ((p / 2 ^ s : Nat) : ℚ)) ↔ 2 ^ s < 2 * (p % 2 ^ s) := by
    rw [hfrac, div_lt_div_iff₀ (by norm_num) hMq]
    constructor
    · intro h
      have h2 : ((2 ^ s : Nat) : ℚ) < ((2 * (p % 2 ^ s) : Nat) : ℚ) := by
        push_cast; linarith
      exact_mod_cast h2
    · intro h
      have h2 : ((2 ^ s : Nat) : ℚ) < ((2 * (p % 2 ^ s) : Nat) : ℚ) := by exact_mod_cast h
      push_cast at h2
      linarith
  have hpar : (((p / 2 ^ s : Nat) : ℤ) % 2 = 0) ↔ p / 2 ^ s % 2 = 0 := by omega
  unfold round_half_even round_at
  rw [hfl]
  simp only [Int.cast_natCast, hlt, hgt, hpar]
  split_ifs <;>
    simp only [Int.cast_natCast, Int.cast_add, Int.cast_one, Nat.cast_mul, Nat.cast_add,
      Nat.cast_pow, Nat.cast_ofNat, Nat.cast_one]

/-- On the integers, `f64_round` is the rounding `round53` of the loop tests. -/
theorem f64_round_natCast (p : Nat) : f64_round (p : ℚ) = (round53 p : ℚ) := by
  rcases Nat.eq_zero_or_pos p with h0 | hpos
  · subst h0
    rw [Nat.cast_zero, f64_round_zero, round53_exact 0 (by norm_num), Nat.cast_zero]
  have hq : (0 : ℚ) < (p : ℚ) := by exact_mod_cast hpos
  have hlog : Int.log 2 (p : ℚ) = (Nat.log 2 p : ℤ) := Int.log_natCast 2 p
  unfold f64_round
  rw [if_neg (not_le.2 hq), hlog]
  rcases Nat.lt_or_ge p (2 ^ 53) with hsmall | hlarge
  · rw [round53_exact p hsmall.le]
    have hL : Nat.log 2 p < 53 := Nat.log_lt_of_lt_pow (by omega) hsmall
    obtain ⟨d, hd⟩ : ∃ d, Nat.log 2 p + d = 52 := ⟨52 - Nat.log 2 p, by omega⟩
    have he : ((Nat.log 2 p : ℤ) - 52) = -(d : ℤ) := by omega
    rw [he, zpow_neg, zpow_natCast]
    have e1 : (p : ℚ) / ((2 : ℚ) ^ d)⁻¹ = ((p * 2 ^ d : Nat) : ℚ) / 2 ^ 0 := by
      push_cast
      field_simp
    rw [e1]
    have h := round_half_even_natCast_div (p * 2 ^ d) 0
    have hr : round_at 0 (p * 2 ^ d) = p * 2 ^ d :=
      round_at_exact 0 _ _ (by simp) (le_refl _) (by simp)
    rw [hr] at h
    simp only [pow_zero, mul_one] at h
    rw [pow_zero, h]
    push_cast
    field_simp
  · have hp : p ≠ 0 := by omega
    have hL : 53 ≤ Nat.log 2 p := by
      rw [← Nat.pow_le_iff_le_log (by norm_num) hp]
      exact hlarge
    have hs : binade_shift p = Nat.log 2 p - 52 := by
      unfold binade_shift
      rw [Nat.log2_eq_log_two]
      omega
    have he : ((Nat.log 2 p : ℤ) - 52) = ((Nat.log 2 p - 52 : Nat) : ℤ) := by omega
    rw [he, zpow_natCast]
    unfold round53
    rw [hs]
    exact round_half_even_natCast_div p (Nat.log 2 p - 52)

theorem f64_round_bounds (x : ℚ) (hx : 0 ≤ x) :
    x * (1 - 1 / 2 ^ 53) ≤ f64_round x ∧ f64_round x ≤ x * (1 + 1 / 2 ^ 53) := by
  have h := f64_round_near x hx
  rw [abs_le] at h
  constructor <;> linarith [h.1, h.2]

theorem f64_round_nonneg (x : ℚ) (hx : 0 ≤ x) : 0 ≤ f64_round x := by
  rcases eq_or_lt_of_le hx with h | h
  · rw [← h, f64_round_zero]
  · exact (f64_round_pos x h).le

theorem throughput_value_zero (bytes : Nat) :
    throughput_value bytes 0 =
      if bytes = 0 then Binary64.nan else Binary64.infinity := by
  unfold throughput_value
  have h0 : f64_round (f64_round ((0 : Nat) : ℚ) * double_1e_6) = 0 := by
    rw [Nat.cast_zero, f64_round_zero, zero_mul, f64_round_zero]
  rw [if_pos h0]
  by_cases hb : bytes = 0
  · rw [if_pos hb, hb, Nat.cast_zero, f64_round_zero, if_pos rfl]
  · rw [if_neg hb, if_neg]
    have : (0 : ℚ) < (bytes : ℚ) := by exact_mod_cast Nat.pos_of_ne_zero hb
    exact (f64_round_pos _ this).ne'

theorem throughput_value_finite (bytes read_duration : Nat) (hd : 0 < read_duration) :
    ∃ q, throughput_value bytes read_duration = Binary64.finite q ∧
      |q - (bytes : ℚ) * 10 ^ 6 / ((read_duration : ℚ) * 2 ^ 30)| ≤
        (bytes : ℚ) * 10 ^ 6 / ((read_duration : ℚ) * 2 ^ 30) / 2 ^ 50 := by
  have hB : (0 : ℚ) ≤ (bytes : ℚ) := Nat.cast_nonneg _
  have hD : (0 : ℚ) < (read_duration : ℚ) := by exact_mod_cast hd
  set B : ℚ := (bytes : ℚ) with hBdef
  set D : ℚ := (read_duration : ℚ) with hDdef
  have hc : (0 : ℚ) < double_1e_6 := by unfold double_1e_6; norm_num
  -- the operands
  have hb := f64_round_bounds B hB
  have hb0 := f64_round_nonneg B hB
  have hd0 := f64_round_bounds D hD.le
  have hd0p := f64_round_pos D hD
  have hprod : 0 < f64_round D * double_1e_6 := mul_pos hd0p hc
  have hd1 := f64_round_bounds _ hprod.le
  have hd1p := f64_round_pos _ hprod
  set b := f64_round B with hbdef
  set d0 := f64_round D with hd0def
  set d := f64_round (d0 * double_1e_6) with hddef
  have hw0 : 0 ≤ b / d := div_nonneg hb0 hd1p.le
  have ht := f64_round_bounds _ hw0
  have ht0 := f64_round_nonneg _ hw0
  set t := f64_round (b / d) with htdef
  have hv0 : 0 ≤ t / 2 ^ 30 := div_nonneg ht0 (by positivity)
  have hv := f64_round_bounds _ hv0
  refine ⟨f64_round (t / 2 ^ 30), ?_, ?_⟩
  · unfold throughput_value
    rw [if_neg hd1p.ne']
  -- bounds on the divisor
  have hdlo : D * (1 / 10 ^ 6 * (1 - 1 / 2 ^ 53) ^ 3) ≤ d := by
    have h1 : D * (1 - 1 / 2 ^ 53) * double_1e_6 ≤ d0 * double_1e_6 :=
      mul_le_mul_of_nonneg_right hd0.1 hc.le
    have h2 : D * (1 - 1 / 2 ^ 53) * double_1e_6 * (1 - 1 / 2 ^ 53) ≤
        d0 * double_1e_6 * (1 - 1 / 2 ^ 53) :=
      mul_le_mul_of_nonneg_right h1 (by norm_num)
    have h3 : (1 / 10 ^ 6 * (1 - 1 / 2 ^ 53) : ℚ) ≤ double_1e_6 := by
      unfold double_1e_6; norm_num
    have h4 : D * (1 / 10 ^ 6 * (1 - 1 / 2 ^ 53) ^ 3) ≤
        D * (1 - 1 / 2 ^ 53) * double_1e_6 * (1 - 1 / 2 ^ 53) := by
      have : D * (1 / 10 ^ 6 * (1 - 1 / 2 ^ 53) ^ 3) =
          D * (1 - 1 / 2 ^ 53) * (1 / 10 ^ 6 * (1 - 1 / 2 ^ 53)) * (1 - 1 / 2 ^ 53) := by ring
      rw [this]
      apply mul_le_mul_of_nonneg_right _ (by norm_num)
      apply mul_le_mul_of_nonneg_left h3
      apply mul_nonneg hD.le (by norm_num)
    linarith [hd1.1]
  have hdhi : d ≤ D * (1 / 10 ^ 6 * (1 + 1 / 2 ^ 53) ^ 3) := by
    have h1 : d0 * double_1e_6 ≤ D * (1 + 1 / 2 ^ 53) * double_1e_6 :=
      mul_le_mul_of_nonneg_right hd0.2 hc.le
    have h2 : d0 * double_1e_6 * (1 + 1 / 2 ^ 53) ≤
        D * (1 + 1 / 2 ^ 53) * double_1e_6 * (1 + 1 / 2 ^ 53) :=
      mul_le_mul_of_nonneg_right h1 (by norm_num)
    have h3 : double_1e_6 ≤ (1 / 10 ^ 6 * (1 + 1 / 2 ^ 53) : ℚ) := by
      unfold double_1e_6; norm_num
    have h4 : D * (1 + 1 / 2 ^ 53) * double_1e_6 * (1 + 1 / 2 ^ 53) ≤
        D * (1 / 10 ^ 6 * (1 + 1 / 2 ^ 53) ^ 3) := by
      have : D * (1 / 10 ^ 6 * (1 + 1 / 2 ^ 53) ^ 3) =
          D * (1 + 1 / 2 ^ 53) * (1 / 10 ^ 6 * (1 + 1 / 2 ^ 53)) * (1 + 1 / 2 ^ 53) := by ring
      rw [this]
      apply mul_le_mul_of_nonneg_right _ (by norm_num)
      apply mul_le_mul_of_nonneg_left h3
      apply mul_nonneg hD.le (by norm_num)
    linarith [hd1.2]
  have hdlop : 0 < D * (1 / 10 ^ 6 * (1 - 1 / 2 ^ 53) ^ 3) := mul_pos hD (by norm_num)
  -- bounds on the quotient
  have hwhi : b / d ≤ B * (1 + 1 / 2 ^ 53) / (D * (1 / 10 ^ 6 * (1 - 1 / 2 ^ 53) ^ 3)) :=
    div_le_div₀ (mul_nonneg hB (by norm_num)) hb.2 hdlop hdlo
  have hwlo : B * (1 - 1 / 2 ^ 53) / (D * (1 / 10 ^ 6 * (1 + 1 / 2 ^ 53) ^ 3)) ≤ b / d :=
    div_le_div₀ hb0 hb.1 hd1p hdhi
  have hBD : 0 ≤ B / D := div_nonneg hB hD.le
  have ehi : B * (1 + 1 / 2 ^ 53) / (D * (1 / 10 ^ 6 * (1 - 1 / 2 ^ 53) ^ 3)) =
      B / D * ((1 + 1 / 2 ^ 53) / (1 / 10 ^ 6 * (1 - 1 / 2 ^ 53) ^ 3)) :=
    mul_div_mul_comm _ _ _ _
  have elo : B * (1 - 1 / 2 ^ 53) / (D * (1 / 10 ^ 6 * (1 + 1 / 2 ^ 53) ^ 3)) =
      B / D * ((1 - 1 / 2 ^ 53) / (1 / 10 ^ 6 * (1 + 1 / 2 ^ 53) ^ 3)) :=
    mul_div_mul_comm _ _ _ _
  have eE : B * 10 ^ 6 / (D * 2 ^ 30) = B / D * (10 ^ 6 / 2 ^ 30) :=
    mul_div_mul_comm _ _ _ _
  rw [ehi] at hwhi
  rw [elo] at hwlo
  rw [eE]
  set w := b / d with hwdef
  set Q := B / D with hQdef
  rw [abs_le]
  constructor
  · -- lower bound
    have h1 : Q * ((1 - 1 / 2 ^ 53) / (1 / 10 ^ 6 * (1 + 1 / 2 ^ 53) ^ 3)) * (1 - 1 / 2 ^ 53) ≤ t :=
      le_trans (mul_le_mul_of_nonneg_right hwlo (by norm_num)) ht.1
    have h2 : Q * ((1 - 1 / 2 ^ 53) / (1 / 10 ^ 6 * (1 + 1 / 2 ^ 53) ^ 3)) * (1 - 1 / 2 ^ 53) /
        2 ^ 30 * (1 - 1 / 2 ^ 53) ≤ f64_round (t / 2 ^ 30) :=
      le_trans (mul_le_mul_of_nonneg_right
        (div_le_div_of_nonneg_right h1 (by positivity)) (by norm_num)) hv.1
    have h3 : Q * (10 ^ 6 / 2 ^ 30) - Q * (10 ^ 6 / 2 ^ 30) / 2 ^ 50 ≤
        Q * ((1 - 1 / 2 ^ 53) / (1 / 10 ^ 6 * (1 + 1 / 2 ^ 53) ^ 3)) * (1 - 1 / 2 ^ 53) /
          2 ^ 30 * (1 - 1 / 2 ^ 53) := by
      have e1 : Q * (10 ^ 6 / 2 ^ 30) - Q * (10 ^ 6 / 2 ^ 30) / 2 ^ 50 =
          Q * (10 ^ 6 / 2 ^ 30 * (1 - 1 / 2 ^ 50)) := by ring
      have e2 : Q * ((1 - 1 / 2 ^ 53) / (1 / 10 ^ 6 * (1 + 1 / 2 ^ 53) ^ 3)) *
          (1 - 1 / 2 ^ 53) / 2 ^ 30 * (1 - 1 / 2 ^ 53) =
          Q * ((1 - 1 / 2 ^ 53) / (1 / 10 ^ 6 * (1 + 1 / 2 ^ 53) ^ 3) *
            (1 - 1 / 2 ^ 53) / 2 ^ 30 * (1 - 1 / 2 ^ 53)) := by ring
      rw [e1, e2]
      apply mul_le_mul_of_nonneg_left _ hBD
      norm_num
    linarith
  · have h1 : t ≤ Q * ((1 + 1 / 2 ^ 53) / (1 / 10 ^ 6 * (1 - 1 / 2 ^ 53) ^ 3)) * (1 + 1 / 2 ^ 53) :=
      le_trans ht.2 (mul_le_mul_of_nonneg_right hwhi (by norm_num))
    have h2 : f64_round (t / 2 ^ 30) ≤
        Q * ((1 + 1 / 2 ^ 53) / (1 / 10 ^ 6 * (1 - 1 / 2 ^ 53) ^ 3)) * (1 + 1 / 2 ^ 53) /
          2 ^ 30 * (1 + 1 / 2 ^ 53) :=
      le_trans hv.2 (mul_le_mul_of_nonneg_right
        (div_le_div_of_nonneg_right h1 (by positivity)) (by norm_num))
    have h3 : Q * ((1 + 1 / 2 ^ 53) / (1 / 10 ^ 6 * (1 - 1 / 2 ^ 53) ^ 3)) * (1 + 1 / 2 ^ 53) /
          2 ^ 30 * (1 + 1 / 2 ^ 53) ≤
        Q * (10 ^ 6 / 2 ^ 30) + Q * (10 ^ 6 / 2 ^ 30) / 2 ^ 50 := by
      have e1 : Q * (10 ^ 6 / 2 ^ 30) + Q * (10 ^ 6 / 2 ^ 30) / 2 ^ 50 =
          Q * (10 ^ 6 / 2 ^ 30 * (1 + 1 / 2 ^ 50)) := by ring
      have e2 : Q * ((1 + 1 / 2 ^ 53) / (1 / 10 ^ 6 * (1 - 1 / 2 ^ 53) ^ 3)) *
          (1 + 1 / 2 ^ 53) / 2 ^ 30 * (1 + 1 / 2 ^ 53) =
          Q * ((1 + 1 / 2 ^ 53) / (1 / 10 ^ 6 * (1 - 1 / 2 ^ 53) ^ 3) *
            (1 + 1 / 2 ^ 53) / 2 ^ 30 * (1 + 1 / 2 ^ 53)) := by ring
      rw [e1, e2]
      apply mul_le_mul_of_nonneg_left _ hBD
      norm_num
    linarith

theorem throughput_value_pos (bytes read_duration : Nat) (hb : 0 < bytes)
    (hd : 0 < read_duration) :
    ∃ q, throughput_value bytes read_duration = Binary64.finite q ∧ 0 < q := by
  obtain ⟨q, hq, hnear⟩ := throughput_value_finite bytes read_duration hd
  refine ⟨q, hq, ?_⟩
  have hB : (0 : ℚ) < (bytes : ℚ) := by exact_mod_cast hb
  have hD : (0 : ℚ) < (read_duration : ℚ) := by exact_mod_cast hd
  have hE : (0 : ℚ) < (bytes : ℚ) * 10 ^ 6 / ((read_duration : ℚ) * 2 ^ 30) := by positivity
  rw [abs_le] at hnear
  have : (bytes : ℚ) * 10 ^ 6 / ((read_duration : ℚ) * 2 ^ 30) / 2 ^ 50 <
      (bytes : ℚ) * 10 ^ 6 / ((read_duration : ℚ) * 2 ^ 30) := by
    rw [div_lt_iff₀ (by positivity)]
    nlinarith
  linarith [hnear.1]

theorem record_call_throughput (c : Config) (r : Run) :
    (record_call c r).args.getLast? =
        some (Arg.throughput (total_bytes c r) r.read_duration) ∧
      (record_call c r).throughput_value =
        some (throughput_value (total_bytes c r) r.read_duration) := by
  have h : (record_call c r).args.getLast? =
      some (Arg.throughput (total_bytes c r) r.read_duration) := by
    unfold record_call
    split_ifs <;> simp
  refine ⟨h, ?_⟩
  unfold RecordCall.throughput_value
  rw [h]
  rfl

/-- An experiment whose first budget test fails runs no pass: it ends normally
with all its counters at zero and writes its result line. -/
theorem experiment_no_pass (env : Env) (c : Config) (inner fuel : Nat) (r : Run)
    (hfirst : budget_test env (reading env r.clock_calls) (r.clock_calls + 1) = false)
    (hfuel : 1 ≤ fuel) :
    ∃ r1, experiment env c inner fuel r = Outcome.ok r1 ∧
      r1.experiment_count = 0 ∧ r1.io_calls = r.io_calls ∧ r1.read_duration = 0 ∧
      total_bytes c r1 = 0 ∧
      records r1.trace = records r.trace ++ [record_call c r1] := by
  obtain ⟨f, rfl⟩ : ∃ f, fuel = f + 1 := ⟨fuel - 1, by omega⟩
  have hb : ¬ wsub (reading env (r.clock_calls + 1)) (reading env r.clock_calls) <
      DURATION_PER_EXPERIMENT_US := by
    intro hlt
    have := (budget_test_iff env _ _).2 hlt
    rw [hfirst] at this
    cases this
  have hc : campaign env c inner (reading env r.clock_calls) (f + 1) (campaign_start env c r) =
      Outcome.ok (get_timestamp_us env (campaign_start env c r)).2 := by
    rw [campaign]
    simp only [get_timestamp_us, campaign_start, Run.emit]
    rw [if_neg hb]
  have hex : ∃ r1, experiment env c inner (f + 1) r = Outcome.ok r1 ∧
      r1.experiment_count = 0 ∧ r1.io_calls = r.io_calls ∧ r1.read_duration = 0 ∧
      r1.total_volume = 0 := by
    rw [experiment_eq, hc]
    by_cases hs : c.strategy = Strategy.o_direct
    · simp only [Outcome.bind, if_pos hs]
      exact ⟨_, rfl, rfl, rfl, rfl, rfl⟩
    · simp only [Outcome.bind, if_neg hs]
      exact ⟨_, rfl, rfl, rfl, rfl, rfl⟩
  obtain ⟨r1, h1, e1, e2, e3, e4⟩ := hex
  obtain ⟨_, _, _, _, _, _, _, _, _, a10⟩ := experiment_passes env c inner (f + 1) r r1 h1
  have htb : total_bytes c r1 = 0 := by
    unfold total_bytes
    cases c.variant with
    | sequential => simp [wmul, e1]
    | random => exact e4
  exact ⟨r1, h1, e1, e2, e3, htb, a10⟩

/-- C5 (as amended).  An experiment that ends normally writes one result line,
whose last argument is the `double` value of
`total_bytes/(read_duration*1e-6)/(1ul << 30)`, where `total_bytes` is
`total_volume` in the random program and the 64-bit product
`experiment_count*file_size` in the sequential program.  When `read_duration` is
positive the value is finite and within a relative `2 ^ -50` of the exact
rational `total_bytes * 10 ^ 6 / (read_duration * 2 ^ 30)`; when `read_duration`
is zero the expression divides by zero, and the value is a NaN if `total_bytes`
is zero and an infinity otherwise. -/
theorem throughput_formula (env : Env) (c : Config) (inner fuel : Nat) (r r1 : Run)
    (h : experiment env c inner fuel r = Outcome.ok r1) :
    records r1.trace = records r.trace ++ [record_call c r1] ∧
      (record_call c r1).throughput_value =
        some (throughput_value (total_bytes c r1) r1.read_duration) ∧
      (c.variant = Variant.random → total_bytes c r1 = r1.total_volume) ∧
      (c.variant = Variant.sequential →
        total_bytes c r1 = (r1.experiment_count * c.file_size) % 2 ^ 64 ∧
        (r1.experiment_count * c.file_size < 2 ^ 64 →
          total_bytes c r1 = r1.experiment_count * c.file_size)) ∧
      (0 < r1.read_duration →
        ∃ q, throughput_value (total_bytes c r1) r1.read_duration = Binary64.finite q ∧
          |q - (total_bytes c r1 : ℚ) * 10 ^ 6 / ((r1.read_duration : ℚ) * 2 ^ 30)| ≤
            (total_bytes c r1 : ℚ) * 10 ^ 6 / ((r1.read_duration : ℚ) * 2 ^ 30) / 2 ^ 50) ∧
      (r1.read_duration = 0 →
        throughput_value (total_bytes c r1) r1.read_duration =
          if total_bytes c r1 = 0 then Binary64.nan else Binary64.infinity) := by
  obtain ⟨_, _, _, _, _, _, _, _, _, a10⟩ := experiment_passes env c inner fuel r r1 h
  refine ⟨a10, (record_call_throughput c r1).2, ?_, ?_, ?_, ?_⟩
  · intro hv
    simp [total_bytes, hv]
  · intro hv
    refine ⟨by simp [total_bytes, hv, wmul], fun hlt => ?_⟩
    simp only [total_bytes, hv, wmul]
    exact Nat.mod_eq_of_lt hlt
  · intro hpos
    exact throughput_value_finite _ _ hpos
  · intro h0
    rw [h0]
    exact throughput_value_zero _

/-- The sample experiment under a clock that advances by one second per
reading: two passes of nine readings each, four billed seconds per pass. -/
theorem sample_experiment_two_passes :
    ∃ r1, experiment (sample_env_with_clock fun k => (k : Int)) sample_config 4 3 Run.initial =
        Outcome.ok r1 ∧ r1.experiment_count = 2 ∧ r1.read_duration = 8000000 ∧
      total_bytes sample_config r1 = 24 := by
  have hfacts := sequential_pass_completes (sample_env_with_clock fun k => (k : Int))
    sample_config 4 rfl (by decide) (fun h => by cases h) (by decide) (by decide) (by decide)
    (by decide) (by decide) (sample_env_with_clock_drops _)
  have hq : readings_per_pass sample_config 4 = 9 := rfl
  have hrd := second_clock_reading
  obtain ⟨r1, h1, hcnt⟩ := experiment_completes (sample_env_with_clock fun k => (k : Int))
    sample_config 4 3 Run.initial 2 hfacts.2 (by decide) (by norm_num)
    (fun i hi => by
      rw [budget_test_iff, hq, hrd _ (by simp [Run.initial]; omega),
        hrd _ (by simp [Run.initial])]
      simp only [Run.initial, wsub]
      interval_cases i <;> norm_num)
    (by
      rw [← Bool.not_eq_true, budget_test_iff, hq, hrd _ (by simp [Run.initial]),
        hrd _ (by simp [Run.initial])]
      simp only [Run.initial, wsub]
      norm_num)
  obtain ⟨_, _, _, _, _, _, a7, _⟩ := experiment_passes _ sample_config 4 3 Run.initial r1 h1
  refine ⟨r1, h1, hcnt, ?_, ?_⟩
  · rw [a7, hcnt, hq]
    have hbi : billed_intervals sample_config (timed_reads sample_config 4) = 4 := rfl
    simp only [pass_billable, hbi, Finset.sum_range_succ, Finset.sum_range_zero, Run.initial]
    rw [hrd _ (by norm_num), hrd _ (by norm_num), hrd _ (by norm_num), hrd _ (by norm_num),
      hrd _ (by norm_num), hrd _ (by norm_num), hrd _ (by norm_num), hrd _ (by norm_num),
      hrd _ (by norm_num), hrd _ (by norm_num), hrd _ (by norm_num), hrd _ (by norm_num),
      hrd _ (by norm_num), hrd _ (by norm_num), hrd _ (by norm_num), hrd _ (by norm_num)]
    simp only [wsub]
    norm_num
  · simp only [total_bytes, sample_config, wmul, hcnt]
    norm_num

/-- Witness of `throughput_formula`: the sample experiment under a clock that
advances by one second per reading accounts 24 bytes in 8 billed seconds, and
its throughput is finite and within a relative `2 ^ -50` of
`24 * 10 ^ 6 / (8000000 * 2 ^ 30)`. -/
theorem throughput_formula_witness :
    ∃ r1 q,
      experiment (sample_env_with_clock fun k => (k : Int)) sample_config 4 3 Run.initial =
        Outcome.ok r1 ∧
      (record_call sample_config r1).throughput_value = some (Binary64.finite q) ∧
      |q - (24 : ℚ) * 10 ^ 6 / (8000000 * 2 ^ 30)| ≤
        (24 : ℚ) * 10 ^ 6 / (8000000 * 2 ^ 30) / 2 ^ 50 := by
  obtain ⟨r1, h1, _, hrd, htb⟩ := sample_experiment_two_passes
  obtain ⟨_, a2, _, _, a5, _⟩ := throughput_formula _ sample_config 4 3 Run.initial r1 h1
  obtain ⟨q, hq, hnear⟩ := a5 (by rw [hrd]; norm_num)
  refine ⟨r1, q, h1, by rw [a2, hq], ?_⟩
  rw [htb, hrd] at hnear
  exact_mod_cast hnear

/-- C5 as stated does not hold for an experiment that runs no pass: when the
first budget test already reads 15 s or more after `t0` (here a clock that
advances by 20 s per reading), the experiment ends with `total_bytes = 0` and
`read_duration = 0`, the expression divides zero by zero, and the value handed
to `fprintf` is a NaN, not a rational number. -/
theorem throughput_formula_counterexample :
    ∃ r1,
      experiment (sample_env_with_clock fun k => 20 * (k : Int)) sample_config 4 3
        Run.initial = Outcome.ok r1 ∧
      r1.read_duration = 0 ∧
      (record_call sample_config r1).throughput_value = some Binary64.nan := by
  have hrd : ∀ k, k < 100 →
      reading (sample_env_with_clock fun k => 20 * (k : Int)) k = 20 * k * 1000000 := by
    intro k hk
    have := reading_with_clock (fun k => 20 * (k : Int)) k (by positivity)
      (by norm_num; exact_mod_cast (by omega : 20 * k < 1099511627776))
    have e : (20 * (k : Int)).toNat = 20 * k := by
      have : (20 * (k : Int)) = ((20 * k : Nat) : Int) := by norm_cast
      rw [this, Int.toNat_ofNat]
    rw [e] at this
    exact this
  obtain ⟨r1, h1, _, _, e3, htb, _⟩ := experiment_no_pass
    (sample_env_with_clock fun k => 20 * (k : Int)) sample_config 4 3 Run.initial
    (by
      rw [← Bool.not_eq_true, budget_test_iff, hrd _ (by simp [Run.initial]),
        hrd _ (by simp [Run.initial])]
      simp only [Run.initial, wsub]
      norm_num)
    (by norm_num)
  refine ⟨r1, h1, e3, ?_⟩
  rw [(record_call_throughput sample_config r1).2, htb, e3, throughput_value_zero]
  rfl

/-- C9.  The budget rule of an experiment whose passes end normally: for every
`n` (below the fuel and the range of `int`), the first `n` budget tests
`get_timestamp_us() - t0 < DURATION_PER_EXPERIMENT_US` succeed and the next one
fails if and only if the experiment ends normally with `experiment_count = n`;
the tests are the readings taken between the passes, so a started pass is run to
its end whatever the clock reads inside it, each of the `n` passes issues all its
reads, no pass is started after the failing test, and exactly one result line
is added. -/
theorem budget_rule (env : Env) (c : Config) (inner fuel : Nat) (r : Run) (n : Nat)
    (hpass : ∀ x, ∃ x1, run_pass env c inner x = Outcome.ok x1)
    (hn : n < fuel) (hn31 : n < 2 ^ 31) :
    ((∀ i, i < n →
        budget_test env (reading env r.clock_calls)
          (r.clock_calls + 1 + i * readings_per_pass c inner) = true) ∧
      budget_test env (reading env r.clock_calls)
        (r.clock_calls + 1 + n * readings_per_pass c inner) = false) ↔
    ∃ r1, experiment env c inner fuel r = Outcome.ok r1 ∧ r1.experiment_count = n ∧
      r1.io_calls = r.io_calls + n * (warmup_reads c inner + timed_reads c inner) ∧
      r1.clock_calls = r.clock_calls + 1 + n * readings_per_pass c inner + 1 ∧
      records r1.trace = records r.trace ++ [record_call c r1] := by
  constructor
  · rintro ⟨hchk, hlast⟩
    obtain ⟨r1, h1, hcnt⟩ := experiment_completes env c inner fuel r n hpass hn hn31 hchk hlast
    obtain ⟨_, _, _, _, a5, a6, _, _, _, a10⟩ := experiment_passes env c inner fuel r r1 h1
    rw [hcnt] at a5 a6
    exact ⟨r1, h1, hcnt, a6, a5, a10⟩
  · rintro ⟨r1, h1, hcnt, _⟩
    obtain ⟨_, a2, a3, _⟩ := experiment_passes env c inner fuel r r1 h1
    rw [hcnt] at a2 a3
    exact ⟨a2, a3⟩

/-- Witness of `budget_rule`: with a clock that advances by one second per
reading, the sample experiment (nine readings from one budget test to the next)
runs two passes: the tests read 1 s and 10 s, then 19 s. -/
theorem budget_rule_witness :
    ∃ r1, experiment (sample_env_with_clock fun k => (k : Int)) sample_config 4 3 Run.initial =
        Outcome.ok r1 ∧ r1.experiment_count = 2 ∧ r1.io_calls = 6 := by
  have hfacts := sequential_pass_completes (sample_env_with_clock fun k => (k : Int))
    sample_config 4 rfl (by decide) (fun h => by cases h) (by decide) (by decide) (by decide)
    (by decide) (by decide) (sample_env_with_clock_drops _)
  have htr : timed_reads sample_config 4 = 3 := rfl
  have hq : readings_per_pass sample_config 4 = 9 := rfl
  have hrd : ∀ k, k < 100 →
      reading (sample_env_with_clock fun k => (k : Int)) k = k * 1000000 := by
    intro k hk
    have := reading_with_clock (fun k => (k : Int)) k (by positivity)
      (by norm_num; exact_mod_cast (by omega : k < 1099511627776))
    simpa using this
  obtain ⟨r1, h1, h2, h3, _⟩ :=
    (budget_rule (sample_env_with_clock fun k => (k : Int)) sample_config 4 3 Run.initial 2
      hfacts.2 (by decide) (by norm_num)).1
      ⟨fun i hi => by
          rw [budget_test_iff, hq, hrd _ (by simp [Run.initial]; omega),
            hrd _ (by simp [Run.initial])]
          simp only [Run.initial, wsub]
          interval_cases i <;> norm_num,
        by
          rw [← Bool.not_eq_true, budget_test_iff, hq, hrd _ (by simp [Run.initial]),
            hrd _ (by simp [Run.initial])]
          simp only [Run.initial, wsub]
          norm_num⟩
  refine ⟨r1, h1, h2, ?_⟩
  rw [h3, htr]
  rfl

/-- A pass whose first call of `client_cache_drop` cannot open
`/proc/sys/vm/drop_caches` ends the process with `exit(0)` before any read. -/
theorem run_pass_drop_fails (env : Env) (c : Config) (inner : Nat) (x : Run)
    (hfail : ∀ n, (env.drop_caches n).1 < 0) :
    ∃ y, run_pass env c inner x = Outcome.exited 0 y ∧ y.io_calls = x.io_calls ∧
      records y.trace = records x.trace ∧ exited_in_drop env y := by
  have hd : ∀ x : Run, client_cache_drop_call env x =
      Outcome.exited 0 (x.emit Event.printf_drop_error) := by
    intro x
    unfold client_cache_drop_call
    rw [if_pos (Or.inl (hfail _))]
  refine ⟨(if c.lustre = true then x.emit (Event.server_cache_evict 0 c.file_size)
    else x).emit Event.printf_drop_error, ?_, ?_, ?_, ?_⟩
  · unfold run_pass precondition
    dsimp only
    rw [hd]
    rfl
  · split_ifs <;> rfl
  · simp only [Run.emit]
    rw [records_append]
    split_ifs
    · simp only
      rw [records_append]
      simp [records]
    · simp [records]
  · exact ⟨_, Or.inl (hfail _), rfl⟩

/-- An experiment whose first budget test succeeds and whose first call of
`client_cache_drop` cannot open `/proc/sys/vm/drop_caches` ends the process with
`exit(0)` before any read, and writes no result line. -/
theorem experiment_drop_fails (env : Env) (c : Config) (inner fuel : Nat) (r : Run)
    (hfirst : budget_test env (reading env r.clock_calls) (r.clock_calls + 1) = true)
    (hfail : ∀ n, (env.drop_caches n).1 < 0) (hfuel : 1 ≤ fuel) :
    ∃ x, experiment env c inner fuel r = Outcome.exited 0 x ∧ x.io_calls = r.io_calls ∧
      records x.trace = records r.trace ∧ exited_in_drop env x := by
  obtain ⟨f, rfl⟩ : ∃ f, fuel = f + 1 := ⟨fuel - 1, by omega⟩
  have hb : wsub (reading env (r.clock_calls + 1)) (reading env r.clock_calls) <
      DURATION_PER_EXPERIMENT_US := (budget_test_iff env _ _).1 hfirst
  obtain ⟨y, hy, y1, y2, y3⟩ := run_pass_drop_fails env c inner
    (get_timestamp_us env (campaign_start env c r)).2 hfail
  refine ⟨y, ?_, ?_, ?_, y3⟩
  · rw [experiment_eq, campaign]
    have hb2 : wsub (get_timestamp_us env (campaign_start env c r)).1
        (reading env r.clock_calls) < DURATION_PER_EXPERIMENT_US := by
      simpa [get_timestamp_us, campaign_start, Run.emit] using hb
    simp only [if_pos hb2, hy]
    rfl
  · rw [y1]
    rfl
  · rw [y2]
    simp only [get_timestamp_us, campaign_start, Run.emit]
    rw [records_append, records_append]
    simp [records]

/-- C10 (as amended).  In the "Not cached" block of the sequential program with
`file_size = 1 GiB`, `io_size = 4096` and no pacing, when no call of
`client_cache_drop` fails, the first budget test reads less than 15 s after `t0`
and one of the first `2 ^ 31` budget tests reads 15 s or more after `t0`, the
experiment ends normally after at least one pass, each pass issues 262144 reads,
the byte total `experiment_count * file_size` is exact and at least `file_size`,
exactly one result line is added, with category "Baseline" and label
"Not cached", and its throughput is a finite positive `double` whenever the
billable time is positive. -/
theorem not_cached_campaign (env : Env) (lustre : Bool) (inner fuel : Nat) (r : Run)
    (hinner : 262144 < inner) (hfuel : 2 ^ 31 ≤ fuel)
    (hdrop : drops_succeed env)
    (hfirst : budget_test env (reading env r.clock_calls) (r.clock_calls + 1) = true)
    (hlive : ∃ m, m < 2 ^ 31 ∧
      budget_test env (reading env r.clock_calls) (r.clock_calls + 1 + m * 3) = false) :
    ∃ r1, experiment env (not_cached_scenario lustre) inner fuel r = Outcome.ok r1 ∧
      1 ≤ r1.experiment_count ∧
      r1.io_calls = r.io_calls + r1.experiment_count * 262144 ∧
      total_bytes (not_cached_scenario lustre) r1 =
        r1.experiment_count * (1024 * 1024 * 1024) ∧
      1024 * 1024 * 1024 ≤ total_bytes (not_cached_scenario lustre) r1 ∧
      records r1.trace = records r.trace ++ [record_call (not_cached_scenario lustre) r1] ∧
      (record_call (not_cached_scenario lustre) r1).category = "Baseline" ∧
      (record_call (not_cached_scenario lustre) r1).label = "Not cached" ∧
      (0 < r1.read_duration →
        ∃ q, (record_call (not_cached_scenario lustre) r1).throughput_value =
          some (Binary64.finite q) ∧ 0 < q) := by
  obtain ⟨htr, hwr, hq, hpass⟩ := not_cached_scenario_facts env lustre inner hinner hdrop
  obtain ⟨m, hm, hfail⟩ := hlive
  obtain ⟨n, hnm, hchk, hlast⟩ := least_failing_test
    (fun i => budget_test env (reading env r.clock_calls) (r.clock_calls + 1 + i * 3)) m hfail
  have hn1 : 1 ≤ n := by
    rcases Nat.eq_zero_or_pos n with h0 | h0
    · rw [h0] at hlast
      simp only [Nat.zero_mul, Nat.add_zero] at hlast
      rw [hfirst] at hlast
      cases hlast
    · exact h0
  obtain ⟨r1, h1, hcnt⟩ := experiment_completes env (not_cached_scenario lustre) inner fuel r n
    hpass (by omega) (by omega) (by rw [hq]; exact hchk) (by rw [hq]; exact hlast)
  obtain ⟨_, _, _, _, _, a6, _, _, _, a10⟩ :=
    experiment_passes env (not_cached_scenario lustre) inner fuel r r1 h1
  have htb : total_bytes (not_cached_scenario lustre) r1 =
      r1.experiment_count * (1024 * 1024 * 1024) := by
    simp only [total_bytes, not_cached_scenario, wmul]
    apply Nat.mod_eq_of_lt
    rw [hcnt]
    norm_num at hm ⊢
    omega
  refine ⟨r1, h1, by omega, ?_, htb, ?_, a10, rfl, rfl, ?_⟩
  · rw [a6, hwr, htr, Nat.zero_add]
  · rw [htb, hcnt]
    calc 1024 * 1024 * 1024 = 1 * (1024 * 1024 * 1024) := (Nat.one_mul _).symm
      _ ≤ n * (1024 * 1024 * 1024) := Nat.mul_le_mul_right _ hn1
  · intro hpos
    have hb : 0 < total_bytes (not_cached_scenario lustre) r1 := by
      rw [htb, hcnt]
      exact Nat.mul_pos hn1 (by norm_num)
    obtain ⟨q, hq1, hq2⟩ := throughput_value_pos _ _ hb hpos
    exact ⟨q, by rw [(record_call_throughput _ r1).2, hq1], hq2⟩

/-- Witness of `not_cached_campaign`: a clock that advances by one second per
reading until it reads 20 s. -/
theorem not_cached_campaign_witness :
    ∃ r1, experiment (sample_env_with_clock fun k => min (k : Int) 20)
        (not_cached_scenario false) 262145 (2 ^ 31) Run.initial = Outcome.ok r1 ∧
      1 ≤ r1.experiment_count := by
  have hrd : ∀ k, k < 20 →
      reading (sample_env_with_clock fun k => min (k : Int) 20) k = k * 1000000 := by
    intro k hk
    have h := reading_with_clock (fun k => min (k : Int) 20) k
      (le_min (by positivity) (by norm_num)) (lt_of_le_of_lt (min_le_right _ _) (by norm_num))
    have e : min (k : Int) 20 = (k : Int) := min_eq_left (by exact_mod_cast hk.le)
    simp only [e, Int.toNat_ofNat] at h
    exact h
  obtain ⟨r1, h1, h2, _⟩ := not_cached_campaign
    (sample_env_with_clock fun k => min (k : Int) 20) false 262145 (2 ^ 31) Run.initial
    (by norm_num) (le_refl _) (sample_env_with_clock_drops _)
    (by
      rw [budget_test_iff, hrd _ (by simp [Run.initial]), hrd _ (by simp [Run.initial])]
      simp only [Run.initial, wsub]
      norm_num)
    ⟨5, by norm_num, by
      rw [← Bool.not_eq_true, budget_test_iff, hrd _ (by simp [Run.initial]),
        hrd _ (by simp [Run.initial])]
      simp only [Run.initial, wsub]
      norm_num⟩
  exact ⟨r1, h1, h2⟩

/-- C10 as stated does not hold: when the process cannot open
`/proc/sys/vm/drop_caches` (it is not privileged), under a clock that advances
by 10 microseconds per reading (non-decreasing, and the first budget test reads
10 microseconds after `t0`), the first pass ends the process with `exit(0)` in
`client_cache_drop`: no read is issued and no result line is written. -/
theorem not_cached_campaign_counterexample :
    (∀ i j, i ≤ j → j < 2 ^ 40 →
        reading sample_env_drop_fails i ≤ reading sample_env_drop_fails j) ∧
      budget_test sample_env_drop_fails
        (reading sample_env_drop_fails Run.initial.clock_calls)
        (Run.initial.clock_calls + 1) = true ∧
      ∃ x, experiment sample_env_drop_fails (not_cached_scenario false) 262145 (2 ^ 31)
          Run.initial = Outcome.exited 0 x ∧
        x.io_calls = 0 ∧ records x.trace = [] := by
  have hrd : ∀ k, k < 2 ^ 40 → reading sample_env_drop_fails k = 10 * k := by
    intro k hk
    have e1 : to_u64 0 = 0 := by simp [to_u64]
    have e2 : to_u64 (10 * (k : Int)) = 10 * k := by
      have e : (10 * (k : Int)) = ((10 * k : Nat) : Int) := by norm_cast
      rw [e, to_u64_natCast]
      apply Nat.mod_eq_of_lt
      norm_num at hk ⊢
      omega
    simp only [reading, sample_env_drop_fails, sample_env, timestamp_of, e1, e2, wadd, wmul]
    norm_num at hk ⊢
    omega
  refine ⟨fun i j hij hj => ?_, ?_, ?_⟩
  · rw [hrd i (by omega), hrd j hj]
    omega
  · rw [budget_test_iff, hrd _ (by simp [Run.initial]), hrd _ (by simp [Run.initial])]
    simp only [Run.initial, wsub]
    norm_num
  · obtain ⟨x, h1, h2, h3, _⟩ := experiment_drop_fails sample_env_drop_fails
      (not_cached_scenario false) 262145 (2 ^ 31) Run.initial
      (by
        rw [budget_test_iff, hrd _ (by simp [Run.initial]), hrd _ (by simp [Run.initial])]
        simp only [Run.initial, wsub]
        norm_num)
      (fun _ => (by decide : (-1 : Int) < 0)) (by norm_num)
    exact ⟨x, h1, h2, h3⟩

/-! ### Aggregation over the passes of an experiment -/

theorem configured_sizes (F S : Nat) (hF : F ∈ file_sizes Variant.sequential)
    (hS : S ∈ io_sizes) (hle : S ≤ F) :
    1 ≤ S ∧ S < 2 ^ 31 ∧ ceil_div F S * S = F ∧ F < 2 ^ 35 ∧ ceil_div F S ≤ 2 ^ 22 := by
  simp only [file_sizes, io_sizes, List.mem_cons, List.mem_singleton, List.not_mem_nil,
    or_false] at hF hS
  rcases hF with rfl | rfl | rfl <;> rcases hS with rfl | rfl | rfl | rfl | rfl | rfl <;>
    first
    | (refine ⟨?_, ?_, ?_, ?_, ?_⟩ <;> norm_num [ceil_div]; done)
    | (exfalso; revert hle; norm_num)

/-- C6 (as amended).  When an experiment ends normally after `n` passes, the
64-bit `read_duration` is the sum of the `n` per-pass billable times modulo
`2 ^ 64`, and the byte total of the throughput is the sum of the `n` per-pass
byte counts modulo `2 ^ 64`: the accumulated `total_volume` in the random
program, `experiment_count * file_size` in the sequential program, where for
every configured pair that is not skipped a pass requests
`ceil(F / S) * S = F` bytes.  Both are the exact sums whenever these are below
`2 ^ 64`. -/
theorem aggregate_sums (env : Env) (c : Config) (inner fuel : Nat) (r r1 : Run)
    (h : experiment env c inner fuel r = Outcome.ok r1)
    (hcfg : c.variant = Variant.sequential →
      c.file_size ∈ file_sizes Variant.sequential ∧ c.io_size ∈ io_sizes ∧
        c.io_size ≤ c.file_size) :
    r1.read_duration =
        (∑ i ∈ Finset.range r1.experiment_count,
          pass_billable env c inner
            (r.clock_calls + 1 + i * readings_per_pass c inner + 1)) % 2 ^ 64 ∧
      total_bytes c r1 =
        (∑ _i ∈ Finset.range r1.experiment_count, pass_bytes c inner) % 2 ^ 64 ∧
      (c.variant = Variant.sequential → 0 < r1.experiment_count →
        pass_bytes c inner = ceil_div c.file_size c.io_size * c.io_size ∧
        ceil_div c.file_size c.io_size * c.io_size = c.file_size) ∧
      ((∑ i ∈ Finset.range r1.experiment_count,
          pass_billable env c inner
            (r.clock_calls + 1 + i * readings_per_pass c inner + 1)) < 2 ^ 64 →
        r1.read_duration = ∑ i ∈ Finset.range r1.experiment_count,
          pass_billable env c inner
            (r.clock_calls + 1 + i * readings_per_pass c inner + 1)) ∧
      ((∑ _i ∈ Finset.range r1.experiment_count, pass_bytes c inner) < 2 ^ 64 →
        total_bytes c r1 = ∑ _i ∈ Finset.range r1.experiment_count, pass_bytes c inner) := by
  obtain ⟨_, _, _, a4, _, _, a7, a8, a9, _⟩ := experiment_passes env c inner fuel r r1 h
  have hseq : c.variant = Variant.sequential → 0 < r1.experiment_count →
      pass_bytes c inner = ceil_div c.file_size c.io_size * c.io_size ∧
      ceil_div c.file_size c.io_size * c.io_size = c.file_size := by
    intro hv hpos
    obtain ⟨hF, hS, hle⟩ := hcfg hv
    obtain ⟨c1, c2, c3, c4, c5⟩ := configured_sizes _ _ hF hS hle
    refine ⟨?_, c3⟩
    unfold pass_bytes
    rw [hv]
    simp only
    rw [sequential_timed_reads c inner hv c1 hle (by rw [c3]; norm_num at c4 ⊢; omega)
      (a4 hpos).1]
  have hbytes : total_bytes c r1 =
      (∑ _i ∈ Finset.range r1.experiment_count, pass_bytes c inner) % 2 ^ 64 := by
    rw [Finset.sum_const, Finset.card_range, smul_eq_mul]
    cases hv : c.variant with
    | sequential =>
      simp only [total_bytes, hv, wmul]
      rcases Nat.eq_zero_or_pos r1.experiment_count with h0 | h0
      · rw [h0]; simp
      · obtain ⟨e1, e2⟩ := hseq hv h0
        rw [e1, e2]
    | random =>
      simp only [total_bytes, hv, pass_bytes]
      exact a9 hv
  refine ⟨a7, hbytes, hseq, fun hlt => ?_, fun hlt => ?_⟩
  · rw [a7]; exact Nat.mod_eq_of_lt hlt
  · rw [hbytes]; exact Nat.mod_eq_of_lt hlt

theorem not_cached_scenario_run :
    ∃ r1, experiment (sample_env_with_clock fun k => min (k : Int) 20)
        (not_cached_scenario false) 262145 (2 ^ 31) Run.initial = Outcome.ok r1 ∧
      r1.experiment_count = 5 := by
  have hrd : ∀ k, k < 20 →
      reading (sample_env_with_clock fun k => min (k : Int) 20) k = k * 1000000 := by
    intro k hk
    have h := reading_with_clock (fun k => min (k : Int) 20) k
      (le_min (by positivity) (by norm_num)) (lt_of_le_of_lt (min_le_right _ _) (by norm_num))
    have e : min (k : Int) 20 = (k : Int) := min_eq_left (by exact_mod_cast hk.le)
    simp only [e, Int.toNat_ofNat] at h
    exact h
  obtain ⟨_, _, hq, hpass⟩ := not_cached_scenario_facts
    (sample_env_with_clock fun k => min (k : Int) 20) false 262145 (by norm_num)
    (sample_env_with_clock_drops _)
  refine experiment_completes _ _ 262145 (2 ^ 31) Run.initial 5 hpass (by norm_num)
    (by norm_num) ?_ ?_
  · intro i hi
    rw [budget_test_iff, hq, hrd _ (by simp [Run.initial]; omega),
      hrd _ (by simp [Run.initial])]
    simp only [Run.initial, wsub]
    interval_cases i <;> norm_num
  · rw [← Bool.not_eq_true, budget_test_iff, hq, hrd _ (by simp [Run.initial]),
      hrd _ (by simp [Run.initial])]
    simp only [Run.initial, wsub]
    norm_num

/-- Witness of `aggregate_sums`: the experiment of the "Not cached" block on the
1 GiB file read 4 KiB at a time, with a clock that advances by one second per
reading until it reads 20 s. -/
theorem aggregate_sums_witness :
    ∃ r1, experiment (sample_env_with_clock fun k => min (k : Int) 20)
        (not_cached_scenario false) 262145 (2 ^ 31) Run.initial = Outcome.ok r1 ∧
      total_bytes (not_cached_scenario false) r1 =
        (∑ _i ∈ Finset.range r1.experiment_count,
          pass_bytes (not_cached_scenario false) 262145) % 2 ^ 64 := by
  obtain ⟨r1, h1, _⟩ := not_cached_scenario_run
  exact ⟨r1, h1,
    (aggregate_sums _ _ 262145 (2 ^ 31) Run.initial r1 h1
      (fun _ => ⟨by simp [not_cached_scenario, file_sizes],
        by simp [not_cached_scenario, io_sizes],
        by norm_num [not_cached_scenario]⟩)).2.1⟩

/-- C6 as stated does not hold for `read_duration`: in the experiment of the
"Not cached" block on the 1 GiB file read 4 KiB at a time, with a wall clock
that is stepped back by two seconds during the first pass (its only step
back: every other reading is at least the one before), the experiment runs
six passes; the first pass bills `2 ^ 64 - 10 ^ 6` microseconds (the 64-bit
difference of a final reading one second before `t1`), each of the others one
second, so the sum of the per-pass billable times is `2 ^ 64 + 4 * 10 ^ 6` while
`read_duration` is `4 * 10 ^ 6`. -/
theorem aggregate_sums_counterexample :
    (stepped_clock 3 < stepped_clock 2 ∧
      ∀ k, k ≠ 2 → stepped_clock k ≤ stepped_clock (k + 1)) ∧
    ∃ r1, experiment stepped_env (not_cached_scenario false) 262145 7 Run.initial =
        Outcome.ok r1 ∧
      r1.experiment_count = 6 ∧
      (∑ i ∈ Finset.range r1.experiment_count,
        pass_billable stepped_env (not_cached_scenario false) 262145
          (Run.initial.clock_calls + 1 +
            i * readings_per_pass (not_cached_scenario false) 262145 + 1)) =
        2 ^ 64 + 4000000 ∧
      r1.read_duration = 4000000 := by
  refine ⟨⟨by decide, fun k hk => ?_⟩, ?_⟩
  · rcases Nat.lt_or_ge k 20 with h | h
    · interval_cases k <;> first | decide | exact absurd rfl hk
    · have e : ∀ j, 20 ≤ j → stepped_clock j = 116 := by
        intro j hj
        unfold stepped_clock
        exact List.getD_eq_default _ _ (by simpa using hj)
      rw [e k h, e (k + 1) (by omega)]
  have hrd : ∀ k, k < 20 → reading stepped_env k = stepped_clock k * 1000000 := by
    intro k hk
    unfold stepped_env
    have h := reading_with_clock (fun k => (stepped_clock k : Int)) k (by positivity)
      (by
        have : stepped_clock k < 2 ^ 40 := by interval_cases k <;> decide
        show ((stepped_clock k : Nat) : Int) < 2 ^ 40
        exact_mod_cast this)
    simpa using h
  obtain ⟨_, _, hq, hpass⟩ := not_cached_scenario_facts stepped_env false 262145
    (by norm_num) (sample_env_with_clock_drops _)
  obtain ⟨r1, h1, hcnt⟩ := experiment_completes stepped_env (not_cached_scenario false)
    262145 7 Run.initial 6 hpass (by norm_num) (by norm_num)
    (by
      intro i hi
      rw [budget_test_iff, hq, hrd _ (by simp [Run.initial]; omega),
        hrd _ (by simp [Run.initial])]
      simp only [Run.initial, wsub]
      interval_cases i <;> norm_num [stepped_clock])
    (by
      rw [← Bool.not_eq_true, budget_test_iff, hq, hrd _ (by simp [Run.initial]),
        hrd _ (by simp [Run.initial])]
      simp only [Run.initial, wsub]
      norm_num [stepped_clock])
  obtain ⟨_, _, _, _, _, _, a7, _⟩ :=
    experiment_passes _ (not_cached_scenario false) 262145 7 Run.initial r1 h1
  have hsum : (∑ i ∈ Finset.range r1.experiment_count,
      pass_billable stepped_env (not_cached_scenario false) 262145
        (Run.initial.clock_calls + 1 +
          i * readings_per_pass (not_cached_scenario false) 262145 + 1)) =
      2 ^ 64 + 4000000 := by
    have hbi : ∀ n, billed_intervals (not_cached_scenario false) n = 1 := fun _ => rfl
    rw [hcnt, hq]
    simp only [pass_billable, hbi, Finset.sum_range_succ, Finset.sum_range_zero, Run.initial]
    norm_num
    rw [hrd _ (by norm_num), hrd _ (by norm_num), hrd _ (by norm_num), hrd _ (by norm_num),
      hrd _ (by norm_num), hrd _ (by norm_num), hrd _ (by norm_num), hrd _ (by norm_num),
      hrd _ (by norm_num), hrd _ (by norm_num), hrd _ (by norm_num), hrd _ (by norm_num)]
    simp only [wsub]
    norm_num [stepped_clock]
  refine ⟨r1, h1, hcnt, hsum, ?_⟩
  rw [a7, hsum]
  norm_num

/-! ### The loops over the configured sizes -/

theorem configured_random_sizes (S : Nat) (hS : S ∈ io_sizes) :
    1 ≤ S ∧ S < 2 ^ 31 ∧ ceil_div (1024 * 1024 * 1024) (10 * S) ≤ 2 ^ 22 := by
  simp only [io_sizes, List.mem_cons, List.mem_singleton, List.not_mem_nil, or_false] at hS
  rcases hS with rfl | rfl | rfl | rfl | rfl | rfl <;>
    (refine ⟨?_, ?_, ?_⟩ <;> norm_num [ceil_div])

/-- The `int ret` of a read of fewer than `2 ^ 31` bytes is not negative when
the read does not fail: an `fread` always, a `read` that returns a value that is
not negative. -/
theorem read_ret_nonneg (s : Strategy) (S : Nat) (raw : Int) (hS : S < 2 ^ 31)
    (hraw : s = Strategy.o_direct → 0 ≤ raw) : 0 ≤ read_ret s S raw := by
  by_cases hs : s = Strategy.o_direct
  · have h0 := hraw hs
    unfold read_ret
    rw [if_pos hs, if_neg (not_lt.2 h0)]
    have h1 : (0 : Int) ≤ min raw (S : Int) := le_min h0 (by positivity)
    have h2 : min raw (S : Int) < 2 ^ 31 :=
      lt_of_le_of_lt (min_le_right _ _) (by exact_mod_cast hS)
    rw [to_int_of_small _ h1 h2]
    exact h1
  · exact fread_ret_nonneg s S raw hs hS

/-- The loops of a configured experiment end: the timed loop after at most
`2 ^ 22` reads, the warm-up loop as well. -/
theorem configured_loops (c : Config) (inner : Nat)
    (hF : c.file_size ∈ file_sizes c.variant) (hS : c.io_size ∈ io_sizes)
    (hle : c.io_size ≤ c.file_size) (hinner : 2 ^ 22 < inner) :
    (∃ vs final, for_volume (timed_cond c) c.io_size inner 0 = some (vs, final) ∧
      vs.length ≤ 2 ^ 22) ∧
    (∃ ws final, for_volume (warmup_cond c) c.io_size inner 0 = some (ws, final)) ∧
    (c.variant = Variant.random → c.file_size ≠ 0) := by
  have hseq : c.file_size ∈ file_sizes Variant.sequential := by
    cases hv : c.variant with
    | sequential => rw [hv] at hF; exact hF
    | random =>
      rw [hv] at hF
      simp only [file_sizes, List.mem_singleton] at hF
      rw [hF]
      simp [file_sizes]
  obtain ⟨c1, c2, c3, c4, c5⟩ := configured_sizes _ _ hseq hS hle
  have hfs := sequential_for_volume c.file_size c.io_size inner c1 hle
    (by rw [c3]; norm_num at c4 ⊢; omega) (by omega)
  cases hv : c.variant with
  | sequential =>
    have hc : timed_cond c = sequential_cond c.file_size := by
      unfold timed_cond; rw [hv]
    have hw : warmup_cond c = sequential_cond c.file_size := by
      unfold warmup_cond; rw [hv]
    refine ⟨⟨_, _, by rw [hc]; exact hfs, ?_⟩, ⟨_, _, by rw [hw]; exact hfs⟩,
      fun h => by cases h⟩
    rw [List.length_map, List.length_range]
    exact c5
  | random =>
    rw [hv] at hF
    simp only [file_sizes, List.mem_singleton] at hF
    obtain ⟨d1, d2, d3⟩ := configured_random_sizes _ hS
    have hfr := random_for_volume c.file_size c.io_size inner (by rw [hF]; norm_num)
      (by rw [hF]; norm_num) c1 (by norm_num at c2 ⊢; omega) (by rw [hF]; omega)
    have hc : timed_cond c = random_cond c.file_size := by
      unfold timed_cond; rw [hv]
    refine ⟨⟨_, _, by rw [hc]; exact hfr, ?_⟩, ?_, fun _ => by rw [hF]; norm_num⟩
    · rw [List.length_map, List.length_range, hF]
      exact d3
    · by_cases hs : c.strategy = Strategy.cached_client_side
      · have hw : warmup_cond c = random_cond c.file_size := by
          unfold warmup_cond; rw [hv, hs]
        rw [hw]
        exact ⟨_, _, hfr⟩
      · have hw : warmup_cond c = sequential_cond c.file_size := by
          unfold warmup_cond
          rw [hv]
          cases hs2 : c.strategy <;> first | rfl | exact absurd hs2 hs
        rw [hw]
        exact ⟨_, _, hfs⟩

theorem configured_pass_completes (env : Env) (c : Config) (inner : Nat)
    (hF : c.file_size ∈ file_sizes c.variant) (hS : c.io_size ∈ io_sizes)
    (hle : c.io_size ≤ c.file_size) (hinner : 2 ^ 22 < inner)
    (hon : c.strategy.is_online = true → c.prefetch_param ≠ 0)
    (hret : ∀ j, 0 ≤ read_ret c.strategy c.io_size (env.read_result j))
    (hdrop : drops_succeed env) :
    ∀ x, ∃ x1, run_pass env c inner x = Outcome.ok x1 := by
  intro x
  obtain ⟨⟨vs, final, hfv, _⟩, hfw, hnz⟩ := configured_loops c inner hF hS hle hinner
  exact run_pass_completes env c inner x vs final hfv (fun _ => hfw) hon hnz hret hdrop

theorem configured_readings_per_pass (c : Config) (inner : Nat)
    (hF : c.file_size ∈ file_sizes c.variant) (hS : c.io_size ∈ io_sizes)
    (hle : c.io_size ≤ c.file_size) (hinner : 2 ^ 22 < inner) :
    3 ≤ readings_per_pass c inner ∧ readings_per_pass c inner ≤ 3 + 2 * 2 ^ 22 := by
  obtain ⟨⟨vs, final, hfv, hlen⟩, _, _⟩ := configured_loops c inner hF hS hle hinner
  have htr := (timed_reads_eq c inner vs final hfv).1
  unfold readings_per_pass readings_per_read
  rw [htr]
  constructor
  · omega
  · split_ifs
    · exact Nat.add_le_add_left (Nat.mul_le_mul_left 2 hlen) 3
    · omega

theorem experiment_live (env : Env) (c : Config) (inner fuel : Nat) (hlive : Live env)
    (hq : 3 ≤ readings_per_pass c inner ∧ readings_per_pass c inner ≤ 3 + 2 * 2 ^ 22)
    (hpass : ∀ x, ∃ x1, run_pass env c inner x = Outcome.ok x1) (hfuel : 2 ^ 31 ≤ fuel)
    (r : Run) : ∃ r1, experiment env c inner fuel r = Outcome.ok r1 := by
  obtain ⟨m, hm, hfail⟩ := hlive r.clock_calls (readings_per_pass c inner) hq.1 hq.2
  obtain ⟨n, hnm, hchk, hlast⟩ := least_failing_test
    (fun i => budget_test env (reading env r.clock_calls)
      (r.clock_calls + 1 + i * readings_per_pass c inner)) m hfail
  obtain ⟨r1, h1, _⟩ := experiment_completes env c inner fuel r n hpass (by omega) (by omega)
    hchk hlast
  exact ⟨r1, h1⟩

/-- The third loop of a block for one pair: it ends normally when its experiments
do, and adds one result line per value that is not skipped. -/
theorem pair_fold_summary (env : Env) (variant : Variant) (lustre : Bool) (s : Strategy)
    (ia inner fuel F S : Nat) :
    ∀ (ps : List Nat) (r : Run),
      (∀ p, p ∈ ps → (s.is_online && decide (p ≤ S)) = false →
        ∀ x, ∃ x1, experiment env (pair_config variant lustre s ia F S p) inner fuel x =
          Outcome.ok x1) →
      ∃ r1 rcs,
        ps.foldl
          (fun (o : Outcome Run) (p : Nat) =>
            o.bind fun r1 =>
              if s.is_online && decide (p ≤ S) then Outcome.ok r1
              else experiment env
                { variant := variant, lustre := lustre, strategy := s, file_size := F,
                  io_size := S, io_interarrival_time_ns := ia, prefetch_param := p }
                inner fuel r1)
          (Outcome.ok r) = Outcome.ok r1 ∧
        records r1.trace = records r.trace ++ rcs ∧
        rcs.length = (ps.filter (fun p => !(s.is_online && decide (p ≤ S)))).length ∧
        ∀ rc, rc ∈ rcs →
          ∃ p x, p ∈ ps ∧ rc = record_call (pair_config variant lustre s ia F S p) x := by
  intro ps
  induction ps with
  | nil =>
    intro r _
    exact ⟨r, [], rfl, by simp, rfl, fun rc h => by cases h⟩
  | cons p ps ih =>
    intro r hexp
    rw [List.foldl_cons]
    simp only [Outcome.bind]
    by_cases hskip : (s.is_online && decide (p ≤ S)) = true
    · rw [if_pos hskip]
      obtain ⟨r1, rcs, h1, h2, h3, h4⟩ := ih r
        (fun q hq hk => hexp q (List.mem_cons_of_mem _ hq) hk)
      refine ⟨r1, rcs, h1, h2, ?_, ?_⟩
      · rw [h3, List.filter_cons]
        simp [hskip]
      · intro rc hrc
        obtain ⟨q, x, hq, hx⟩ := h4 rc hrc
        exact ⟨q, x, List.mem_cons_of_mem _ hq, hx⟩
    · rw [if_neg hskip]
      have hk : (s.is_online && decide (p ≤ S)) = false := by simpa using hskip
      obtain ⟨r0, h0⟩ := hexp p (List.mem_cons_self _ _) hk r
      have h0b : experiment env
          { variant := variant, lustre := lustre, strategy := s, file_size := F,
            io_size := S, io_interarrival_time_ns := ia, prefetch_param := p }
          inner fuel r = Outcome.ok r0 := h0
      rw [h0b]
      obtain ⟨_, _, _, _, _, _, _, _, _, a10⟩ := experiment_passes env _ inner fuel r r0 h0
      obtain ⟨r1, rcs, h1, h2, h3, h4⟩ := ih r0
        (fun q hq hk => hexp q (List.mem_cons_of_mem _ hq) hk)
      refine ⟨r1, record_call (pair_config variant lustre s ia F S p) r0 :: rcs, h1, ?_, ?_, ?_⟩
      · rw [h2, a10]
        simp
      · rw [List.filter_cons]
        simp [hk, h3]
      · intro rc hrc
        rcases List.mem_cons.1 hrc with h | h
        · exact ⟨p, r0, List.mem_cons_self _ _, h⟩
        · obtain ⟨q, x, hq, hx⟩ := h4 rc h
          exact ⟨q, x, List.mem_cons_of_mem _ hq, hx⟩

theorem third_loop_values_online (s : Strategy) (p : Nat) (hon : s.is_online = true)
    (hp : p ∈ third_loop_values s) : p ≠ 0 := by
  have hj : s.is_jit = false := by cases s <;> first | rfl | cases hon
  unfold third_loop_values at hp
  rw [hj, hon] at hp
  simp only [Bool.false_eq_true, if_false, if_true, io_sizes, List.mem_cons,
    List.mem_singleton, List.not_mem_nil, or_false] at hp
  rcases hp with rfl | rfl | rfl | rfl | rfl | rfl <;> norm_num

/-- The body of the `io_sizes` loop for a configured pair: skipped pairs change
nothing; for the others the block's experiments end normally under a live clock,
cache drops that succeed and reads that do not fail, and add `records_per_pair`
result lines. -/
theorem pair_body_summary (env : Env) (variant : Variant) (lustre : Bool) (s : Strategy)
    (ia inner fuel F S : Nat) (r : Run) (hlive : Live env) (hdrop : drops_succeed env)
    (hF : F ∈ file_sizes variant) (hS : S ∈ io_sizes)
    (hinner : 2 ^ 22 < inner) (hfuel : 2 ^ 31 ≤ fuel)
    (hraw : s = Strategy.o_direct → ∀ j, 0 ≤ env.read_result j) :
    (F < S → pair_body env variant lustre s ia inner fuel F S r = Outcome.ok r) ∧
      (S ≤ F → ∃ r1 rcs,
        pair_body env variant lustre s ia inner fuel F S r = Outcome.ok r1 ∧
        records r1.trace = records r.trace ++ rcs ∧
        rcs.length = records_per_pair s S ∧
        ∀ rc, rc ∈ rcs → ∃ p x, p ∈ third_loop_values s ∧
          rc = record_call (pair_config variant lustre s ia F S p) x) := by
  constructor
  · intro h
    unfold pair_body
    rw [if_pos h]
  · intro hle
    unfold pair_body
    rw [if_neg (by omega)]
    have hS31 : S < 2 ^ 31 := by
      simp only [io_sizes, List.mem_cons, List.mem_singleton, List.not_mem_nil,
        or_false] at hS
      rcases hS with rfl | rfl | rfl | rfl | rfl | rfl <;> norm_num
    obtain ⟨r1, rcs, h1, h2, h3, h4⟩ := pair_fold_summary env variant lustre s ia inner fuel F S
      (third_loop_values s) r
      (fun p hp _ => experiment_live env _ inner fuel hlive
        (configured_readings_per_pass (pair_config variant lustre s ia F S p) inner hF hS hle
          hinner)
        (configured_pass_completes env (pair_config variant lustre s ia F S p) inner hF hS hle
          hinner (fun hon => third_loop_values_online s p hon hp)
          (fun j => read_ret_nonneg s S _ hS31 (fun hs => hraw hs j)) hdrop) hfuel)
    exact ⟨r1, rcs, h1, h2, h3, h4⟩

/-- In a block without third loop a pair that is not skipped is one
experiment. -/
theorem pair_body_two_loop (env : Env) (variant : Variant) (lustre : Bool) (s : Strategy)
    (ia inner fuel F S : Nat) (r : Run) (hj : s.is_jit = false) (ho : s.is_online = false)
    (hle : S ≤ F) :
    pair_body env variant lustre s ia inner fuel F S r =
      experiment env (pair_config variant lustre s ia F S 0) inner fuel r := by
  have h3 : third_loop_values s = [0] := by
    unfold third_loop_values
    rw [hj, ho]
    rfl
  unfold pair_body
  rw [if_neg (not_lt.2 hle), h3]
  simp only [List.foldl, Outcome.bind, ho, Bool.false_and, Bool.false_eq_true, if_false]
  rfl

theorem records_per_pair_values (s : Strategy) (S : Nat) :
    (s.is_jit = false → s.is_online = false → records_per_pair s S = 1) ∧
      (s.is_jit = true → records_per_pair s S = 5) ∧
      (s.is_online = true →
        records_per_pair s S = (io_sizes.filter (fun p => decide (S < p))).length) := by
  refine ⟨fun hj ho => ?_, fun hj => ?_, fun ho => ?_⟩
  · unfold records_per_pair third_loop_values
    rw [hj, ho]
    rfl
  · have ho : s.is_online = false := by cases s <;> first | rfl | cases hj
    unfold records_per_pair third_loop_values
    rw [hj, ho]
    rfl
  · have hj : s.is_jit = false := by cases s <;> first | rfl | cases ho
    unfold records_per_pair third_loop_values
    rw [hj, ho]
    simp only [Bool.false_eq_true, if_false, if_true, Bool.true_and]
    congr 1
    apply List.filter_congr
    intro p _
    by_cases h : p ≤ S
    · have h2 : ¬ S < p := by omega
      simp [h, h2]
    · have h2 : S < p := by omega
      simp [h, h2]

theorem wsub_of_add (a b d : Nat) (hd : d < 2 ^ 64) (h : (b + d) % 2 ^ 64 = a % 2 ^ 64) :
    wsub a b = d := by
  unfold wsub
  norm_num at hd h ⊢
  omega

/-- With a clock that advances by one second per reading, the reading taken `m`
readings after another one is `m` seconds later, for every `m` below `2 ^ 40`. -/
theorem second_clock_elapsed (k m : Nat) (hm : m < 2 ^ 40) :
    wsub (reading (sample_env_with_clock fun k => (k : Int)) (k + m))
      (reading (sample_env_with_clock fun k => (k : Int)) k) = m * 1000000 := by
  have hR : ∀ j, reading (sample_env_with_clock fun k => (k : Int)) j =
      ((j % 2 ^ 64) * 1000000) % 2 ^ 64 := by
    intro j
    have z : to_u64 0 = 0 := by simp [to_u64]
    simp only [reading, sample_env_with_clock, timestamp_of, to_u64_natCast, z, wadd, wmul,
      Nat.add_zero, Nat.mod_mod]
  have e : ∀ j, ((j % 2 ^ 64) * 1000000) % 2 ^ 64 = (j * 1000000) % 2 ^ 64 := by
    intro j
    rw [Nat.mul_mod, Nat.mod_mod, ← Nat.mul_mod]
  apply wsub_of_add
  · norm_num at hm ⊢
    omega
  · have e3 : k * 1000000 + m * 1000000 = (k + m) * 1000000 := by ring
    rw [hR, hR, e, e, Nat.mod_mod, Nat.mod_add_mod, e3]

theorem live_sample_clock : Live (sample_env_with_clock fun k => (k : Int)) := by
  intro k q hq3 hq
  refine ⟨5, by norm_num, ?_⟩
  rw [← Bool.not_eq_true, budget_test_iff, Nat.add_assoc,
    second_clock_elapsed k (1 + 5 * q) (by norm_num at hq ⊢; omega)]
  omega

/-- C11 (as amended).  In every block, for a configured pair with
`io_size > file_size` the body of the `io_sizes` loop leaves the state unchanged:
no allocation, no cache operation, no read, no result line.  For a configured
pair with `io_size ≤ file_size`, under a clock that lets every campaign end,
cache drops that succeed and reads of the O_DIRECT block that return no
negative value, the body ends normally and adds one result line per experiment
of the pair, each for this `file_size` and `io_size`: exactly one in the
baseline and offline blocks, five (one per delay) in a just-in-time block, and
one per configured prefetch size above `io_size` in an online block. -/
theorem skip_rule (env : Env) (variant : Variant) (lustre : Bool) (s : Strategy)
    (ia inner fuel F S : Nat) (r : Run) (hlive : Live env) (hdrop : drops_succeed env)
    (hF : F ∈ file_sizes variant) (hS : S ∈ io_sizes)
    (hinner : 2 ^ 22 < inner) (hfuel : 2 ^ 31 ≤ fuel)
    (hraw : s = Strategy.o_direct → ∀ j, 0 ≤ env.read_result j) :
    (F < S → pair_body env variant lustre s ia inner fuel F S r = Outcome.ok r) ∧
      (S ≤ F → ∃ r1 rcs,
        pair_body env variant lustre s ia inner fuel F S r = Outcome.ok r1 ∧
        records r1.trace = records r.trace ++ rcs ∧
        rcs.length = records_per_pair s S ∧
        ∀ rc, rc ∈ rcs → ∃ p x, p ∈ third_loop_values s ∧
          rc = record_call (pair_config variant lustre s ia F S p) x) ∧
      (s.is_jit = false → s.is_online = false → records_per_pair s S = 1) ∧
      (s.is_jit = true → records_per_pair s S = 5) ∧
      (s.is_online = true →
        records_per_pair s S = (io_sizes.filter (fun p => decide (S < p))).length) := by
  obtain ⟨h1, h2⟩ := pair_body_summary env variant lustre s ia inner fuel F S r hlive hdrop
    hF hS hinner hfuel hraw
  obtain ⟨h3, h4, h5⟩ := records_per_pair_values s S
  exact ⟨h1, h2, h3, h4, h5⟩

/-- Witness of `skip_rule`: the "Not cached" block of the sequential program
on the 1 GiB file read 4 KiB at a time, with a clock that advances by one second
per reading: the budget tests read 1 s, 4 s, 7 s, 10 s and 13 s, then 16 s, so the
experiment runs five passes of 262144 reads and adds one result line. -/
theorem skip_rule_witness :
    ∃ r1 rcs,
      pair_body (sample_env_with_clock fun k => (k : Int)) Variant.sequential false
        Strategy.not_cached 0 (2 ^ 22 + 1) (2 ^ 31) (1024 * 1024 * 1024) (4 * 1024)
        Run.initial = Outcome.ok r1 ∧
      records r1.trace = records Run.initial.trace ++ rcs ∧ rcs.length = 1 ∧
      r1.io_calls = 5 * 262144 := by
  obtain ⟨r1, rcs, h1, h2, h3, _⟩ :=
    (skip_rule (sample_env_with_clock fun k => (k : Int)) Variant.sequential false
      Strategy.not_cached 0 (2 ^ 22 + 1) (2 ^ 31) (1024 * 1024 * 1024) (4 * 1024) Run.initial
      live_sample_clock (sample_env_with_clock_drops _) (by simp [file_sizes])
      (by simp [io_sizes]) (by norm_num) (le_refl _) (fun h => by cases h)).2.1 (by norm_num)
  refine ⟨r1, rcs, h1, h2, h3, ?_⟩
  have hle : 4 * 1024 ≤ 1024 * 1024 * 1024 := by norm_num
  rw [pair_body_two_loop (sample_env_with_clock fun k => (k : Int)) Variant.sequential false
    Strategy.not_cached 0 (2 ^ 22 + 1) (2 ^ 31) (1024 * 1024 * 1024) (4 * 1024) Run.initial
    rfl rfl hle] at h1
  have hc : pair_config Variant.sequential false Strategy.not_cached 0 (1024 * 1024 * 1024)
      (4 * 1024) 0 = not_cached_scenario false := rfl
  rw [hc] at h1
  have hin : 262144 < 2 ^ 22 + 1 := by norm_num
  obtain ⟨htr, hwr, hq, hpass⟩ := not_cached_scenario_facts
    (sample_env_with_clock fun k => (k : Int)) false (2 ^ 22 + 1) hin
    (sample_env_with_clock_drops _)
  have hrd := second_clock_reading
  obtain ⟨r2, e1, e2⟩ := experiment_completes (sample_env_with_clock fun k => (k : Int))
    (not_cached_scenario false) (2 ^ 22 + 1) (2 ^ 31) Run.initial 5 hpass (by norm_num)
    (by norm_num)
    (fun i hi => by
      rw [budget_test_iff, hq, hrd _ (by simp [Run.initial]; omega),
        hrd _ (by simp [Run.initial])]
      simp only [Run.initial, wsub]
      interval_cases i <;> norm_num)
    (by
      rw [← Bool.not_eq_true, budget_test_iff, hq, hrd _ (by simp [Run.initial]),
        hrd _ (by simp [Run.initial])]
      simp only [Run.initial, wsub]
      norm_num)
  rw [e1] at h1
  cases h1
  obtain ⟨_, _, _, _, _, a6, _⟩ := experiment_passes _ _ _ _ _ _ e1
  rw [a6, e2, hwr, htr]
  rfl

/-- C11 as stated does not hold for the just-in-time blocks: for the pair
(64 MiB, 4 KiB), which is not skipped, the "JIT fadvise" block adds five result
lines, one per configured delay. -/
theorem skip_rule_counterexample :
    ∃ r1,
      pair_body (sample_env_with_clock fun k => (k : Int)) Variant.sequential false
        Strategy.jit_client_side 0 (2 ^ 22 + 1) (2 ^ 31) (64 * 1024 * 1024) (4 * 1024)
        Run.initial = Outcome.ok r1 ∧
      (records r1.trace).length = 5 := by
  obtain ⟨r1, rcs, h1, h2, h3, _⟩ :=
    (pair_body_summary (sample_env_with_clock fun k => (k : Int)) Variant.sequential false
      Strategy.jit_client_side 0 (2 ^ 22 + 1) (2 ^ 31) (64 * 1024 * 1024) (4 * 1024) Run.initial
      live_sample_clock (sample_env_with_clock_drops _) (by simp [file_sizes])
      (by simp [io_sizes]) (by norm_num) (le_refl _) (fun h => by cases h)).2 (by norm_num)
  refine ⟨r1, h1, ?_⟩
  rw [h2, List.length_append, h3,
    (records_per_pair_values Strategy.jit_client_side (4 * 1024)).2.1 rfl]
  rfl

/-! ### Boundary sizes and short reads -/

theorem round53_pos (p : Nat) (h : 1 ≤ p) : 1 ≤ round53 p := by
  rcases Nat.lt_or_ge p (2 ^ 53) with h1 | h1
  · rw [round53_exact p h1.le]; exact h
  · have := round53_ge p h1
    have h2 : 1 ≤ 2 ^ 53 := by norm_num
    omega

theorem round53_le_double (p : Nat) : round53 p ≤ 2 * p := by
  rcases Nat.lt_or_ge p (2 ^ 53) with h1 | h1
  · rw [round53_exact p h1.le]; omega
  · obtain ⟨h2, _, _⟩ := binade_shift_large p h1
    have h3 := round_at_le (binade_shift p) p
    have h4 := Nat.div_mul_le_self p (2 ^ binade_shift p)
    have h5 : 2 ^ binade_shift p ≤ p := by
      have : 1 * 2 ^ binade_shift p ≤ 2 ^ 52 * 2 ^ binade_shift p :=
        Nat.mul_le_mul_right _ (by norm_num)
      omega
    unfold round53
    rw [Nat.add_mul, Nat.one_mul] at h3
    omega

theorem random_cond_self (F : Nat) (hF : 1 ≤ F) :
    random_cond F 0 = true ∧ random_cond F F = false := by
  have hG := round53_pos F hF
  have hP : 1 ≤ round53 F * 3602879701896397 := by
    have : 1 * 1 ≤ round53 F * 3602879701896397 := Nat.mul_le_mul hG (by norm_num)
    omega
  have h1 := round53_pos _ hP
  have h2 := round53_le_double (round53 F * 3602879701896397)
  have z : round53 0 = 0 := round53_exact 0 (by norm_num)
  unfold random_cond
  constructor
  · rw [z]
    simp only [Nat.zero_mul, decide_eq_true_eq]
    omega
  · simp only [decide_eq_false_iff_not, not_lt]
    generalize round53 F = G at *
    generalize round53 (G * 3602879701896397) = Q at *
    norm_num
    omega

theorem timed_cond_self (c : Config) (hF : 1 ≤ c.file_size) :
    timed_cond c 0 = true ∧ timed_cond c c.file_size = false := by
  unfold timed_cond
  cases c.variant with
  | sequential =>
    simp only [sequential_cond, decide_eq_true_eq, decide_eq_false_iff_not, not_lt]
    omega
  | random => exact random_cond_self _ hF

theorem warmup_cond_self (c : Config) (hF : 1 ≤ c.file_size) :
    warmup_cond c 0 = true ∧ warmup_cond c c.file_size = false := by
  have hs : sequential_cond c.file_size 0 = true ∧
      sequential_cond c.file_size c.file_size = false := by
    simp only [sequential_cond, decide_eq_true_eq, decide_eq_false_iff_not, not_lt]
    omega
  cases hv : c.variant with
  | sequential =>
    have hw : warmup_cond c = sequential_cond c.file_size := by
      unfold warmup_cond; rw [hv]
    rw [hw]
    exact hs
  | random =>
    by_cases hcs : c.strategy = Strategy.cached_client_side
    · have hw : warmup_cond c = random_cond c.file_size := by
        unfold warmup_cond; rw [hv, hcs]
      rw [hw]
      exact random_cond_self _ hF
    · have hw : warmup_cond c = sequential_cond c.file_size := by
        unfold warmup_cond
        rw [hv]
        cases hs2 : c.strategy <;> first | rfl | exact absurd hs2 hcs
      rw [hw]
      exact hs

/-! ### The fatal branch of a read -/

theorem bind_exited {α β : Type} (o : Outcome α) (f : α → Outcome β) (st : Nat) (x : Run)
    (h : o.bind f = Outcome.exited st x) :
    o = Outcome.exited st x ∨ ∃ a, o = Outcome.ok a ∧ f a = Outcome.exited st x := by
  cases o with
  | ok a => exact Or.inr ⟨a, rfl, h⟩
  | exited s r =>
    simp only [Outcome.bind] at h
    cases h
    exact Or.inl rfl
  | fault => cases h
  | out_of_fuel => cases h

theorem do_read_exited (env : Env) (c : Config) (w : Bool) (r : Run) (st : Nat) (x : Run)
    (h : do_read env c w r = Outcome.exited st x) :
    read_ret c.strategy c.io_size (env.read_result r.io_calls) < 0 ∧ st = 0 ∧
      x = { r with io_calls := r.io_calls + 1,
                   trace := r.trace ++ [Event.read w c.io_size
                     (read_ret c.strategy c.io_size (env.read_result r.io_calls)),
                     Event.printf_read_error] } := by
  unfold do_read at h
  dsimp only at h
  by_cases hneg : read_ret c.strategy c.io_size (env.read_result r.io_calls) < 0
  · rw [if_pos hneg] at h
    cases h
    refine ⟨hneg, rfl, ?_⟩
    simp [Run.emit]
  · rw [if_neg hneg] at h
    cases h

theorem do_read_outcome (env : Env) (c : Config) (w : Bool) (r : Run) :
    (read_ret c.strategy c.io_size (env.read_result r.io_calls) < 0 →
      do_read env c w r = Outcome.exited 0
        { r with io_calls := r.io_calls + 1,
                 trace := r.trace ++ [Event.read w c.io_size
                   (read_ret c.strategy c.io_size (env.read_result r.io_calls)),
                   Event.printf_read_error] }) := by
  intro hneg
  unfold do_read
  dsimp only
  rw [if_pos hneg]
  simp [Run.emit]

theorem records_snoc_read (t : List Event) (w : Bool) (n : Nat) (ret : Int) :
    records (t ++ [Event.read w n ret, Event.printf_read_error]) = records t := by
  rw [records_append]
  simp [records]

theorem online_prefetch_records (s : Strategy) (v p : Nat) :
    records (online_prefetch s v p) = [] := by
  cases s <;> rfl

theorem online_step_frame (c : Config) (v : Nat) (r a : Run)
    (h : online_step c v r = Outcome.ok a) :
    a.io_calls = r.io_calls ∧ a.clock_calls = r.clock_calls ∧ a.generator = r.generator ∧
      records a.trace = records r.trace := by
  rw [online_step_ok c v r a h]
  refine ⟨rfl, rfl, rfl, ?_⟩
  simp only [Run.emit_all]
  rw [records_append]
  split_ifs
  · rw [online_prefetch_records, List.append_nil]
  · simp [records]

theorem online_step_not_exited (c : Config) (v : Nat) (r : Run) (st : Nat) (x : Run) :
    online_step c v r ≠ Outcome.exited st x := by
  unfold online_step
  split_ifs <;> intro h <;> cases h

theorem random_seek_frame (env : Env) (c : Config) (r b : Run)
    (h : random_seek env c r = Outcome.ok b) :
    b.io_calls = r.io_calls ∧ b.clock_calls = r.clock_calls ∧
      records b.trace = records r.trace := by
  rcases random_seek_ok env c r b h with ⟨_, rfl⟩ | ⟨_, o, _, rfl⟩
  · exact ⟨rfl, rfl, rfl⟩
  · refine ⟨rfl, rfl, ?_⟩
    simp only
    rw [records_append]
    simp [records]

theorem random_seek_not_exited (env : Env) (c : Config) (r : Run) (st : Nat) (x : Run) :
    random_seek env c r ≠ Outcome.exited st x := by
  unfold random_seek
  cases c.variant with
  | sequential => intro h; cases h
  | random =>
    simp only
    cases random_offset (env.rand r.generator).1 c.file_size with
    | none => intro h; cases h
    | some o => intro h; cases h

theorem timed_body_exited (env : Env) (c : Config) (v : Nat) (r : Run) (st : Nat) (x : Run)
    (h : timed_body env c v r = Outcome.exited st x) :
    st = 0 ∧ records x.trace = records r.trace ∧ exited_after_read env c x ∧
      x.io_calls = r.io_calls + 1 ∧ x.clock_calls = r.clock_calls := by
  unfold timed_body at h
  rcases bind_exited _ _ _ _ h with h1 | ⟨a, ha, h1⟩
  · exact absurd h1 (online_step_not_exited _ _ _ _ _)
  · rcases bind_exited _ _ _ _ h1 with h2 | ⟨b, hb, h2⟩
    · exact absurd h2 (random_seek_not_exited _ _ _ _ _)
    · rcases bind_exited _ _ _ _ h2 with h3 | ⟨d, _, h3⟩
      · obtain ⟨a1, a2, _, a4⟩ := online_step_frame c v r a ha
        obtain ⟨b1, b2, b3⟩ := random_seek_frame env c a b hb
        obtain ⟨hneg, hst, hx⟩ := do_read_exited env c false b st x h3
        rw [hx]
        refine ⟨hst, ?_, ⟨b.trace, false, b.io_calls, rfl, hneg, rfl⟩, ?_, ?_⟩
        · simp only
          rw [records_snoc_read, b3, a4]
        · simp only; rw [b1, a1]
        · simp only; rw [b2, a2]
      · cases h3

theorem volume_loop_exited (cond : Nat → Bool) (S : Nat) (body : Nat → Run → Outcome Run)
    (Q : Run → Prop)
    (hok : ∀ v a b, body v a = Outcome.ok b → records b.trace = records a.trace)
    (hex : ∀ v a st b, body v a = Outcome.exited st b →
      st = 0 ∧ records b.trace = records a.trace ∧ Q b) :
    ∀ (fuel v : Nat) (r : Run) (st : Nat) (x : Run),
      volume_loop cond S body fuel v r = Outcome.exited st x →
      st = 0 ∧ records x.trace = records r.trace ∧ Q x := by
  intro fuel
  induction fuel with
  | zero => intro v r st x h; cases h
  | succ fuel ih =>
    intro v r st x h
    rw [volume_loop] at h
    by_cases hc : cond v = true
    · rw [if_pos hc] at h
      rcases bind_exited _ _ _ _ h with h1 | ⟨a, ha, h1⟩
      · exact hex v r st x h1
      · obtain ⟨i1, i2, i3⟩ := ih _ _ _ _ h1
        exact ⟨i1, by rw [i2, hok v r a ha], i3⟩
    · rw [if_neg hc] at h
      cases h

theorem timed_body_records (env : Env) (c : Config) (v : Nat) (a b : Run)
    (h : timed_body env c v a = Outcome.ok b) : records b.trace = records a.trace := by
  obtain ⟨t1, _⟩ := timed_body_trace env c v a b h
  have := timed_events_records env c [v] a.clock_calls a.io_calls a.generator
  simp only [timed_events, List.append_nil] at this
  rw [t1, records_append, this, List.append_nil]

theorem warmup_body_records (env : Env) (c : Config) (v : Nat) (a b : Run)
    (h : warmup_body env c v a = Outcome.ok b) : records b.trace = records a.trace := by
  obtain ⟨_, hb⟩ := do_read_ok env c true a b h
  rw [hb]
  simp only
  rw [records_append]
  simp [records]

theorem warmup_body_exited (env : Env) (c : Config) (v : Nat) (a : Run) (st : Nat) (b : Run)
    (h : warmup_body env c v a = Outcome.exited st b) :
    st = 0 ∧ records b.trace = records a.trace ∧ exited_after_read env c b := by
  obtain ⟨hneg, hst, hx⟩ := do_read_exited env c true a st b h
  rw [hx]
  exact ⟨hst, records_snoc_read _ _ _ _, ⟨a.trace, true, a.io_calls, rfl, hneg, rfl⟩⟩

theorem warm_up_exited (env : Env) (c : Config) (inner : Nat) (r : Run) (st : Nat) (x : Run)
    (h : warm_up env c inner r = Outcome.exited st x) :
    st = 0 ∧ records x.trace = records r.trace ∧ exited_after_read env c x := by
  unfold warm_up at h
  rcases bind_exited _ _ _ _ h with h1 | ⟨a, _, h1⟩
  · obtain ⟨i1, i2, i3⟩ := volume_loop_exited _ _ _ (exited_after_read env c)
      (warmup_body_records env c) (warmup_body_exited env c) _ _ _ _ _ h1
    refine ⟨i1, ?_, i3⟩
    rw [i2]
    simp only [Run.emit]
    rw [records_append]
    simp [records]
  · cases h1

theorem client_cache_drop_call_exited (env : Env) (r : Run) (st : Nat) (x : Run)
    (h : client_cache_drop_call env r = Outcome.exited st x) :
    st = 0 ∧ records x.trace = records r.trace ∧ exited_in_drop env x := by
  unfold client_cache_drop_call at h
  split_ifs at h with hc
  cases h
  refine ⟨rfl, ?_, r.trace, hc, rfl⟩
  simp only [Run.emit]
  rw [records_append]
  simp [records]

theorem precondition_exited (env : Env) (c : Config) (inner : Nat) (r : Run) (st : Nat)
    (x : Run) (h : precondition env c inner r = Outcome.exited st x) :
    st = 0 ∧ records x.trace = records r.trace ∧
      (exited_after_read env c x ∨ exited_in_drop env x) := by
  have hr0 : records (if c.lustre = true then r.emit (Event.server_cache_evict 0 c.file_size)
      else r).trace = records r.trace := by
    split_ifs <;> simp [Run.emit, records]
  unfold precondition at h
  dsimp only at h
  rcases bind_exited _ _ _ _ h with h0 | ⟨x0, hx0, h⟩
  · obtain ⟨i1, i2, i3⟩ := client_cache_drop_call_exited env _ st x h0
    exact ⟨i1, by rw [i2, hr0], Or.inr i3⟩
  have hr1 : records x0.trace = records r.trace := by
    rw [client_cache_drop_call_ok env _ x0 hx0, ← hr0]
    simp only [Run.emit]
    rw [records_append]
    simp [records]
  rcases bind_exited _ _ _ _ h with h1 | ⟨a, _, h1⟩
  · have key : warm_up env c inner x0 = Outcome.exited st x ∨
        ∃ b, warm_up env c inner x0 = Outcome.ok b ∧
          client_cache_drop_call env b = Outcome.exited st x := by
      cases hs : c.strategy <;> rw [hs] at h1 <;> simp only at h1 <;>
        first
        | cases h1
        | (rcases bind_exited _ _ _ _ h1 with h2 | ⟨b, hb, h2⟩
           · exact Or.inl h2
           · first
             | cases h2
             | (rcases bind_exited _ _ _ _ h2 with h3 | ⟨d, _, h3⟩
                · exact Or.inr ⟨b, hb, h3⟩
                · cases h3))
    rcases key with hw | ⟨b, hb, hd⟩
    · obtain ⟨i1, i2, i3⟩ := warm_up_exited env c inner x0 st x hw
      exact ⟨i1, by rw [i2, hr1], Or.inl i3⟩
    · obtain ⟨i1, i2, i3⟩ := client_cache_drop_call_exited env b st x hd
      obtain ⟨ws, final, _, hb2⟩ := warm_up_ok env c inner x0 b hb
      refine ⟨i1, ?_, Or.inr i3⟩
      rw [i2, hb2]
      simp only
      rw [records_append, records_append, warmup_events_records, hr1]
      simp [records]
  · cases hv : c.variant <;> rw [hv] at h1 <;> cases h1

theorem timed_pass_exited (env : Env) (c : Config) (inner : Nat) (r : Run) (st : Nat)
    (x : Run) (h : timed_pass env c inner r = Outcome.exited st x) :
    st = 0 ∧ records x.trace = records r.trace ∧ exited_after_read env c x := by
  unfold timed_pass at h
  dsimp only at h
  rcases bind_exited _ _ _ _ h with h1 | ⟨a, _, h1⟩
  · obtain ⟨i1, i2, i3⟩ := volume_loop_exited _ _ _ (exited_after_read env c)
      (timed_body_records env c)
      (fun v a st b hb => by
        obtain ⟨q1, q2, q3, _⟩ := timed_body_exited env c v a st b hb
        exact ⟨q1, q2, q3⟩) _ _ _ _ _ h1
    refine ⟨i1, ?_, i3⟩
    rw [i2]
    simp only [get_timestamp_us]
    rw [records_append]
    simp [records]
  · cases hv : c.variant <;> rw [hv] at h1 <;> cases h1

theorem run_pass_exited (env : Env) (c : Config) (inner : Nat) (r : Run) (st : Nat)
    (x : Run) (h : run_pass env c inner r = Outcome.exited st x) :
    st = 0 ∧ records x.trace = records r.trace ∧
      (exited_after_read env c x ∨ exited_in_drop env x) := by
  unfold run_pass at h
  rcases bind_exited _ _ _ _ h with h1 | ⟨a, ha, h1⟩
  · exact precondition_exited env c inner r st x h1
  · obtain ⟨i1, i2, i3⟩ := timed_pass_exited env c inner a st x h1
    obtain ⟨n, _, _, hr0⟩ := precondition_ok env c inner r a ha
    refine ⟨i1, ?_, Or.inl i3⟩
    rw [i2, hr0]
    simp only
    rw [records_append, precondition_events_records, List.append_nil]

theorem campaign_exited (env : Env) (c : Config) (inner t0 : Nat) :
    ∀ (fuel : Nat) (r : Run) (st : Nat) (x : Run),
      campaign env c inner t0 fuel r = Outcome.exited st x →
      st = 0 ∧ records x.trace = records r.trace ∧
        (exited_after_read env c x ∨ exited_in_drop env x) := by
  intro fuel
  induction fuel with
  | zero => intro r st x h; cases h
  | succ fuel ih =>
    intro r st x h
    rw [campaign] at h
    simp only [get_timestamp_us] at h
    have hstamp : records (r.trace ++ [Event.get_timestamp_us (reading env r.clock_calls)]) =
        records r.trace := by
      rw [records_append]; simp [records]
    by_cases hb : wsub (reading env r.clock_calls) t0 < DURATION_PER_EXPERIMENT_US
    · rw [if_pos hb] at h
      rcases bind_exited _ _ _ _ h with h1 | ⟨p, hp, h1⟩
      · obtain ⟨i1, i2, i3⟩ := run_pass_exited env c inner _ st x h1
        exact ⟨i1, by rw [i2]; exact hstamp, i3⟩
      · by_cases hc : p.experiment_count + 1 < 2 ^ 31
        · rw [if_pos hc] at h1
          obtain ⟨i1, i2, i3⟩ := ih _ _ _ h1
          obtain ⟨_, _, _, _, _, _, _, s8⟩ := run_pass_summary env c inner _ p hp
          refine ⟨i1, ?_, i3⟩
          rw [i2]
          simp only at s8 ⊢
          rw [s8]
          exact hstamp
        · rw [if_neg hc] at h1
          cases h1
    · rw [if_neg hb] at h
      cases h

theorem experiment_exited (env : Env) (c : Config) (inner fuel : Nat) (r : Run) (st : Nat)
    (x : Run) (h : experiment env c inner fuel r = Outcome.exited st x) :
    st = 0 ∧ records x.trace = records r.trace ∧
      (exited_after_read env c x ∨ exited_in_drop env x) := by
  rw [experiment_eq] at h
  rcases bind_exited _ _ _ _ h with h1 | ⟨a, _, h1⟩
  · obtain ⟨i1, i2, i3⟩ := campaign_exited env c inner _ fuel _ st x h1
    refine ⟨i1, ?_, i3⟩
    rw [i2]
    simp only [campaign_start, get_timestamp_us, Run.emit]
    rw [records_append, records_append]
    simp [records]
  · split_ifs at h1

theorem bind_assoc {α β γ : Type} (o : Outcome α) (f : α → Outcome β) (g : β → Outcome γ) :
    (o.bind f).bind g = o.bind fun a => (f a).bind g := by
  cases o <;> rfl

theorem run_bodies_append (body : Nat → Run → Outcome Run) :
    ∀ (a b : List Nat) (r : Run),
      run_bodies body (a ++ b) r = (run_bodies body a r).bind (run_bodies body b) := by
  intro a
  induction a with
  | nil => intro b r; rfl
  | cons v a ih =>
    intro b r
    simp only [List.cons_append, run_bodies]
    rw [bind_assoc]
    congr 1
    funext r1
    exact ih b r1

theorem run_bodies_prefix_ok (env : Env) (c : Config)
    (hon : c.strategy.is_online = true → c.prefetch_param ≠ 0)
    (hF : c.variant = Variant.random → c.file_size ≠ 0) :
    ∀ (vs : List Nat) (r : Run),
      (∀ i, i < vs.length →
        0 ≤ read_ret c.strategy c.io_size (env.read_result (r.io_calls + i))) →
      ∃ y, run_bodies (timed_body env c) vs r = Outcome.ok y := by
  intro vs
  induction vs with
  | nil => intro r _; exact ⟨r, rfl⟩
  | cons v vs ih =>
    intro r hret
    obtain ⟨r1, h1⟩ := timed_body_completes env c v r hon hF
      (by simpa using hret 0 (by simp))
    obtain ⟨_, _, t3, _⟩ := timed_body_trace env c v r r1 h1
    obtain ⟨y, hy⟩ := ih r1 (fun i hi => by
      have := hret (i + 1) (by simp; omega)
      rw [t3]
      rw [show r.io_calls + 1 + i = r.io_calls + (i + 1) by omega]
      exact this)
    refine ⟨y, ?_⟩
    simp only [run_bodies, h1, Outcome.bind]
    exact hy

theorem timed_body_exit (env : Env) (c : Config) (v : Nat) (r : Run)
    (hon : c.strategy.is_online = true → c.prefetch_param ≠ 0)
    (hF : c.variant = Variant.random → c.file_size ≠ 0)
    (hneg : read_ret c.strategy c.io_size (env.read_result r.io_calls) < 0) :
    ∃ x, timed_body env c v r = Outcome.exited 0 x := by
  have h1 : ∃ a, online_step c v r = Outcome.ok a ∧ a.io_calls = r.io_calls ∧
      a.generator = r.generator := by
    unfold online_step
    by_cases ho : c.strategy.is_online = true
    · rw [if_pos ho, if_neg (hon ho)]
      by_cases hm : v % c.prefetch_param = 0
      · rw [if_pos hm]; exact ⟨_, rfl, rfl, rfl⟩
      · rw [if_neg hm]; exact ⟨_, rfl, rfl, rfl⟩
    · rw [if_neg ho]; exact ⟨_, rfl, rfl, rfl⟩
  obtain ⟨a, ha, ha1, ha2⟩ := h1
  have h2 : ∃ b, random_seek env c a = Outcome.ok b ∧ b.io_calls = a.io_calls := by
    unfold random_seek
    cases hv : c.variant with
    | sequential => exact ⟨_, rfl, rfl⟩
    | random =>
      obtain ⟨o, ho⟩ := random_offset_some (env.rand a.generator).1 c.file_size (hF hv)
      simp only [ho]
      exact ⟨_, rfl, rfl⟩
  obtain ⟨b, hb, hb1⟩ := h2
  have h3 := do_read_outcome env c false b (by rw [hb1, ha1]; exact hneg)
  unfold timed_body
  rw [ha]
  simp only [Outcome.bind]
  rw [hb]
  simp only [Outcome.bind]
  rw [h3]
  exact ⟨_, rfl⟩

theorem list_split_at (vs : List Nat) (m : Nat) (hm : m < vs.length) :
    ∃ pre v post, vs = pre ++ v :: post ∧ pre.length = m := by
  refine ⟨vs.take m, vs[m], vs.drop (m + 1), ?_, ?_⟩
  · rw [← List.drop_eq_getElem_cons hm, List.take_append_drop]
  · rw [List.length_take]; omega

/-- The timed part of a pass whose `m`-th read is the first with a negative
`ret`: the process exits with status 0 right after that read. -/
theorem timed_pass_exit (env : Env) (c : Config) (inner : Nat) (r : Run) (vs : List Nat)
    (final m : Nat) (hfv : for_volume (timed_cond c) c.io_size inner 0 = some (vs, final))
    (hm : m < vs.length)
    (hon : c.strategy.is_online = true → c.prefetch_param ≠ 0)
    (hF : c.variant = Variant.random → c.file_size ≠ 0)
    (hpre : ∀ i, i < m →
      0 ≤ read_ret c.strategy c.io_size (env.read_result (r.io_calls + i)))
    (hneg : read_ret c.strategy c.io_size (env.read_result (r.io_calls + m)) < 0) :
    ∃ x, timed_pass env c inner r = Outcome.exited 0 x ∧ x.io_calls = r.io_calls + m + 1 ∧
      x.clock_calls = r.clock_calls + 1 + readings_per_read c * m := by
  obtain ⟨pre, v, post, hvs, hlen⟩ := list_split_at vs m hm
  obtain ⟨y, hy⟩ := run_bodies_prefix_ok env c hon hF pre
    { r with clock_calls := r.clock_calls + 1,
             trace := r.trace ++ [Event.get_timestamp_us (reading env r.clock_calls)],
             t1 := reading env r.clock_calls }
    (fun i hi => hpre i (by omega))
  obtain ⟨_, q2, q3, _⟩ := run_bodies_trace env c pre _ y hy
  simp only at q2 q3
  obtain ⟨x, hx⟩ := timed_body_exit env c v y hon hF (by rw [q3, hlen]; exact hneg)
  obtain ⟨_, _, _, e4, e5⟩ := timed_body_exited env c v y 0 x hx
  refine ⟨x, ?_, by rw [e4, q3, hlen], by rw [e5, q2, hlen]⟩
  unfold timed_pass
  dsimp only
  rw [volume_loop_of_for_volume _ _ _ _ _ _ _ _ hfv]
  simp only [get_timestamp_us]
  rw [hvs, run_bodies_append, hy]
  simp only [Outcome.bind, run_bodies, hx]

theorem precondition_not_offline (env : Env) (c : Config) (inner : Nat) (r : Run)
    (hoff : c.strategy.is_offline = false) (hdrop : drops_succeed env) :
    ∃ r0, precondition env c inner r = Outcome.ok r0 ∧ r0.io_calls = r.io_calls ∧
      r0.clock_calls = r.clock_calls ∧ records r0.trace = records r.trace := by
  have hex : ∃ r0, precondition env c inner r = Outcome.ok r0 := by
    unfold precondition
    dsimp only
    rw [client_cache_drop_call_completes env _ hdrop]
    simp only [Outcome.bind]
    cases hs : c.strategy <;> first
      | (rw [hs] at hoff; cases hoff; done)
      | (cases hv : c.variant <;> exact ⟨_, rfl⟩)
  obtain ⟨r0, h0⟩ := hex
  obtain ⟨n, _, hn, hr0⟩ := precondition_ok env c inner r r0 h0
  refine ⟨r0, h0, ?_, ?_, ?_⟩
  · rw [hr0, hn hoff]
    rfl
  · rw [hr0]
  · rw [hr0]
    simp only
    rw [records_append, precondition_events_records, List.append_nil]

theorem timed_reads_of_append (a b : List Event) :
    timed_reads_of (a ++ b) = timed_reads_of a ++ timed_reads_of b := by
  unfold timed_reads_of
  exact List.filterMap_append _ _ _

theorem warmup_events_timed_reads (env : Env) (c : Config) :
    ∀ (n io : Nat), timed_reads_of (warmup_events env c n io) = [] := by
  intro n
  induction n with
  | zero => intro io; rfl
  | succ n ih =>
    intro io
    rw [warmup_events]
    have := ih (io + 1)
    simp only [timed_reads_of, List.filterMap_cons] at this ⊢
    exact this

theorem precondition_events_timed_reads (env : Env) (c : Config) (n io : Nat) :
    timed_reads_of (precondition_events env c n io) = [] := by
  have hw := warmup_events_timed_reads env c n io
  unfold precondition_events
  rw [timed_reads_of_append, timed_reads_of_append, timed_reads_of_append]
  have h1 : timed_reads_of
      (if c.lustre = true then [Event.server_cache_evict 0 c.file_size] else []) = [] := by
    split_ifs <;> rfl
  have h2 : timed_reads_of (reseed_events c.variant) = [] := by
    cases c.variant <;> rfl
  have h3 : timed_reads_of (preparation_events env c n io) = [] := by
    unfold preparation_events
    cases c.strategy <;> simp only [timed_reads_of_append, hw] <;> rfl
  rw [h1, h2, h3]
  rfl

theorem timed_events_timed_reads (env : Env) (c : Config) :
    ∀ (vs : List Nat) (k io g : Nat),
      timed_reads_of (timed_events env c vs k io g) =
        (List.range vs.length).map fun i =>
          (c.io_size, read_ret c.strategy c.io_size (env.read_result (io + i))) := by
  intro vs
  induction vs with
  | nil => intro k io g; rfl
  | cons v vs ih =>
    intro k io g
    rw [timed_events, timed_reads_of_append, ih]
    have hb : timed_reads_of (body_events env c v k io g) =
        [(c.io_size, read_ret c.strategy c.io_size (env.read_result io))] := by
      unfold body_events
      simp only [timed_reads_of_append]
      have h1 : timed_reads_of (if c.strategy.is_online = true ∧ v % c.prefetch_param = 0
          then online_prefetch c.strategy v c.prefetch_param else []) = [] := by
        split_ifs
        · cases c.strategy <;> rfl
        · rfl
      have h2 : timed_reads_of (match c.variant with
          | Variant.sequential => []
          | Variant.random =>
            [Event.seek ((random_offset (env.rand g).1 c.file_size).getD 0)]) = [] := by
        cases c.variant <;> rfl
      have h3 : timed_reads_of (if c.io_interarrival_time_ns ≠ 0
          then [Event.get_timestamp_us (reading env k), Event.nsleep c.io_interarrival_time_ns,
                Event.get_timestamp_us (reading env (k + 1))]
          else []) = [] := by
        split_ifs <;> rfl
      rw [h1, h2, h3]
      rfl
    rw [hb, List.length_cons, List.range_succ_eq_map, List.map_cons, List.map_map]
    simp only [List.singleton_append, Nat.add_zero]
    congr 1
    apply List.map_congr_left
    intro i _
    simp only [Function.comp]
    rw [show io + 1 + i = io + (i + 1) by omega]

/-- The reads of the timed loop of a pass that ends normally: one per value of
the loop variable, each of `io_size` bytes, none with a negative `ret`. -/
theorem run_pass_reads (env : Env) (c : Config) (inner : Nat) (r r1 : Run)
    (h : run_pass env c inner r = Outcome.ok r1) :
    timed_reads_of r1.trace = timed_reads_of r.trace ++
        (List.range (timed_reads c inner)).map (fun i =>
          (c.io_size, read_ret c.strategy c.io_size
            (env.read_result (r.io_calls + warmup_reads c inner + i)))) ∧
      ∀ i, i < timed_reads c inner →
        0 ≤ read_ret c.strategy c.io_size
          (env.read_result (r.io_calls + warmup_reads c inner + i)) := by
  obtain ⟨n_warm, vs, final, hfv, hw1, hw2, htrace, _, _, _, hnn⟩ :=
    run_pass_shape env c inner r r1 h
  obtain ⟨htr, _⟩ := timed_reads_eq c inner vs final hfv
  have hwr := warmup_reads_eq c inner n_warm hw1 hw2
  rw [htr, hwr]
  constructor
  · rw [htrace]
    simp only [timed_reads_of_append, precondition_events_timed_reads, List.append_nil]
    have e : ∀ (k : Nat) (l : List Event),
        timed_reads_of (Event.get_timestamp_us k :: l) = timed_reads_of l := by
      intro k l; rfl
    rw [e, timed_reads_of_append, timed_events_timed_reads]
    have e2 : ∀ k, timed_reads_of [Event.get_timestamp_us k] = [] := fun _ => rfl
    rw [e2, List.append_nil]
  · intro i hi
    exact hnn _ (by omega) (by omega)

theorem run_pass_exit (env : Env) (c : Config) (inner : Nat) (r : Run) (vs : List Nat)
    (final m : Nat) (hoff : c.strategy.is_offline = false)
    (hfv : for_volume (timed_cond c) c.io_size inner 0 = some (vs, final))
    (hm : m < vs.length)
    (hon : c.strategy.is_online = true → c.prefetch_param ≠ 0)
    (hF : c.variant = Variant.random → c.file_size ≠ 0)
    (hpre : ∀ i, i < m →
      0 ≤ read_ret c.strategy c.io_size (env.read_result (r.io_calls + i)))
    (hneg : read_ret c.strategy c.io_size (env.read_result (r.io_calls + m)) < 0)
    (hdrop : drops_succeed env) :
    ∃ x, run_pass env c inner r = Outcome.exited 0 x ∧ x.io_calls = r.io_calls + m + 1 ∧
      x.clock_calls = r.clock_calls + 1 + readings_per_read c * m := by
  obtain ⟨r0, h0, e1, e2, _⟩ := precondition_not_offline env c inner r hoff hdrop
  obtain ⟨x, hx, x1, x2⟩ := timed_pass_exit env c inner r0 vs final m hfv hm hon hF
    (by rw [e1]; exact hpre) (by rw [e1]; exact hneg)
  refine ⟨x, ?_, by rw [x1, e1], by rw [x2, e2]⟩
  unfold run_pass
  rw [h0]
  exact hx

theorem read_ret_le (s : Strategy) (S : Nat) (raw : Int) : read_ret s S raw ≤ S := by
  unfold read_ret to_int
  split_ifs <;> omega

theorem for_volume_final (cond : Nat → Bool) (S : Nat) :
    ∀ (fuel v : Nat) (vs : List Nat) (final : Nat),
      for_volume cond S fuel v = some (vs, final) → v < 2 ^ 64 →
      final = (v + vs.length * S) % 2 ^ 64 := by
  intro fuel
  induction fuel with
  | zero => intro v vs final h; cases h
  | succ fuel ih =>
    intro v vs final h hv
    rw [for_volume] at h
    by_cases hc : cond v = true
    · rw [if_pos hc] at h
      cases hrec : for_volume cond S fuel (wadd v S) with
      | none => rw [hrec] at h; cases h
      | some x =>
        obtain ⟨ws, f⟩ := x
        rw [hrec] at h
        simp only [Option.some.injEq, Prod.mk.injEq] at h
        obtain ⟨h1, h2⟩ := h
        have := ih _ _ _ hrec (Nat.mod_lt _ (by norm_num))
        rw [← h1, ← h2, this]
        unfold wadd
        rw [Nat.mod_add_mod, List.length_cons, Nat.add_mul, Nat.one_mul]
        congr 1
        omega
    · rw [if_neg hc] at h
      simp only [Option.some.injEq, Prod.mk.injEq] at h
      obtain ⟨h1, h2⟩ := h
      rw [← h1, ← h2]
      simp only [List.length_nil, Nat.zero_mul, Nat.add_zero]
      exact (Nat.mod_eq_of_lt hv).symm

/-- C12.  For every file size `F ≥ 1` (a `uint64_t`) and every block, a pair with
`io_size = F` is not skipped by `if(io_size>file_size) continue;`: the body of
the `io_sizes` loop runs the block's experiments (one in the two-loop blocks),
and the timed loop of each pass runs once, at `volume = 0`, in the sequential
program (test `volume<file_size`) and in the random program (test
`volume<file_size*0.1`).  Every pass that ends normally has issued exactly one
timed read, of `F` bytes (and one warm-up read in an offline block); and a pass
ends normally when no cache drop fails, no read returns a negative value and
`F` is below `2 ^ 31`. -/
theorem single_read_pass (env : Env) (variant : Variant) (lustre : Bool) (s : Strategy)
    (ia F p inner fuel : Nat) (r : Run) (hF1 : 1 ≤ F) (hF64 : F < 2 ^ 64)
    (hinner : 2 ≤ inner) :
    pair_body env variant lustre s ia inner fuel F F r =
        (third_loop_values s).foldl
          (fun (o : Outcome Run) (q : Nat) =>
            o.bind fun r1 =>
              if s.is_online && decide (q ≤ F) then Outcome.ok r1
              else experiment env (pair_config variant lustre s ia F F q) inner fuel r1)
          (Outcome.ok r) ∧
      (s.is_jit = false → s.is_online = false →
        pair_body env variant lustre s ia inner fuel F F r =
          experiment env (pair_config variant lustre s ia F F 0) inner fuel r) ∧
      for_volume (timed_cond (pair_config variant lustre s ia F F p)) F inner 0 =
        some ([0], F) ∧
      timed_reads (pair_config variant lustre s ia F F p) inner = 1 ∧
      warmup_reads (pair_config variant lustre s ia F F p) inner =
        (if s.is_offline then 1 else 0) ∧
      (∀ r1, run_pass env (pair_config variant lustre s ia F F p) inner r = Outcome.ok r1 →
        r1.io_calls =
          r.io_calls + warmup_reads (pair_config variant lustre s ia F F p) inner + 1 ∧
        timed_reads_of r1.trace = timed_reads_of r.trace ++
          [(F, read_ret s F (env.read_result
            (r.io_calls + warmup_reads (pair_config variant lustre s ia F F p) inner)))]) ∧
      (drops_succeed env → (∀ j, 0 ≤ env.read_result j) → F < 2 ^ 31 →
        (s.is_online = true → p ≠ 0) →
        ∃ r1, run_pass env (pair_config variant lustre s ia F F p) inner r = Outcome.ok r1) := by
  obtain ⟨fuel2, rfl⟩ : ∃ f, inner = f + 2 := ⟨inner - 2, by omega⟩
  have hw : wadd 0 F = F := by
    unfold wadd
    rw [Nat.zero_add]
    exact Nat.mod_eq_of_lt hF64
  obtain ⟨t0, t1⟩ := timed_cond_self (pair_config variant lustre s ia F F p) hF1
  obtain ⟨w0, w1⟩ := warmup_cond_self (pair_config variant lustre s ia F F p) hF1
  have hfv := for_volume_one (timed_cond (pair_config variant lustre s ia F F p)) F fuel2 t0
    (by rw [hw]; exact t1)
  have hfw := for_volume_one (warmup_cond (pair_config variant lustre s ia F F p)) F fuel2 w0
    (by rw [hw]; exact w1)
  rw [hw] at hfv hfw
  have htr := (timed_reads_eq (pair_config variant lustre s ia F F p) (fuel2 + 2) [0] F hfv).1
  have hwr : warmup_reads (pair_config variant lustre s ia F F p) (fuel2 + 2) =
      (if s.is_offline then 1 else 0) := by
    unfold warmup_reads
    have e : (pair_config variant lustre s ia F F p).io_size = F := rfl
    have e2 : (pair_config variant lustre s ia F F p).strategy = s := rfl
    rw [e, hfw, e2]
    rfl
  refine ⟨?_, fun hj ho => pair_body_two_loop env variant lustre s ia _ fuel F F r hj ho
    (le_refl F), hfv, htr, hwr, fun r1 h1 => ?_, fun hdrop hraw hF31 hon => ?_⟩
  · unfold pair_body
    rw [if_neg (lt_irrefl F)]
    rfl
  · obtain ⟨_, _, s3, _⟩ := run_pass_summary env _ (fuel2 + 2) r r1 h1
    obtain ⟨q1, _⟩ := run_pass_reads env _ (fuel2 + 2) r r1 h1
    refine ⟨by rw [s3, htr]; rfl, ?_⟩
    rw [q1, htr]
    simp [pair_config, List.range_succ]
  · exact run_pass_completes env (pair_config variant lustre s ia F F p)
      (fuel2 + 2) r [0] F hfv (fun _ => ⟨[0], F, hfw⟩) hon
      (fun _ => by
        have e : (pair_config variant lustre s ia F F p).file_size = F := rfl
        rw [e]; omega)
      (fun j => read_ret_nonneg s F _ hF31 (fun _ => hraw j)) hdrop

/-- Witness of `single_read_pass`: a 12-byte file read 12 bytes at a time in the
"Not cached" block of the random program. -/
theorem single_read_pass_witness :
    ∃ r1, run_pass sample_env
        (pair_config Variant.random false Strategy.not_cached 0 12 12 0) 2 Run.initial =
        Outcome.ok r1 ∧ r1.io_calls = 1 ∧ timed_reads_of r1.trace = [(12, 12)] := by
  have h := single_read_pass sample_env Variant.random false Strategy.not_cached 0 12 0 2 1
    Run.initial (by norm_num) (by norm_num) (le_refl _)
  obtain ⟨r1, h1⟩ := h.2.2.2.2.2.2 sample_env_drops
    (fun _ => (by decide : (0 : Int) ≤ 2147483647)) (by norm_num) (fun h => by cases h)
  obtain ⟨h2, h3⟩ := h.2.2.2.2.2.1 r1 h1
  refine ⟨r1, h1, ?_, ?_⟩
  · rw [h2, h.2.2.2.2.1]
    rfl
  · rw [h3, h.2.2.2.2.1]
    rfl

/-- C13 (as amended).  For every `F` and `S` with `1 ≤ S ≤ F`, `S` below `2 ^ 31`
and `⌈F/S⌉ * S` below `2 ^ 64` (in particular when `S` does not divide `F`, where
the last read reaches past the end of the file), when no cache drop fails, and
for every sequence of read results none of which is negative, a pass of the
sequential program ends normally, so no read takes the fatal branch whatever
it returns, and its timed loop issues exactly `⌈F/S⌉` reads of `S` bytes each: a
short read is not made up by another read. -/
theorem short_reads_tolerated (env : Env) (c : Config) (inner : Nat) (r : Run)
    (hv : c.variant = Variant.sequential) (hS : 1 ≤ c.io_size)
    (hSF : c.io_size ≤ c.file_size) (hS31 : c.io_size < 2 ^ 31)
    (hwrap : ceil_div c.file_size c.io_size * c.io_size < 2 ^ 64)
    (hinner : ceil_div c.file_size c.io_size < inner)
    (hon : c.strategy.is_online = true → c.prefetch_param ≠ 0)
    (hdrop : drops_succeed env)
    (hraw : ∀ j, 0 ≤ env.read_result j) :
    ∃ r1, run_pass env c inner r = Outcome.ok r1 ∧
      timed_reads_of r1.trace = timed_reads_of r.trace ++
        (List.range (ceil_div c.file_size c.io_size)).map (fun i =>
          (c.io_size, read_ret c.strategy c.io_size
            (env.read_result (r.io_calls + warmup_reads c inner + i)))) ∧
      r1.io_calls = r.io_calls + warmup_reads c inner + ceil_div c.file_size c.io_size ∧
      (¬ c.io_size ∣ c.file_size →
        (ceil_div c.file_size c.io_size - 1) * c.io_size < c.file_size ∧
        c.file_size < ceil_div c.file_size c.io_size * c.io_size) := by
  have h1 := sequential_for_volume c.file_size c.io_size inner hS hSF hwrap hinner
  have hc : timed_cond c = sequential_cond c.file_size := by
    unfold timed_cond; rw [hv]
  have hw : warmup_cond c = sequential_cond c.file_size := by
    unfold warmup_cond; rw [hv]
  rw [← hc] at h1
  obtain ⟨r1, hr1⟩ := run_pass_completes env c inner r _ _ h1
    (fun _ => by rw [hw, ← hc]; exact ⟨_, _, h1⟩) hon
    (fun h => by rw [hv] at h; cases h)
    (fun j => read_ret_nonneg c.strategy c.io_size _ hS31 (fun _ => hraw j)) hdrop
  have htr := sequential_timed_reads c inner hv hS hSF hwrap ⟨_, _, h1⟩
  obtain ⟨q1, _⟩ := run_pass_reads env c inner r r1 hr1
  obtain ⟨_, _, s3, _⟩ := run_pass_summary env c inner r r1 hr1
  rw [htr] at q1 s3
  refine ⟨r1, hr1, q1, s3, fun hnd => ?_⟩
  obtain ⟨a1, a2, _⟩ := ceil_div_spec c.file_size c.io_size (by omega) hS
  refine ⟨a2, ?_⟩
  rcases Nat.lt_or_ge c.file_size (ceil_div c.file_size c.io_size * c.io_size) with hlt | hge
  · exact hlt
  · exact absurd ⟨ceil_div c.file_size c.io_size, by rw [Nat.mul_comm]; omega⟩ hnd

/-- Witness of `short_reads_tolerated`: a 10-byte file read 3 bytes at a time,
the last read returning one byte. -/
theorem short_reads_tolerated_witness :
    ∃ r1, run_pass (sample_env_with_reads fun j => if j = 3 then 1 else 3)
        (pair_config Variant.sequential false Strategy.not_cached 0 10 3 0) 5 Run.initial =
        Outcome.ok r1 ∧
      r1.io_calls = 4 := by
  obtain ⟨r1, h1, _, h3, _⟩ := short_reads_tolerated
    (sample_env_with_reads fun j => if j = 3 then 1 else 3)
    (pair_config Variant.sequential false Strategy.not_cached 0 10 3 0) 5 Run.initial
    rfl (by decide) (by decide) (by decide) (by decide) (by decide) (fun h => by cases h)
    (sample_env_with_reads_drops _)
    (fun j => by
      show (0 : Int) ≤ if j = 3 then 1 else 3
      split_ifs <;> decide)
  exact ⟨r1, h1, h3⟩

/-- C13 as stated does not hold, for two reasons.  With `F = 2 ^ 31 + 1` and
`S = 2 ^ 31` (`1 ≤ S ≤ F`, `S` does not divide `F`), a read that returns `2 ^ 31`
(all the bytes asked for, not a negative value) is stored in `int ret` as
`-2 ^ 31`: the fatal branch is taken and the process exits after the first of
the `⌈F/S⌉ = 2` reads.  With `F = 2 ^ 64 - 1` and `S = 2 ^ 63` the 64-bit loop
variable wraps, and with reads that each return `2 ^ 31 - 1` bytes the pass
never ends. -/
theorem short_reads_tolerated_counterexample :
    ((1 ≤ full_read_config.io_size ∧ full_read_config.io_size ≤ full_read_config.file_size ∧
        ¬ full_read_config.io_size ∣ full_read_config.file_size) ∧
      ceil_div full_read_config.file_size full_read_config.io_size = 2 ∧
      (∀ j, 0 ≤ (sample_env_with_reads fun _ => 2 ^ 31).read_result j) ∧
      ∃ x, run_pass (sample_env_with_reads fun _ => 2 ^ 31) full_read_config 3 Run.initial =
          Outcome.exited 0 x ∧ x.io_calls = 1) ∧
    ((1 ≤ wrap_config.io_size ∧ wrap_config.io_size ≤ wrap_config.file_size ∧
        ¬ wrap_config.io_size ∣ wrap_config.file_size) ∧
      ceil_div wrap_config.file_size wrap_config.io_size = 2 ∧
      (∀ j, 0 ≤ sample_env.read_result j) ∧
      ∀ inner r r1, run_pass sample_env wrap_config inner r ≠ Outcome.ok r1) := by
  refine ⟨⟨⟨by decide, by decide, by decide⟩, by decide,
    fun _ => (by decide : (0 : Int) ≤ 2 ^ 31), ?_⟩,
    ⟨by decide, by decide, by decide⟩, by decide,
    fun _ => (by decide : (0 : Int) ≤ 2147483647), ?_⟩
  · have hfv := sequential_for_volume (2 ^ 31 + 1) (2 ^ 31) 3 (by norm_num) (by norm_num)
      (by norm_num [ceil_div]) (by norm_num [ceil_div])
    have hfv2 : for_volume (timed_cond full_read_config) full_read_config.io_size 3 0 =
        some ((List.range (ceil_div (2 ^ 31 + 1) (2 ^ 31))).map (fun i => i * 2 ^ 31),
          ceil_div (2 ^ 31 + 1) (2 ^ 31) * 2 ^ 31) := hfv
    obtain ⟨x, hx, x1, _⟩ := run_pass_exit (sample_env_with_reads fun _ => 2 ^ 31)
      full_read_config 3 Run.initial _ _ 0 rfl hfv2
      (by rw [List.length_map, List.length_range]; norm_num [ceil_div])
      (fun h => by cases h) (fun h => by cases h) (fun i hi => by omega)
      (by
        show read_ret Strategy.not_cached (2 ^ 31) (2 ^ 31) < 0
        norm_num [read_ret, to_int])
      (sample_env_with_reads_drops _)
    exact ⟨x, hx, x1⟩
  · intro inner r r1 h
    obtain ⟨⟨vs, final, hfv⟩, _⟩ := run_pass_summary sample_env wrap_config inner r r1 h
    have hc : timed_cond wrap_config = sequential_cond (2 ^ 64 - 1) := rfl
    have hs : wrap_config.io_size = 2 ^ 63 := rfl
    rw [hc, hs, (sequential_wrap_loops inner).1] at hfv
    cases hfv

/-- C14 (as amended).  The byte count that a pass adds to the aggregate is the
number of bytes it requested, not the number of bytes its reads returned: the
final `volume`, which is `n * io_size` modulo `2 ^ 64` for the `n` reads of the
timed loop, in the random program, and `file_size` in the sequential program
(the product `experiment_count * file_size` after the increment of
`experiment_count`).  The values returned by the `n` reads add up to at most
`n * io_size`, and to `n * io_size` when every read is full. -/
theorem pass_bytes_requested (env : Env) (c : Config) (inner : Nat) (r r1 : Run)
    (h : run_pass env c inner r = Outcome.ok r1) :
    (c.variant = Variant.random →
        r1.total_volume = wadd r.total_volume (final_volume c inner) ∧
        final_volume c inner = (timed_reads c inner * c.io_size) % 2 ^ 64) ∧
      (c.variant = Variant.sequential →
        total_bytes c { r1 with experiment_count := r1.experiment_count + 1 } =
          wadd (total_bytes c r) c.file_size) ∧
      timed_reads_of r1.trace = timed_reads_of r.trace ++
        (List.range (timed_reads c inner)).map (fun i =>
          (c.io_size, read_ret c.strategy c.io_size
            (env.read_result (r.io_calls + warmup_reads c inner + i)))) ∧
      (∑ i ∈ Finset.range (timed_reads c inner),
          read_ret c.strategy c.io_size
            (env.read_result (r.io_calls + warmup_reads c inner + i))) ≤
        ((timed_reads c inner * c.io_size : Nat) : Int) ∧
      ((∀ i, i < timed_reads c inner →
          read_ret c.strategy c.io_size
            (env.read_result (r.io_calls + warmup_reads c inner + i)) = c.io_size) →
        (∑ i ∈ Finset.range (timed_reads c inner),
          read_ret c.strategy c.io_size
            (env.read_result (r.io_calls + warmup_reads c inner + i))) =
          ((timed_reads c inner * c.io_size : Nat) : Int)) := by
  obtain ⟨⟨vs, final, hfv⟩, _, _, s4, _, _, s7, _⟩ := run_pass_summary env c inner r r1 h
  obtain ⟨htr, hfin⟩ := timed_reads_eq c inner vs final hfv
  obtain ⟨q1, _⟩ := run_pass_reads env c inner r r1 h
  refine ⟨fun hv => ⟨s7 hv, ?_⟩, fun hv => ?_, q1, ?_, fun hfull => ?_⟩
  · rw [hfin, htr, for_volume_final _ _ _ _ _ _ hfv (by norm_num), Nat.zero_add]
  · simp only [total_bytes, hv, wmul, wadd, s4]
    rw [Nat.mod_add_mod, Nat.add_mul, Nat.one_mul]
  · calc (∑ i ∈ Finset.range (timed_reads c inner),
          read_ret c.strategy c.io_size
            (env.read_result (r.io_calls + warmup_reads c inner + i)))
        ≤ ∑ _i ∈ Finset.range (timed_reads c inner), (c.io_size : Int) :=
          Finset.sum_le_sum (fun i _ => read_ret_le _ _ _)
      _ = ((timed_reads c inner * c.io_size : Nat) : Int) := by
          simp
  · rw [Finset.sum_congr rfl (fun i hi => hfull i (Finset.mem_range.1 hi))]
    simp

/-- Witness of `pass_bytes_requested`: a pass of the sample experiment with reads
that return nothing. -/
theorem pass_bytes_requested_witness :
    ∃ r1, run_pass (sample_env_with_reads fun _ => 0) sample_config 4 Run.initial =
        Outcome.ok r1 ∧
      total_bytes sample_config { r1 with experiment_count := r1.experiment_count + 1 } =
        wadd (total_bytes sample_config Run.initial) sample_config.file_size := by
  obtain ⟨r1, h1⟩ := run_pass_completes (sample_env_with_reads fun _ => 0) sample_config 4
    Run.initial [0, 4, 8] 12 rfl (fun h => by cases h) (fun h => by cases h)
    (fun h => by cases h) (fun j => fread_ret_nonneg _ _ _ (by decide) (by decide))
    (sample_env_with_reads_drops _)
  exact ⟨r1, h1, (pass_bytes_requested _ _ 4 Run.initial r1 h1).2.1 rfl⟩

/-- C14 as stated does not hold: in a pass of the sample experiment (12-byte
file, 4-byte reads) whose three reads each return 0, the values returned by the
reads add up to 0 bytes, and the pass adds 12 bytes to the byte total. -/
theorem pass_bytes_requested_counterexample :
    ∃ r1, run_pass (sample_env_with_reads fun _ => 0) sample_config 4 Run.initial =
        Outcome.ok r1 ∧
      timed_reads_of r1.trace = [(4, 0), (4, 0), (4, 0)] ∧
      total_bytes sample_config { r1 with experiment_count := r1.experiment_count + 1 } =
        total_bytes sample_config Run.initial + 12 := by
  obtain ⟨r1, h1⟩ := run_pass_completes (sample_env_with_reads fun _ => 0) sample_config 4
    Run.initial [0, 4, 8] 12 rfl (fun h => by cases h) (fun h => by cases h)
    (fun h => by cases h) (fun j => fread_ret_nonneg _ _ _ (by decide) (by decide))
    (sample_env_with_reads_drops _)
  obtain ⟨q1, _⟩ := run_pass_reads _ _ 4 Run.initial r1 h1
  obtain ⟨_, _, _, s4, _⟩ := run_pass_summary _ _ 4 Run.initial r1 h1
  refine ⟨r1, h1, ?_, ?_⟩
  · rw [q1]
    rfl
  · simp only [total_bytes, sample_config, s4]
    rfl

theorem not_exited_in_drop (env : Env) (x : Run) (hdrop : drops_succeed env) :
    ¬ exited_in_drop env x := by
  rintro ⟨t, hfail, _⟩
  have := hdrop t.length
  omega

theorem not_exited_after_read (env : Env) (c : Config) (x : Run)
    (hS31 : c.io_size < 2 ^ 31)
    (hraw : c.strategy = Strategy.o_direct → ∀ j, 0 ≤ env.read_result j) :
    ¬ exited_after_read env c x := by
  rintro ⟨t, w, j, _, hneg, _⟩
  exact absurd (read_ret_nonneg c.strategy c.io_size _ hS31 (fun h => hraw h j))
    (not_le.2 hneg)

theorem read_ret_o_direct_neg (S : Nat) (raw : Int) (h : raw < 0) :
    read_ret Strategy.o_direct S raw = -1 := by
  unfold read_ret
  rw [if_pos rfl, if_pos h]

/-- C15 (as amended).  In the O_DIRECT block of both programs, for an I/O size
below `2 ^ 31`: when no read returns a negative value, the read loop of a pass
never exits, and a pass or the experiment can exit only inside
`client_cache_drop` (never, when no cache drop fails); when the `m`-th read of
the timed loop is the first that returns a negative value (and no cache drop
fails), the pass exits with status 0 right after that read and the `printf` of
the error message, having issued `m + 1` reads and no clock reading or sleep
after the failed read; and whenever the experiment exits, the status is 0 and
no result line has been written for it. -/
theorem o_direct_read_failure (env : Env) (c : Config) (hs : c.strategy = Strategy.o_direct)
    (hF : c.variant = Variant.random → c.file_size ≠ 0) (hS31 : c.io_size < 2 ^ 31) :
    ((∀ j, 0 ≤ env.read_result j) →
        ∀ inner fuel r st x,
          timed_pass env c inner r ≠ Outcome.exited st x ∧
          (run_pass env c inner r = Outcome.exited st x → exited_in_drop env x) ∧
          (experiment env c inner fuel r = Outcome.exited st x → exited_in_drop env x) ∧
          (drops_succeed env →
            run_pass env c inner r ≠ Outcome.exited st x ∧
            experiment env c inner fuel r ≠ Outcome.exited st x)) ∧
      (∀ inner r vs final m, drops_succeed env →
        for_volume (timed_cond c) c.io_size inner 0 = some (vs, final) → m < vs.length →
        (∀ i, i < m → 0 ≤ env.read_result (r.io_calls + i)) →
        env.read_result (r.io_calls + m) < 0 →
        ∃ x, run_pass env c inner r = Outcome.exited 0 x ∧
          x.io_calls = r.io_calls + m + 1 ∧
          x.clock_calls = r.clock_calls + 1 + readings_per_read c * m ∧
          (∃ t, x.trace = t ++ [Event.read false c.io_size (-1), Event.printf_read_error]) ∧
          records x.trace = records r.trace) ∧
      (∀ inner fuel r st x, experiment env c inner fuel r = Outcome.exited st x →
        st = 0 ∧ records x.trace = records r.trace ∧
          (exited_after_read env c x ∨ exited_in_drop env x)) := by
  have hoff : c.strategy.is_offline = false := by rw [hs]; rfl
  have hon : c.strategy.is_online = true → c.prefetch_param ≠ 0 := by
    intro h; rw [hs] at h; cases h
  refine ⟨fun hraw inner fuel r st x => ?_, ?_,
    fun inner fuel r st x h => experiment_exited env c inner fuel r st x h⟩
  · have hnr : ∀ y, ¬ exited_after_read env c y :=
      fun y => not_exited_after_read env c y hS31 (fun _ => hraw)
    have h2 : run_pass env c inner r = Outcome.exited st x → exited_in_drop env x := by
      intro h
      obtain ⟨_, _, h3⟩ := run_pass_exited env c inner r st x h
      exact h3.resolve_left (hnr x)
    have h3 : experiment env c inner fuel r = Outcome.exited st x → exited_in_drop env x := by
      intro h
      obtain ⟨_, _, h3⟩ := experiment_exited env c inner fuel r st x h
      exact h3.resolve_left (hnr x)
    refine ⟨fun h => ?_, h2, h3, fun hdrop => ⟨fun h => ?_, fun h => ?_⟩⟩
    · obtain ⟨_, _, h4⟩ := timed_pass_exited env c inner r st x h
      exact hnr x h4
    · exact not_exited_in_drop env x hdrop (h2 h)
    · exact not_exited_in_drop env x hdrop (h3 h)
  · intro inner r vs final m hdrop hfv hm hpre hneg
    have hret : read_ret c.strategy c.io_size (env.read_result (r.io_calls + m)) = -1 := by
      rw [hs]
      exact read_ret_o_direct_neg _ _ hneg
    obtain ⟨x, hx, x1, x2⟩ := run_pass_exit env c inner r vs final m hoff hfv hm hon hF
      (fun i hi => read_ret_nonneg c.strategy c.io_size _ hS31 (fun _ => hpre i hi))
      (by rw [hret]; decide) hdrop
    obtain ⟨_, e2, _⟩ := run_pass_exited env c inner r 0 x hx
    refine ⟨x, hx, x1, x2, ?_, e2⟩
    unfold run_pass at hx
    rcases bind_exited _ _ _ _ hx with h1 | ⟨a, _, h1⟩
    · obtain ⟨r0, h0, _⟩ := precondition_not_offline env c inner r hoff hdrop
      rw [h0] at h1
      cases h1
    · unfold timed_pass at h1
      dsimp only at h1
      rcases bind_exited _ _ _ _ h1 with h2 | ⟨b, _, h2⟩
      · have key : ∀ (fuel v : Nat) (y : Run) (st : Nat) (z : Run),
            volume_loop (timed_cond c) c.io_size (timed_body env c) fuel v y =
              Outcome.exited st z →
            ∃ t j, z.io_calls = j + 1 ∧ z.trace = t ++ [Event.read false c.io_size
              (read_ret c.strategy c.io_size (env.read_result j)),
              Event.printf_read_error] := by
          intro fuel v y st z hz
          obtain ⟨_, _, q⟩ := volume_loop_exited (timed_cond c) c.io_size (timed_body env c)
            (fun z => ∃ t j, z.io_calls = j + 1 ∧ z.trace = t ++ [Event.read false c.io_size
              (read_ret c.strategy c.io_size (env.read_result j)),
              Event.printf_read_error])
            (timed_body_records env c)
            (fun v a st b hb => by
              obtain ⟨q1, q2, _, q4, _⟩ := timed_body_exited env c v a st b hb
              refine ⟨q1, q2, ?_⟩
              unfold timed_body at hb
              rcases bind_exited _ _ _ _ hb with g1 | ⟨a1, _, g1⟩
              · exact absurd g1 (online_step_not_exited _ _ _ _ _)
              · rcases bind_exited _ _ _ _ g1 with g2 | ⟨b1, _, g2⟩
                · exact absurd g2 (random_seek_not_exited _ _ _ _ _)
                · rcases bind_exited _ _ _ _ g2 with g3 | ⟨d, _, g3⟩
                  · obtain ⟨_, _, hx3⟩ := do_read_exited env c false b1 st b g3
                    exact ⟨b1.trace, b1.io_calls, by rw [hx3], by rw [hx3]⟩
                  · cases g3)
            fuel v y st z hz
          exact q
        obtain ⟨t2, j2, k1, k2⟩ := key _ _ _ _ _ h2
        have hj2 : j2 = r.io_calls + m := by omega
        subst hj2
        rw [hret] at k2
        exact ⟨t2, k2⟩
      · cases hv : c.variant <;> rw [hv] at h2 <;> cases h2

/-- Witness of `o_direct_read_failure`: in the sample O_DIRECT experiment the
second read fails, and the pass exits after two reads. -/
theorem o_direct_read_failure_witness :
    ∃ x, run_pass (sample_env_with_reads fun j => if j = 1 then -1 else 4)
        sample_o_direct_config 4 Run.initial = Outcome.exited 0 x ∧
      x.io_calls = 2 := by
  obtain ⟨x, h1, h2, _⟩ :=
    (o_direct_read_failure (sample_env_with_reads fun j => if j = 1 then -1 else 4)
      sample_o_direct_config rfl (fun h => by cases h) (by decide)).2.1 4 Run.initial
      [0, 4, 8] 12 1 (sample_env_with_reads_drops _) rfl (by decide)
      (fun i hi => by
        have : i = 0 := by omega
        subst this
        decide)
      (by decide)
  exact ⟨x, h1, h2⟩

/-- C15 as stated does not hold: in the sample O_DIRECT experiment, when the
process cannot open `/proc/sys/vm/drop_caches`, every read would return a value
that is not negative, and the pass ends the process with `exit(0)` in
`client_cache_drop`, before its first read. -/
theorem o_direct_read_failure_counterexample :
    (∀ j, 0 ≤ sample_env_drop_fails.read_result j) ∧
      ∃ x, run_pass sample_env_drop_fails sample_o_direct_config 4 Run.initial =
          Outcome.exited 0 x ∧ x.io_calls = 0 := by
  refine ⟨fun _ => (by decide : (0 : Int) ≤ 2147483647), ?_⟩
  obtain ⟨x, h1, h2, _⟩ := run_pass_drop_fails sample_env_drop_fails sample_o_direct_config 4
    Run.initial (fun _ => (by decide : (-1 : Int) < 0))
  exact ⟨x, h1, h2⟩

/-! ### The output file, the cache drop, and the result line -/

/-- C16 (the code does not do this).  In the sequential program the test
`log_file < 0` is never true, so when `fopen` fails (null pointer, address 0)
`main` reports nothing, does not exit, and goes on to call the four benchmark
functions. -/
theorem main_sequential_open_failure (lustre : Bool) (log_file : Nat) :
    open_failure_test Variant.sequential log_file = false ∧
      main Variant.sequential lustre 0 =
        [MainCall.fopen (if lustre then "output-lustre.csv" else "output.csv"),
          MainCall.perform_baseline_benchmark, MainCall.perform_offline_prefetch_benchmark,
          MainCall.perform_jit_prefetch_benchmark, MainCall.perform_online_prefetch_benchmark,
          MainCall.fclose] ∧
      MainCall.exit 0 ∉ main Variant.sequential lustre 0 ∧
      MainCall.printf_open_error ∉ main Variant.sequential lustre 0 := by
  cases lustre <;> simp [open_failure_test, main]

/-- C17 (as amended).  In the random program the test `log_file <= 0` is true
exactly for the null pointer: when `fopen` fails, `main` reports the error and
exits with status 0 before any benchmark function is called; when it succeeds,
`main` calls the two benchmark functions and closes the file. -/
theorem main_random_open_failure (lustre : Bool) (log_file : Nat) :
    (open_failure_test Variant.random log_file = true ↔ log_file = 0) ∧
      main Variant.random lustre 0 =
        [MainCall.fopen (if lustre then "output-lustre.csv" else "output.csv"),
          MainCall.printf_open_error, MainCall.exit 0] ∧
      (log_file ≠ 0 →
        main Variant.random lustre log_file =
          [MainCall.fopen (if lustre then "output-lustre.csv" else "output.csv"),
            MainCall.perform_baseline_benchmark, MainCall.perform_offline_prefetch_benchmark,
            MainCall.fclose]) := by
  refine ⟨by simp [open_failure_test], by cases lustre <;> simp [open_failure_test, main], ?_⟩
  intro h
  cases lustre <;> simp [open_failure_test, main, h]

/-- C17 as stated does not hold: when `fopen` returns the null pointer in the
random program, the fatal path is taken and no benchmark function is called. -/
theorem main_random_open_failure_counterexample :
    main Variant.random false 0 =
        [MainCall.fopen "output.csv", MainCall.printf_open_error, MainCall.exit 0] ∧
      MainCall.perform_baseline_benchmark ∉ main Variant.random false 0 := by
  decide

/-- C18.  For every call of `client_cache_drop`: when `open` returns a negative
descriptor or `write` returns a negative value, the call ends with `exit(0)`,
having issued no pressure read and only the first `sync`; otherwise it performs,
in this order, `sync`, the `open`, the one-byte `write` of "3", `close`, in the
build without Lustre the 1024 reads of 4194304 bytes, and `sync`, and it returns
whatever the pressure reads return. -/
theorem client_cache_drop_calls (lustre : Bool) (fd2 ret : Int) (reads : Nat → Int) :
    (fd2 < 0 →
        client_cache_drop lustre fd2 ret reads =
          [DropCall.sync, DropCall.open_drop_caches, DropCall.printf_open_error,
            DropCall.exit 0]) ∧
      (0 ≤ fd2 → ret < 0 →
        client_cache_drop lustre fd2 ret reads =
          [DropCall.sync, DropCall.open_drop_caches, DropCall.write "3" 1,
            DropCall.printf_write_error, DropCall.exit 0]) ∧
      (0 ≤ fd2 → 0 ≤ ret →
        client_cache_drop lustre fd2 ret reads =
          [DropCall.sync, DropCall.open_drop_caches, DropCall.write "3" 1, DropCall.close] ++
            (if lustre then []
              else [DropCall.malloc 4194304] ++ pressure_reads reads ++ [DropCall.free]) ++
            [DropCall.sync] ∧
        (∀ st, DropCall.exit st ∉ client_cache_drop lustre fd2 ret reads) ∧
        ((client_cache_drop lustre fd2 ret reads).filter DropCall.is_read).length =
          (if lustre then 0 else 1024)) ∧
      ((fd2 < 0 ∨ ret < 0) →
        (client_cache_drop lustre fd2 ret reads).getLast? = some (DropCall.exit 0) ∧
        (client_cache_drop lustre fd2 ret reads).filter DropCall.is_read = [] ∧
        (client_cache_drop lustre fd2 ret reads).count DropCall.sync = 1) ∧
      pressure_reads reads =
        (List.range 1024).map (fun i => DropCall.read 4194304 (reads i)) := by
  have hreads : ∀ l : List Nat,
      (l.map fun i => DropCall.read SECONDARY_IO_SIZE (reads i)).filter DropCall.is_read =
        l.map fun i => DropCall.read SECONDARY_IO_SIZE (reads i) := by
    intro l
    induction l with
    | nil => rfl
    | cons a l ih => simp [List.filter_cons, DropCall.is_read]
  have hfilter : (pressure_reads reads).filter DropCall.is_read = pressure_reads reads :=
    hreads _
  have hlen : (pressure_reads reads).length = 1024 := by
    unfold pressure_reads
    rw [List.length_map, List.length_range]
    rfl
  have hnoexit : ∀ st, DropCall.exit st ∉ pressure_reads reads := by
    intro st h
    unfold pressure_reads at h
    rw [List.mem_map] at h
    obtain ⟨_, _, h⟩ := h
    cases h
  refine ⟨fun h1 => ?_, fun h1 h2 => ?_, fun h1 h2 => ?_, fun h => ?_, rfl⟩
  · simp [client_cache_drop, h1]
  · simp [client_cache_drop, not_lt.2 h1, h2]
  · have e : client_cache_drop lustre fd2 ret reads =
        [DropCall.sync, DropCall.open_drop_caches, DropCall.write "3" 1, DropCall.close] ++
          (if lustre then []
            else [DropCall.malloc 4194304] ++ pressure_reads reads ++ [DropCall.free]) ++
          [DropCall.sync] := by
      unfold client_cache_drop SECONDARY_IO_SIZE
      rw [if_neg (not_lt.2 h1), if_neg (not_lt.2 h2)]
      cases lustre <;> rfl
    refine ⟨e, ?_, ?_⟩
    · intro st hmem
      rw [e] at hmem
      have hne := hnoexit st
      generalize pressure_reads reads = X at hmem hne
      cases lustre
      · simp at hmem
        exact hne hmem
      · simp at hmem
    · rw [e]
      cases lustre
      · simp only [Bool.false_eq_true, if_false, List.filter_append, hfilter,
          List.length_append, hlen]
        rfl
      · rfl
  · generalize pressure_reads reads = X
    by_cases h1 : fd2 < 0
    · simp [client_cache_drop, h1, DropCall.is_read]
    · have h2 : ret < 0 := by
        rcases h with h | h
        · exact absurd h h1
        · exact h
      simp [client_cache_drop, h1, h2, DropCall.is_read]

/-- C19 (the code does not do this).  In every result line of a just-in-time or
online block the formatter gets seven arguments for six conversion specifiers:
the prefetch parameter is passed twice, so the specifier `%.3f` of
`throughput_gb_per_second` is paired with the second copy of the prefetch
parameter, an integer, and the throughput is a seventh argument that no
specifier consumes.  The result lines of the other blocks are well formed. -/
theorem record_arguments (c : Config) (r : Run) :
    (c.strategy.is_jit = true →
        (record_call c r).well_formed = false ∧
        (record_call c r).conversions.length = 6 ∧ (record_call c r).args.length = 7 ∧
        (record_call c r).conversions.get? 5 = some Conv.f3 ∧
        (record_call c r).args.get? 5 = some (Arg.int (to_int c.prefetch_param)) ∧
        (record_call c r).args.get? 6 =
          some (Arg.throughput (total_bytes c r) r.read_duration)) ∧
      (c.strategy.is_online = true →
        (record_call c r).well_formed = false ∧
        (record_call c r).conversions.length = 6 ∧ (record_call c r).args.length = 7 ∧
        (record_call c r).conversions.get? 5 = some Conv.f3 ∧
        (record_call c r).args.get? 5 = some (Arg.u64 c.prefetch_param) ∧
        (record_call c r).args.get? 6 =
          some (Arg.throughput (total_bytes c r) r.read_duration)) ∧
      (c.strategy.is_jit = false → c.strategy.is_online = false →
        (record_call c r).well_formed = true) := by
  refine ⟨fun hj => ?_, fun ho => ?_, fun hj ho => ?_⟩
  · simp [record_call, hj, RecordCall.well_formed, Arg.fits]
  · have hj : c.strategy.is_jit = false := by
      cases hs : c.strategy <;> rw [hs] at ho <;> first | rfl | cases ho
    simp [record_call, hj, ho, RecordCall.well_formed, Arg.fits]
  · simp [record_call, hj, ho, RecordCall.well_formed, Arg.fits]

/-! ### Online prefetching -/

theorem prefetch_calls_of_append (a b : List Event) :
    prefetch_calls_of (a ++ b) = prefetch_calls_of a ++ prefetch_calls_of b := by
  unfold prefetch_calls_of
  exact List.filter_append _ _

theorem online_prefetch_calls (s : Strategy) (v p : Nat) :
    prefetch_calls_of (online_prefetch s v p) = online_prefetch s v p ∧
      (s.is_online = true → online_prefetch s v p ≠ []) ∧
      ∀ e, e ∈ online_prefetch s v p →
        e = Event.client_cache_prefetch v p ∨ e = Event.server_cache_prefetch v p ∨
          e = Event.aio_prefetch v p := by
  cases s <;> simp [online_prefetch, prefetch_calls_of, Strategy.is_online]

theorem pacing_events_prefetch (env : Env) (c : Config) (k : Nat) :
    prefetch_calls_of (if c.io_interarrival_time_ns ≠ 0
      then [Event.get_timestamp_us (reading env k), Event.nsleep c.io_interarrival_time_ns,
            Event.get_timestamp_us (reading env (k + 1))]
      else []) = [] := by
  split_ifs <;> rfl

theorem body_events_prefetch (env : Env) (c : Config) (v k io g : Nat)
    (hon : c.strategy.is_online = true) :
    prefetch_calls_of (body_events env c v k io g) =
      if v % c.prefetch_param = 0 then online_prefetch c.strategy v c.prefetch_param
      else [] := by
  unfold body_events
  simp only [prefetch_calls_of_append, pacing_events_prefetch, List.append_nil]
  have h2 : prefetch_calls_of (match c.variant with
      | Variant.sequential => []
      | Variant.random =>
        [Event.seek ((random_offset (env.rand g).1 c.file_size).getD 0)]) = [] := by
    cases c.variant <;> rfl
  have h3 : ∀ ret, prefetch_calls_of [Event.read false c.io_size ret] = [] := fun _ => rfl
  rw [h2, h3, List.append_nil, List.append_nil]
  by_cases hm : v % c.prefetch_param = 0
  · rw [if_pos ⟨hon, hm⟩, if_pos hm]
    exact (online_prefetch_calls _ _ _).1
  · rw [if_neg (fun h => hm h.2), if_neg hm]
    rfl

theorem timed_events_prefetch (env : Env) (c : Config) (hon : c.strategy.is_online = true) :
    ∀ (vs : List Nat) (k io g : Nat),
      prefetch_calls_of (timed_events env c vs k io g) =
        prefetch_schedule c.strategy c.prefetch_param vs := by
  intro vs
  induction vs with
  | nil => intro k io g; rfl
  | cons v vs ih =>
    intro k io g
    rw [timed_events, prefetch_calls_of_append, ih, body_events_prefetch env c v k io g hon,
      prefetch_schedule]

theorem precondition_events_prefetch (env : Env) (c : Config) (n io : Nat)
    (hon : c.strategy.is_online = true) :
    prefetch_calls_of (precondition_events env c n io) = [] := by
  unfold precondition_events
  rw [prefetch_calls_of_append, prefetch_calls_of_append, prefetch_calls_of_append]
  have h1 : prefetch_calls_of
      (if c.lustre = true then [Event.server_cache_evict 0 c.file_size] else []) = [] := by
    split_ifs <;> rfl
  have h2 : prefetch_calls_of (reseed_events c.variant) = [] := by
    cases c.variant <;> rfl
  have h3 : prefetch_calls_of (preparation_events env c n io) = [] := by
    unfold preparation_events
    cases hs : c.strategy <;> rw [hs] at hon <;> first | rfl | cases hon
  rw [h1, h2, h3]
  rfl

/-- C20.  In an online block of the sequential program with a prefetch stride
`P ≥ 1`: the iteration at offset `v`, when its read does not fail, issues the
block's prefetch calls if and only if `v mod P = 0`; they are calls for the
range of `P` bytes that starts at `v`, they come before the iteration's read,
and nothing after the read is a prefetch call.  Over a pass, the prefetch calls
are those of the loop values that are multiples of `P`, in order. -/
theorem online_prefetch_rule (env : Env) (c : Config)
    (hon : c.strategy.is_online = true) (hv : c.variant = Variant.sequential)
    (hP : 1 ≤ c.prefetch_param) :
    (∀ v x, 0 ≤ read_ret c.strategy c.io_size (env.read_result x.io_calls) →
        ∃ x1 post, timed_body env c v x = Outcome.ok x1 ∧
          x1.trace = x.trace ++
            (if v % c.prefetch_param = 0 then online_prefetch c.strategy v c.prefetch_param
              else []) ++
            Event.read false c.io_size
              (read_ret c.strategy c.io_size (env.read_result x.io_calls)) :: post ∧
          prefetch_calls_of post = []) ∧
      (∀ v, online_prefetch c.strategy v c.prefetch_param ≠ [] ∧
        ∀ e, e ∈ online_prefetch c.strategy v c.prefetch_param →
          e = Event.client_cache_prefetch v c.prefetch_param ∨
          e = Event.server_cache_prefetch v c.prefetch_param ∨
          e = Event.aio_prefetch v c.prefetch_param) ∧
      (∀ inner r r1, run_pass env c inner r = Outcome.ok r1 →
        ∃ vs final, for_volume (timed_cond c) c.io_size inner 0 = some (vs, final) ∧
          prefetch_calls_of r1.trace =
            prefetch_calls_of r.trace ++ prefetch_schedule c.strategy c.prefetch_param vs) := by
  refine ⟨fun v x hret => ?_, fun v => ?_, fun inner r r1 h => ?_⟩
  · obtain ⟨x1, h1⟩ := timed_body_completes env c v x (fun _ => by omega)
      (fun h => by rw [hv] at h; cases h) hret
    obtain ⟨t1, _⟩ := timed_body_trace env c v x x1 h1
    refine ⟨x1, _, h1, ?_, pacing_events_prefetch env c x.clock_calls⟩
    rw [t1]
    unfold body_events
    rw [hv]
    simp only [List.append_nil, List.append_assoc, List.singleton_append, hon, true_and]
  · exact ⟨(online_prefetch_calls _ _ _).2.1 hon, (online_prefetch_calls _ _ _).2.2⟩
  · obtain ⟨n_warm, vs, final, hfv, _, _, htrace, _⟩ := run_pass_shape env c inner r r1 h
    refine ⟨vs, final, hfv, ?_⟩
    rw [htrace]
    simp only [prefetch_calls_of_append, precondition_events_prefetch env c _ _ hon,
      List.append_nil]
    have e : ∀ (k : Nat) (l : List Event),
        prefetch_calls_of (Event.get_timestamp_us k :: l) = prefetch_calls_of l := by
      intro k l; rfl
    rw [e, prefetch_calls_of_append, timed_events_prefetch env c hon]
    have e2 : ∀ k, prefetch_calls_of [Event.get_timestamp_us k] = [] := fun _ => rfl
    rw [e2, List.append_nil]

/-- Witness of `online_prefetch_rule`: a pass of the sample online experiment
(12-byte file, 4-byte reads, a prefetch every 8 bytes) prefetches at offsets 0
and 8. -/
theorem online_prefetch_rule_witness :
    ∃ r1, run_pass sample_env sample_online_config 4 Run.initial = Outcome.ok r1 ∧
      prefetch_calls_of r1.trace =
        [Event.client_cache_prefetch 0 8, Event.client_cache_prefetch 8 8] := by
  have hfv0 : for_volume (timed_cond sample_online_config) sample_online_config.io_size 4 0 =
      some ([0, 4, 8], 12) := rfl
  obtain ⟨r1, h1⟩ := run_pass_completes sample_env sample_online_config 4 Run.initial
    [0, 4, 8] 12 hfv0 (fun h => by cases h) (fun _ => by decide) (fun h => by cases h)
    (fun j => fread_ret_nonneg _ _ _ (by decide) (by decide)) sample_env_drops
  obtain ⟨vs, final, hfv, hp⟩ :=
    (online_prefetch_rule sample_env sample_online_config rfl rfl (by decide)).2.2 4
      Run.initial r1 h1
  rw [hfv0] at hfv
  cases hfv
  refine ⟨r1, h1, ?_⟩
  rw [hp]
  rfl

/-! ### The advisory calls, the open call, the columns -/

/-- C27 (the code does not do this).  The block whose result lines are labelled
`O_DIRECT` opens the target file with `open(TARGET_FILE, O_RDONLY, O_DIRECT | O_SYNC)`:
the flags argument is `O_RDONLY` alone, and `O_DIRECT` is in the third argument,
the file mode. -/
theorem o_direct_open_flags (lustre : Bool) :
    Strategy.o_direct.label = "O_DIRECT" ∧
      (o_direct_open lustre).flags = [OpenFlag.O_RDONLY] ∧
      OpenFlag.O_DIRECT ∉ (o_direct_open lustre).flags ∧
      OpenFlag.O_DIRECT ∈ (o_direct_open lustre).mode := by
  refine ⟨rfl, rfl, ?_, ?_⟩ <;> simp [o_direct_open]

/-- C25 (the code does not do this).  In every result line the argument of the
conversion named `interarrival_time_us` is `io_interarrival_time_ns`, the
delay in nanoseconds, not divided by 1000: the column holds the number of
microseconds only when the delay is 0. -/
theorem interarrival_column (c : Config) (r : Run) :
    (column_names c.strategy).get? 2 = some "interarrival_time_us" ∧
      (record_call c r).conversions.get? 2 = some Conv.llu ∧
      (record_call c r).args.get? 2 = some (Arg.u64 c.io_interarrival_time_ns) ∧
      (c.io_interarrival_time_ns / 1000 = c.io_interarrival_time_ns ↔
        c.io_interarrival_time_ns = 0) ∧
      (column_names c.strategy).length = (record_call c r).conversions.length := by
  refine ⟨?_, ?_, ?_, by omega, ?_⟩
  · unfold column_names
    split_ifs <;> rfl
  · unfold record_call
    split_ifs <;> rfl
  · unfold record_call
    split_ifs <;> rfl
  · unfold column_names record_call
    split_ifs <;> rfl

/-! ### The range of the random offsets -/

theorem random_offset_value (r F : Nat) (hF : 1 ≤ F) :
    random_offset r F = some (r / (RAND_MAX / F + 1)) := by
  have hq : RAND_MAX / F ≤ RAND_MAX := Nat.div_le_self _ _
  have hw : wadd (RAND_MAX / F) 1 = RAND_MAX / F + 1 := by
    unfold wadd
    apply Nat.mod_eq_of_lt
    unfold RAND_MAX at hq ⊢
    norm_num
    omega
  unfold random_offset
  rw [if_neg (by omega), hw, if_neg (Nat.succ_ne_zero _)]

theorem random_offset_cover_iff (F : Nat) (hF : 1 ≤ F) :
    (∀ o, o < F → ∃ r, r ≤ RAND_MAX ∧ random_offset r F = some o) ↔
      (F - 1) * (RAND_MAX / F + 1) ≤ RAND_MAX := by
  constructor
  · intro h
    obtain ⟨r, hr, ho⟩ := h (F - 1) (by omega)
    rw [random_offset_value r F hF] at ho
    simp only [Option.some.injEq] at ho
    have := Nat.div_mul_le_self r (RAND_MAX / F + 1)
    rw [ho] at this
    omega
  · intro h o ho
    refine ⟨o * (RAND_MAX / F + 1), ?_, ?_⟩
    · have : o * (RAND_MAX / F + 1) ≤ (F - 1) * (RAND_MAX / F + 1) :=
        Nat.mul_le_mul_right _ (by omega)
      omega
    · rw [random_offset_value _ F hF, Nat.mul_div_cancel _ (Nat.succ_pos _)]

/-- C24 (as amended).  For a file size `F ≥ 1` (in particular for
`1 ≤ F ≤ RAND_MAX + 1`), every offset below `F` is the offset of some draw in
`[0, RAND_MAX]` if and only if `(F - 1) * (RAND_MAX / F + 1) ≤ RAND_MAX`; this
holds for the configured file size `2 ^ 30` of the random program, whose
offsets cover `[0, 2 ^ 30)`. -/
theorem random_offsets_cover (F : Nat) (hF : 1 ≤ F) :
    ((∀ o, o < F → ∃ r, r ≤ RAND_MAX ∧ random_offset r F = some o) ↔
        (F - 1) * (RAND_MAX / F + 1) ≤ RAND_MAX) ∧
      (∀ G, G ∈ file_sizes Variant.random →
        ∀ o, o < G → ∃ r, r ≤ RAND_MAX ∧ random_offset r G = some o) := by
  refine ⟨random_offset_cover_iff F hF, ?_⟩
  intro G hG
  simp only [file_sizes, List.mem_singleton] at hG
  subst hG
  exact (random_offset_cover_iff _ (by norm_num)).2 (by norm_num [RAND_MAX])

/-- Witness of `random_offsets_cover`: for the configured file size `2 ^ 30` the
last offset, `2 ^ 30 - 1`, is the offset of some draw. -/
theorem random_offsets_cover_witness :
    ∃ r, r ≤ RAND_MAX ∧ random_offset r (2 ^ 30) = some (2 ^ 30 - 1) :=
  (random_offsets_cover (2 ^ 30) (by norm_num)).1.2 (by norm_num [RAND_MAX]) (2 ^ 30 - 1)
    (by norm_num)

/-- C24 as stated does not hold: for `F = 2 ^ 30 + 1`, which is at most
`RAND_MAX + 1`, the divisor is 2 and no draw gives the offset `2 ^ 30`. -/
theorem random_offsets_cover_counterexample :
    1 ≤ 2 ^ 30 + 1 ∧ 2 ^ 30 + 1 ≤ RAND_MAX + 1 ∧ 2 ^ 30 < 2 ^ 30 + 1 ∧
      ¬ ∃ r, r ≤ RAND_MAX ∧ random_offset r (2 ^ 30 + 1) = some (2 ^ 30) := by
  refine ⟨by norm_num, by norm_num [RAND_MAX], by norm_num, ?_⟩
  rintro ⟨r, hr, ho⟩
  rw [random_offset_value r _ (by norm_num)] at ho
  simp only [Option.some.injEq] at ho
  have hd : RAND_MAX / (2 ^ 30 + 1) + 1 = 2 := by norm_num [RAND_MAX]
  rw [hd] at ho
  unfold RAND_MAX at hr
  norm_num at ho
  omega

/-! ### The result of fread -/

/-- C28.  In every block but the O_DIRECT one, for every I/O size below
`2 ^ 31` and every result of `fread` (an item count, between 0 and `io_size`
even when the read fails), the `int ret` is the count itself, so it is never
negative: the read ends normally with the same calls as a short read, and the
fatal branch of a read is never taken: neither a warm-up loop nor a timed loop
ever exits, and a pass or an experiment can exit only inside
`client_cache_drop`, hence never when no cache drop fails. -/
theorem fread_never_fatal (env : Env) (c : Config) (hs : c.strategy ≠ Strategy.o_direct)
    (hS : c.io_size < 2 ^ 31) :
    (∀ raw, 0 ≤ read_ret c.strategy c.io_size raw ∧
        read_ret c.strategy c.io_size raw ≤ c.io_size) ∧
      (∀ raw : Int, 0 ≤ raw → raw ≤ c.io_size → read_ret c.strategy c.io_size raw = raw) ∧
      (∀ w r, do_read env c w r = Outcome.ok
        { r with io_calls := r.io_calls + 1,
                 trace := r.trace ++ [Event.read w c.io_size
                   (read_ret c.strategy c.io_size (env.read_result r.io_calls))] }) ∧
      (∀ inner fuel r st x,
        warm_up env c inner r ≠ Outcome.exited st x ∧
        timed_pass env c inner r ≠ Outcome.exited st x ∧
        (run_pass env c inner r = Outcome.exited st x → exited_in_drop env x) ∧
        (experiment env c inner fuel r = Outcome.exited st x → exited_in_drop env x) ∧
        (drops_succeed env →
          run_pass env c inner r ≠ Outcome.exited st x ∧
          experiment env c inner fuel r ≠ Outcome.exited st x)) := by
  have hnn : ∀ raw, 0 ≤ read_ret c.strategy c.io_size raw :=
    fun raw => fread_ret_nonneg _ _ raw hs hS
  have hnr : ∀ y, ¬ exited_after_read env c y :=
    fun y => not_exited_after_read env c y hS (fun h => absurd h hs)
  refine ⟨fun raw => ⟨hnn raw, read_ret_le _ _ _⟩, fun raw h0 h1 => ?_, fun w r => ?_,
    fun inner fuel r st x => ?_⟩
  · unfold read_ret
    rw [if_neg hs, max_eq_left h0, min_eq_left h1]
    exact to_int_of_small _ h0 (by norm_num at hS ⊢; omega)
  · unfold do_read
    dsimp only
    rw [if_neg (not_lt.2 (hnn _))]
  · have h2 : run_pass env c inner r = Outcome.exited st x → exited_in_drop env x := by
      intro h
      obtain ⟨_, _, h3⟩ := run_pass_exited env c inner r st x h
      exact h3.resolve_left (hnr x)
    have h3 : experiment env c inner fuel r = Outcome.exited st x → exited_in_drop env x := by
      intro h
      obtain ⟨_, _, h3⟩ := experiment_exited env c inner fuel r st x h
      exact h3.resolve_left (hnr x)
    refine ⟨fun h => ?_, fun h => ?_, h2, h3, fun hdrop => ⟨fun h => ?_, fun h => ?_⟩⟩
    · obtain ⟨_, _, h4⟩ := warm_up_exited env c inner r st x h
      exact hnr x h4
    · obtain ⟨_, _, h4⟩ := timed_pass_exited env c inner r st x h
      exact hnr x h4
    · exact not_exited_in_drop env x hdrop (h2 h)
    · exact not_exited_in_drop env x hdrop (h3 h)

/-- Witness of `fread_never_fatal`: the sample experiment, with an `fread` that
returns 0. -/
theorem fread_never_fatal_witness :
    0 ≤ read_ret sample_config.strategy sample_config.io_size 0 ∧
      read_ret sample_config.strategy sample_config.io_size 0 ≤ sample_config.io_size :=
  (fread_never_fatal sample_env sample_config (by decide) (by decide)).1 0

/-! ### A clock that steps back -/

/-- C30.  The budget test subtracts in `uint64_t`: when the reading at a test
is `d` below `t0`, with `0 < d ≤ 2 ^ 64 - 15000000`, the difference is
`2 ^ 64 - d`, at least the budget, and the campaign loop is left at that test.
When this is the first test of an experiment, the experiment ends normally with
no pass and no read, `experiment_count`, `read_duration` and the byte total are
0, and the throughput of its result line is computed from 0 bytes and a
duration of 0. -/
theorem budget_wrap (env : Env) (c : Config) (inner fuel : Nat) (r : Run) (d : Nat)
    (hd0 : 0 < d) (hd : d ≤ 2 ^ 64 - 15000000)
    (hback : reading env (r.clock_calls + 1) + d = reading env r.clock_calls)
    (hfuel : 1 ≤ fuel) :
    (∀ (t0 : Nat) (x : Run) (f : Nat), t0 < 2 ^ 64 → reading env x.clock_calls + d = t0 →
        wsub (reading env x.clock_calls) t0 = 2 ^ 64 - d ∧
        DURATION_PER_EXPERIMENT_US ≤ 2 ^ 64 - d ∧
        campaign env c inner t0 (f + 1) x = Outcome.ok (get_timestamp_us env x).2) ∧
      ∃ r1, experiment env c inner fuel r = Outcome.ok r1 ∧
        r1.experiment_count = 0 ∧ r1.io_calls = r.io_calls ∧ r1.read_duration = 0 ∧
        total_bytes c r1 = 0 ∧
        (record_call c r1).args.getLast? = some (Arg.throughput 0 0) ∧
        records r1.trace = records r.trace ++ [record_call c r1] := by
  have key : ∀ (t0 : Nat) (x : Run) (f : Nat), t0 < 2 ^ 64 →
      reading env x.clock_calls + d = t0 →
      wsub (reading env x.clock_calls) t0 = 2 ^ 64 - d ∧
      DURATION_PER_EXPERIMENT_US ≤ 2 ^ 64 - d ∧
      campaign env c inner t0 (f + 1) x = Outcome.ok (get_timestamp_us env x).2 := by
    intro t0 x f ht0 hx
    have hw : wsub (reading env x.clock_calls) t0 = 2 ^ 64 - d := by
      unfold wsub
      norm_num at ht0 hd ⊢
      omega
    have hb : DURATION_PER_EXPERIMENT_US ≤ 2 ^ 64 - d := by
      unfold DURATION_PER_EXPERIMENT_US
      norm_num at hd ⊢
      omega
    refine ⟨hw, hb, ?_⟩
    rw [campaign]
    simp only [get_timestamp_us]
    rw [hw, if_neg (not_lt.2 hb)]
  refine ⟨key, ?_⟩
  obtain ⟨f, rfl⟩ : ∃ f, fuel = f + 1 := ⟨fuel - 1, by omega⟩
  have hc := (key (reading env r.clock_calls) (campaign_start env c r) f (reading_lt _ _)
    (by simpa [campaign_start, get_timestamp_us, Run.emit] using hback)).2.2
  have hex : ∃ r1, experiment env c inner (f + 1) r = Outcome.ok r1 ∧
      r1.experiment_count = 0 ∧ r1.io_calls = r.io_calls ∧ r1.read_duration = 0 ∧
      r1.total_volume = 0 := by
    rw [experiment_eq, hc]
    by_cases hs : c.strategy = Strategy.o_direct
    · simp only [Outcome.bind, if_pos hs]
      exact ⟨_, rfl, rfl, rfl, rfl, rfl⟩
    · simp only [Outcome.bind, if_neg hs]
      exact ⟨_, rfl, rfl, rfl, rfl, rfl⟩
  obtain ⟨r1, h1, e1, e2, e3, e4⟩ := hex
  obtain ⟨_, _, _, _, _, _, _, _, _, a10⟩ := experiment_passes env c inner (f + 1) r r1 h1
  have htb : total_bytes c r1 = 0 := by
    unfold total_bytes
    cases c.variant with
    | sequential => simp [wmul, e1]
    | random => exact e4
  refine ⟨r1, h1, e1, e2, e3, htb, ?_, a10⟩
  unfold record_call
  rw [htb, e3]
  split_ifs <;> simp

/-- Witness of `budget_wrap`: the clock reads 20 s when `t0` is taken and 0 s at
the first budget test. -/
theorem budget_wrap_witness :
    ∃ r1, experiment (sample_env_with_clock stepped_back_clock) sample_config 4 1
        Run.initial = Outcome.ok r1 ∧
      r1.experiment_count = 0 ∧ r1.read_duration = 0 := by
  have h0 : reading (sample_env_with_clock stepped_back_clock) 0 = 20000000 := by
    have := reading_with_clock stepped_back_clock 0 (by decide) (by decide)
    simpa [stepped_back_clock] using this
  have h1 : reading (sample_env_with_clock stepped_back_clock) 1 = 0 := by
    have := reading_with_clock stepped_back_clock 1 (by decide) (by decide)
    simpa [stepped_back_clock] using this
  obtain ⟨r1, q1, q2, _, q4, _⟩ :=
    (budget_wrap (sample_env_with_clock stepped_back_clock) sample_config 4 1 Run.initial
      20000000 (by norm_num) (by norm_num)
      (by
        show reading _ 1 + 20000000 = reading _ 0
        rw [h0, h1])
      (le_refl _)).2
  exact ⟨r1, q1, q2, q4⟩

/-! ### The pressure reads -/

theorem pressure_reads_from_file (reads : Nat → Int) :
    ∀ (n j : Nat) (d : Descriptor) (pr : PressureRead),
      pr ∈ pressure_reads_from reads n j d →
      pr.file = d.file ∧ pr.size = SECONDARY_IO_SIZE ∧ d.position ≤ pr.position := by
  intro n
  induction n with
  | zero => intro j d pr h; cases h
  | succ n ih =>
    intro j d pr h
    rw [pressure_reads_from] at h
    rcases List.mem_cons.1 h with h1 | h1
    · rw [h1]
      exact ⟨rfl, rfl, le_refl _⟩
    · obtain ⟨a, b, c⟩ := ih _ _ _ h1
      exact ⟨a, b, le_trans (Nat.le_add_right _ _) c⟩

/-- C22 (the code does not do this).  The pressure reads of `client_cache_drop(fd)`
are reads from the descriptor it is given, and the runner gives it the descriptor
of the target file: every pressure read is a read of 4194304 bytes of the target
file at the position of that descriptor.  In the first pass of a run the first
of them is at position 0, so when it returns at least one byte it has read byte
0 of the measured range `[0, file_size)`. -/
theorem pressure_reads_target (reads : Nat → Int) :
    (∀ pr, pr ∈ first_drop_reads reads →
        pr.file = FileId.target_file ∧ pr.size = 4194304) ∧
      (first_drop_reads reads).head? =
        some { file := FileId.target_file, position := 0, size := 4194304, ret := reads 0 } ∧
      (∀ F : Nat, 1 ≤ F → 1 ≤ reads 0 →
        ∃ pr, pr ∈ first_drop_reads reads ∧ pr.file = FileId.target_file ∧
          ∃ b : Nat, pr.position ≤ b ∧ (b : Int) < pr.position + pr.ret ∧ b < F) := by
  have hhead : first_drop_reads reads =
      { file := FileId.target_file, position := 0, size := 4194304, ret := reads 0 } ::
        pressure_reads_from reads 1023 1
          { first_drop_descriptor with
            position := first_drop_descriptor.position + (reads 0).toNat } := by
    unfold first_drop_reads
    have e : SECONDARY_IO_COUNT = 1023 + 1 := rfl
    rw [e, pressure_reads_from]
    rfl
  refine ⟨fun pr h => ?_, ?_, fun F hF hr => ?_⟩
  · obtain ⟨a, b, _⟩ := pressure_reads_from_file reads _ _ _ pr h
    exact ⟨a, b⟩
  · rw [hhead]
    rfl
  · refine ⟨{ file := FileId.target_file, position := 0, size := 4194304, ret := reads 0 },
      ?_, rfl, 0, le_refl _, ?_, by omega⟩
    · rw [hhead]
      exact List.mem_cons_self _ _
    · simp only [Nat.cast_zero, zero_add]
      omega

/-! ### The warm-up read -/

theorem configured_random_warmup (S : Nat) (hS : S ∈ io_sizes) :
    ceil_div (1024 * 1024 * 1024) (10 * S) * S < 1024 * 1024 * 1024 ∧
      ceil_div (1024 * 1024 * 1024) (10 * S) < ceil_div (1024 * 1024 * 1024) S := by
  simp only [io_sizes, List.mem_cons, List.mem_singleton, List.not_mem_nil, or_false] at hS
  rcases hS with rfl | rfl | rfl | rfl | rfl | rfl <;>
    (refine ⟨?_, ?_⟩ <;> norm_num [ceil_div])

/-- C23 (the code does not do this in one block).  For every configured pair
that is not skipped, the warm-up loop of an offline block reads the whole file,
`⌈F/S⌉` reads of `S` bytes from offset 0 that request at least `F` bytes, except
in the "Offline client-side prefetch" block of the random program, whose
warm-up loop tests `volume<file_size*0.1`: it issues `⌈F/(10 S)⌉` reads, which
request less than `F` bytes. -/
theorem warm_up_extent (c : Config) (inner : Nat)
    (hoff : c.strategy.is_offline = true)
    (hF : c.file_size ∈ file_sizes c.variant) (hS : c.io_size ∈ io_sizes)
    (hle : c.io_size ≤ c.file_size) (hinner : 2 ^ 22 < inner) :
    ((c.variant = Variant.random ∧ c.strategy = Strategy.cached_client_side) →
        for_volume (warmup_cond c) c.io_size inner 0 =
          some ((List.range (ceil_div c.file_size (10 * c.io_size))).map
            (fun i => i * c.io_size), ceil_div c.file_size (10 * c.io_size) * c.io_size) ∧
        warmup_reads c inner = ceil_div c.file_size (10 * c.io_size) ∧
        ceil_div c.file_size (10 * c.io_size) * c.io_size < c.file_size ∧
        ceil_div c.file_size (10 * c.io_size) < ceil_div c.file_size c.io_size) ∧
      (¬ (c.variant = Variant.random ∧ c.strategy = Strategy.cached_client_side) →
        for_volume (warmup_cond c) c.io_size inner 0 =
          some ((List.range (ceil_div c.file_size c.io_size)).map
            (fun i => i * c.io_size), ceil_div c.file_size c.io_size * c.io_size) ∧
        warmup_reads c inner = ceil_div c.file_size c.io_size ∧
        c.file_size ≤ ceil_div c.file_size c.io_size * c.io_size) := by
  have hseq : c.file_size ∈ file_sizes Variant.sequential := by
    cases hv : c.variant with
    | sequential => rw [hv] at hF; exact hF
    | random =>
      rw [hv] at hF
      simp only [file_sizes, List.mem_singleton] at hF
      rw [hF]
      simp [file_sizes]
  obtain ⟨c1, c2, c3, c4, c5⟩ := configured_sizes _ _ hseq hS hle
  have hfs := sequential_for_volume c.file_size c.io_size inner c1 hle
    (by rw [c3]; norm_num at c4 ⊢; omega) (by omega)
  have hreads : ∀ vs final, for_volume (warmup_cond c) c.io_size inner 0 = some (vs, final) →
      warmup_reads c inner = vs.length := by
    intro vs final h
    unfold warmup_reads
    rw [if_pos hoff, h]
  constructor
  · rintro ⟨hv, hs⟩
    rw [hv] at hF
    simp only [file_sizes, List.mem_singleton] at hF
    obtain ⟨d1, d2, d3⟩ := configured_random_sizes _ hS
    obtain ⟨w1, w2⟩ := configured_random_warmup _ hS
    have hfr := random_for_volume c.file_size c.io_size inner (by rw [hF]; norm_num)
      (by rw [hF]; norm_num) c1 (by norm_num at c2 ⊢; omega) (by rw [hF]; omega)
    have hw : warmup_cond c = random_cond c.file_size := by
      unfold warmup_cond; rw [hv, hs]
    rw [hw]
    refine ⟨hfr, ?_, by rw [hF]; exact w1, by rw [hF]; exact w2⟩
    rw [hreads _ _ (by rw [hw]; exact hfr)]
    simp
  · intro hne
    have hw : warmup_cond c = sequential_cond c.file_size := by
      unfold warmup_cond
      cases hv : c.variant with
      | sequential => rfl
      | random =>
        cases hs2 : c.strategy <;> first | rfl | exact absurd ⟨hv, hs2⟩ hne
    rw [hw]
    refine ⟨hfs, ?_, by rw [c3]⟩
    rw [hreads _ _ (by rw [hw]; exact hfs)]
    simp

/-- Witness of `warm_up_extent`: the "Offline client-side prefetch" block of the
random program on the 1 GiB file read 4 KiB at a time warms up with 26215
reads, a tenth of the file. -/
theorem warm_up_extent_witness :
    warmup_reads
        (pair_config Variant.random true Strategy.cached_client_side 0 (1024 * 1024 * 1024)
          (4 * 1024) 0) (2 ^ 22 + 1) = 26215 ∧
      26215 * (4 * 1024) < 1024 * 1024 * 1024 := by
  obtain ⟨_, h2, _⟩ := (warm_up_extent
    (pair_config Variant.random true Strategy.cached_client_side 0 (1024 * 1024 * 1024)
      (4 * 1024) 0) (2 ^ 22 + 1) rfl (by simp [pair_config, file_sizes])
    (by simp [pair_config, io_sizes]) (by norm_num [pair_config]) (by norm_num)).1 ⟨rfl, rfl⟩
  refine ⟨?_, by norm_num⟩
  rw [h2]
  norm_num [pair_config, ceil_div]

/-! ### The buffer of aio_prefetch -/

theorem aio_prefetches_allocated (variant : Variant) (mallocs : Nat → Nat) :
    ∀ (calls : List (Nat × Nat)) (buffer k : Nat), buffer ≠ 0 →
      (aio_prefetches variant mallocs calls buffer k).filter AioCall.is_malloc = [] := by
  intro calls
  induction calls with
  | nil => intro buffer k _; rfl
  | cons call rest ih =>
    intro buffer k hb
    rw [aio_prefetches]
    simp only [aio_prefetch, if_neg hb, List.filter_append]
    rw [ih buffer k hb]
    rfl

theorem warmup_events_no_aio (env : Env) (c : Config) (o l : Nat) :
    ∀ (m j : Nat), Event.aio_prefetch o l ∉ warmup_events env c m j := by
  intro m
  induction m with
  | zero => intro j hj; cases hj
  | succ m ih =>
    intro j hj
    rw [warmup_events] at hj
    rcases List.mem_cons.1 hj with h1 | h1
    · cases h1
    · exact ih _ h1

theorem precondition_events_aio (env : Env) (c : Config) (n io o l : Nat)
    (h : Event.aio_prefetch o l ∈ precondition_events env c n io) :
    l = c.file_size ∧ c.strategy = Strategy.jit_aio := by
  have hw := warmup_events_no_aio env c o l
  unfold precondition_events preparation_events reseed_events at h
  simp only [List.mem_append] at h
  rcases h with ((h | h) | h) | h
  · split_ifs at h <;> simp at h
  · simp at h
  · cases hs : c.strategy <;> rw [hs] at h <;> simp at h <;>
      first
      | exact absurd h (hw _ _)
      | exact ⟨h.2, rfl⟩
  · cases hv : c.variant <;> rw [hv] at h <;> simp at h

theorem timed_events_aio (env : Env) (c : Config) (o l : Nat) :
    ∀ (vs : List Nat) (k io g : Nat), Event.aio_prefetch o l ∈ timed_events env c vs k io g →
      l = c.prefetch_param ∧ c.strategy.is_online = true := by
  intro vs
  induction vs with
  | nil => intro k io g h; cases h
  | cons v vs ih =>
    intro k io g h
    rw [timed_events, List.mem_append] at h
    rcases h with h | h
    · unfold body_events at h
      simp only [List.mem_append] at h
      rcases h with ((h | h) | h) | h
      · split_ifs at h with hc
        · refine ⟨?_, hc.1⟩
          unfold online_prefetch at h
          cases hs : c.strategy <;> rw [hs] at h <;> simp at h <;> exact h.2
        · cases h
      · cases hv : c.variant <;> rw [hv] at h <;> simp at h
      · simp at h
      · split_ifs at h <;> simp at h
    · exact ih _ _ _ h

/-- C26.  `aio_prefetch` calls `malloc` only while its static buffer is null:
once the buffer is allocated no later call allocates, and when the first
`malloc` succeeds a run makes exactly one, of
`file_sizes[file_size_count-1]` bytes, the largest configured file size.  Every
`aio_prefetch` call of a pass of a configured experiment asks for the file size
(just-in-time block) or the prefetch size (online blocks), at most the size of
that buffer. -/
theorem aio_buffer (variant : Variant) (mallocs : Nat → Nat) :
    (∀ (calls : List (Nat × Nat)) (buffer k : Nat), buffer ≠ 0 →
        (aio_prefetches variant mallocs calls buffer k).filter AioCall.is_malloc = []) ∧
      (∀ (call : Nat × Nat) (calls : List (Nat × Nat)) (k : Nat), mallocs k ≠ 0 →
        (aio_prefetches variant mallocs (call :: calls) 0 k).filter AioCall.is_malloc =
          [AioCall.malloc (aio_buffer_size variant)]) ∧
      aio_buffer_size variant ∈ file_sizes variant ∧
      (∀ F, F ∈ file_sizes variant → F ≤ aio_buffer_size variant) ∧
      (∀ (env : Env) (c : Config) (inner : Nat) (r r1 : Run),
        c.variant = variant → run_pass env c inner r = Outcome.ok r1 →
        c.file_size ∈ file_sizes variant →
        (c.strategy.is_online = true → c.prefetch_param ∈ io_sizes) →
        ∃ new, r1.trace = r.trace ++ new ∧
          ∀ o l, Event.aio_prefetch o l ∈ new →
            (l = c.file_size ∨ l = c.prefetch_param) ∧ l ≤ aio_buffer_size variant) := by
  have hmax : ∀ F, F ∈ file_sizes variant → F ≤ aio_buffer_size variant := by
    intro F hF
    cases variant <;>
      simp only [file_sizes, List.mem_cons, List.mem_singleton, List.not_mem_nil,
        or_false] at hF <;>
      rcases hF with rfl | rfl | rfl <;> decide
  have hio : ∀ P, P ∈ io_sizes → P ≤ aio_buffer_size variant := by
    intro P hP
    simp only [io_sizes, List.mem_cons, List.mem_singleton, List.not_mem_nil,
      or_false] at hP
    cases variant <;> rcases hP with rfl | rfl | rfl | rfl | rfl | rfl <;> decide
  refine ⟨aio_prefetches_allocated variant mallocs, fun call calls k hk => ?_, ?_, hmax, ?_⟩
  · rw [aio_prefetches]
    simp only [aio_prefetch, if_pos, List.filter_append]
    rw [aio_prefetches_allocated variant mallocs calls _ _ hk]
    rfl
  · cases variant <;> decide
  · intro env c inner r r1 hv h hF hP
    obtain ⟨n_warm, vs, final, _, _, _, htrace, _⟩ := run_pass_shape env c inner r r1 h
    refine ⟨_, by rw [htrace, List.append_assoc], fun o l hmem => ?_⟩
    simp only [List.mem_append, List.mem_cons, List.mem_singleton] at hmem
    rcases hmem with hm | hm | hm | hm | hm
    · obtain ⟨e1, _⟩ := precondition_events_aio env c _ _ o l hm
      exact ⟨Or.inl e1, by rw [e1]; exact hmax _ hF⟩
    · cases hm
    · obtain ⟨e1, e2⟩ := timed_events_aio env c o l _ _ _ _ hm
      exact ⟨Or.inr e1, by rw [e1]; exact hio _ (hP e2)⟩
    · cases hm
    · cases hm

/-! ### Coverage of the reads by the online prefetches -/

theorem sequential_for_volume_any (F S fuel : Nat) (hF : 1 ≤ F) (hS : 1 ≤ S)
    (hwrap : ceil_div F S * S < 2 ^ 64) (hfuel : ceil_div F S < fuel) :
    for_volume (sequential_cond F) S fuel 0 =
      some ((List.range (ceil_div F S)).map (fun i => i * S), ceil_div F S * S) := by
  obtain ⟨h1, h2, h3⟩ := ceil_div_spec F S hF hS
  have h := for_volume_count (sequential_cond F) S (ceil_div F S) 0 fuel
    (fun i _ hi => by
      have : i * S ≤ (ceil_div F S - 1) * S := Nat.mul_le_mul_right _ (by omega)
      simp only [sequential_cond, decide_eq_true_eq]
      omega)
    (by simpa [sequential_cond] using h1) (by simpa using hwrap) hfuel
  simpa [List.range_eq_range'] using h

theorem multiples_in_loop (F S P : Nat) (hF : 1 ≤ F) (hS : 1 ≤ S) (hP : 1 ≤ P)
    (hdvd : S ∣ P) :
    ((List.range (ceil_div F S)).map (fun i => i * S)).filter
        (fun v => decide (v % P = 0)) =
      (List.range (ceil_div F P)).map (fun k => k * P) := by
  obtain ⟨a1, a2, a3⟩ := ceil_div_spec F S hF hS
  obtain ⟨b1, b2, b3⟩ := ceil_div_spec F P hF hP
  obtain ⟨t, ht⟩ := hdvd
  have sA : List.Sorted (· < ·) ((List.range (ceil_div F S)).map (fun i => i * S)) :=
    List.Pairwise.map _ (fun a b hab => Nat.mul_lt_mul_of_pos_right hab hS)
      (List.pairwise_lt_range _)
  have sA2 : List.Sorted (· < ·) (((List.range (ceil_div F S)).map (fun i => i * S)).filter
      (fun v => decide (v % P = 0))) := List.Pairwise.filter _ sA
  have sB : List.Sorted (· < ·) ((List.range (ceil_div F P)).map (fun k => k * P)) :=
    List.Pairwise.map _ (fun a b hab => Nat.mul_lt_mul_of_pos_right hab hP)
      (List.pairwise_lt_range _)
  refine List.eq_of_perm_of_sorted ((List.perm_ext_iff_of_nodup sA2.nodup sB.nodup).2 ?_)
    sA2 sB
  intro v
  simp only [List.mem_filter, List.mem_map, List.mem_range, decide_eq_true_eq]
  constructor
  · rintro ⟨⟨i, hi, rfl⟩, hmod⟩
    refine ⟨i * S / P, ?_, Nat.div_mul_cancel (Nat.dvd_of_mod_eq_zero hmod)⟩
    by_contra hk
    have h1 : ceil_div F P * P ≤ i * S / P * P := Nat.mul_le_mul_right _ (by omega)
    have h2 : i * S / P * P = i * S := Nat.div_mul_cancel (Nat.dvd_of_mod_eq_zero hmod)
    have h3 : i * S ≤ (ceil_div F S - 1) * S := Nat.mul_le_mul_right _ (by omega)
    omega
  · rintro ⟨k, hk, rfl⟩
    refine ⟨⟨k * t, ?_, ?_⟩, Nat.mul_mod_left _ _⟩
    · by_contra hi
      have h1 : ceil_div F S * S ≤ k * t * S := Nat.mul_le_mul_right _ (by omega)
      have h2 : k * t * S = k * P := by rw [ht]; ring
      have h3 : k * P ≤ (ceil_div F P - 1) * P := Nat.mul_le_mul_right _ (by omega)
      omega
    · rw [ht]; ring

theorem prefetch_schedule_filter (s : Strategy) (P : Nat) :
    ∀ vs : List Nat, prefetch_schedule s P vs =
      prefetch_schedule s P (vs.filter (fun v => decide (v % P = 0))) := by
  intro vs
  induction vs with
  | nil => rfl
  | cons v vs ih =>
    by_cases hm : v % P = 0
    · rw [List.filter_cons_of_pos (by simpa using hm), prefetch_schedule, prefetch_schedule, ih]
    · rw [List.filter_cons_of_neg (by simpa using hm), prefetch_schedule, if_neg hm,
        List.nil_append, ih]

theorem read_inside_prefetch (S P i : Nat) (hP : 1 ≤ P) (hdvd : S ∣ P) :
    ∃ j, j ≤ i ∧ (j * S) % P = 0 ∧ j * S ≤ i * S ∧ i * S + S ≤ j * S + P := by
  obtain ⟨t, ht⟩ := hdvd
  have ht1 : 1 ≤ t := by
    rcases Nat.eq_zero_or_pos t with h0 | h0
    · rw [h0, Nat.mul_zero] at ht; omega
    · exact h0
  have hj : i / t * t ≤ i := Nat.div_mul_le_self i t
  have hlt : i + 1 ≤ i / t * t + t := by
    have h1 := Nat.div_add_mod i t
    have h2 := Nat.mod_lt i ht1
    have h3 : t * (i / t) = i / t * t := Nat.mul_comm _ _
    omega
  have e : i / t * t * S = i / t * P := by rw [ht]; ring
  refine ⟨i / t * t, hj, ?_, Nat.mul_le_mul_right _ hj, ?_⟩
  · rw [e]; exact Nat.mul_mod_left _ _
  · have h4 : (i + 1) * S ≤ (i / t * t + t) * S := Nat.mul_le_mul_right _ hlt
    have h5 : (i / t * t + t) * S = i / t * t * S + P := by rw [ht]; ring
    have h6 : (i + 1) * S = i * S + S := by ring
    omega

theorem run_pass_prefetch_calls (env : Env) (c : Config) (inner : Nat) (r r1 : Run)
    (hon : c.strategy.is_online = true) (h : run_pass env c inner r = Outcome.ok r1) :
    ∃ vs final, for_volume (timed_cond c) c.io_size inner 0 = some (vs, final) ∧
      prefetch_calls_of r1.trace =
        prefetch_calls_of r.trace ++ prefetch_schedule c.strategy c.prefetch_param vs := by
  obtain ⟨n_warm, vs, final, hfv, _, _, htrace, _⟩ := run_pass_shape env c inner r r1 h
  refine ⟨vs, final, hfv, ?_⟩
  rw [htrace]
  simp only [prefetch_calls_of_append, precondition_events_prefetch env c _ _ hon,
    List.append_nil]
  have e : ∀ (k : Nat) (l : List Event),
      prefetch_calls_of (Event.get_timestamp_us k :: l) = prefetch_calls_of l := by
    intro k l; rfl
  rw [e, prefetch_calls_of_append, timed_events_prefetch env c hon]
  have e2 : ∀ k, prefetch_calls_of [Event.get_timestamp_us k] = [] := fun _ => rfl
  rw [e2, List.append_nil]

theorem quarter_wrap_loops :
    ∀ fuel, for_volume (sequential_cond (2 ^ 64 - 1)) (2 ^ 62) fuel 0 = none ∧
      for_volume (sequential_cond (2 ^ 64 - 1)) (2 ^ 62) fuel (2 ^ 62) = none ∧
      for_volume (sequential_cond (2 ^ 64 - 1)) (2 ^ 62) fuel (2 ^ 63) = none ∧
      for_volume (sequential_cond (2 ^ 64 - 1)) (2 ^ 62) fuel (3 * 2 ^ 62) = none := by
  intro fuel
  induction fuel with
  | zero => exact ⟨rfl, rfl, rfl, rfl⟩
  | succ n ih =>
    have c0 : sequential_cond (2 ^ 64 - 1) 0 = true := by decide
    have c1 : sequential_cond (2 ^ 64 - 1) (2 ^ 62) = true := by decide
    have c2 : sequential_cond (2 ^ 64 - 1) (2 ^ 63) = true := by decide
    have c3 : sequential_cond (2 ^ 64 - 1) (3 * 2 ^ 62) = true := by decide
    have w0 : wadd 0 (2 ^ 62) = 2 ^ 62 := by decide
    have w1 : wadd (2 ^ 62) (2 ^ 62) = 2 ^ 63 := by decide
    have w2 : wadd (2 ^ 63) (2 ^ 62) = 3 * 2 ^ 62 := by decide
    have w3 : wadd (3 * 2 ^ 62) (2 ^ 62) = 0 := by decide
    refine ⟨?_, ?_, ?_, ?_⟩
    · rw [for_volume, if_pos c0, w0, ih.2.1]
    · rw [for_volume, if_pos c1, w1, ih.2.2.1]
    · rw [for_volume, if_pos c2, w2, ih.2.2.2]
    · rw [for_volume, if_pos c3, w3, ih.1]

/-- C29 (as amended).  For every `F ≥ 1` and every `S, P ≥ 1` with `S` dividing
`P` such that `⌈F/S⌉ * S` is below `2 ^ 64` (the loop variable does not wrap),
a pass of an online block that runs to its end has issued the block's prefetch
calls exactly at the offsets `0, P, 2P, ...` below `F`, that is `⌈F/P⌉` times
(and a pass runs to its end when no cache drop fails and `S` is below
`2 ^ 31`); the range `[v, v+S)` of every read lies inside the range
`[kP, kP+P)` of a prefetch issued at the same or an earlier iteration.  Every
configured pair `(io_size, prefetch_size)` with `prefetch_size > io_size`
satisfies the divisibility.  Without it the coverage fails: with `S = 3`,
`P = 4`, `F = 13` the loop values are `0, 3, 6, 9, 12` and the prefetches are
at 0 and 12 only. -/
theorem online_prefetch_coverage (env : Env) (c : Config) (inner : Nat) (r : Run)
    (hon : c.strategy.is_online = true) (hv : c.variant = Variant.sequential)
    (hF : 1 ≤ c.file_size) (hS : 1 ≤ c.io_size) (hP : 1 ≤ c.prefetch_param)
    (hdvd : c.io_size ∣ c.prefetch_param)
    (hwrap : ceil_div c.file_size c.io_size * c.io_size < 2 ^ 64)
    (hinner : ceil_div c.file_size c.io_size < inner) :
    (∀ r1, run_pass env c inner r = Outcome.ok r1 →
        prefetch_calls_of r1.trace = prefetch_calls_of r.trace ++
          prefetch_schedule c.strategy c.prefetch_param
            ((List.range (ceil_div c.file_size c.prefetch_param)).map
              (fun k => k * c.prefetch_param)) ∧
        timed_reads_of r1.trace = timed_reads_of r.trace ++
          (List.range (ceil_div c.file_size c.io_size)).map (fun i =>
            (c.io_size, read_ret c.strategy c.io_size (env.read_result (r.io_calls + i))))) ∧
      (drops_succeed env → c.io_size < 2 ^ 31 →
        ∃ r1, run_pass env c inner r = Outcome.ok r1) ∧
      (∀ k, k < ceil_div c.file_size c.prefetch_param → k * c.prefetch_param < c.file_size) ∧
      c.file_size ≤ ceil_div c.file_size c.prefetch_param * c.prefetch_param ∧
      (∀ i, i < ceil_div c.file_size c.io_size →
        ∃ j, j ≤ i ∧ (j * c.io_size) % c.prefetch_param = 0 ∧
          j * c.io_size ≤ i * c.io_size ∧
          i * c.io_size + c.io_size ≤ j * c.io_size + c.prefetch_param) ∧
      (∀ S P, S ∈ io_sizes → P ∈ io_sizes → S < P → S ∣ P) ∧
      for_volume (sequential_cond 13) 3 6 0 = some ([0, 3, 6, 9, 12], 15) ∧
      prefetch_schedule Strategy.online_fadvise 4 [0, 3, 6, 9, 12] =
        [Event.client_cache_prefetch 0 4, Event.client_cache_prefetch 12 4] := by
  have hfv := sequential_for_volume_any c.file_size c.io_size inner hF hS hwrap hinner
  have hc : timed_cond c = sequential_cond c.file_size := by
    unfold timed_cond; rw [hv]
  rw [← hc] at hfv
  have hnoff : c.strategy.is_offline = true → False := by
    intro h
    cases hs : c.strategy <;> rw [hs] at hon h <;> first | (cases h; done) | cases hon
  have hnd : c.strategy ≠ Strategy.o_direct := by
    intro h
    rw [h] at hon
    cases hon
  have hwr : warmup_reads c inner = 0 := by
    unfold warmup_reads
    cases ho : c.strategy.is_offline
    · rfl
    · exact (hnoff ho).elim
  obtain ⟨b1, b2, _⟩ := ceil_div_spec c.file_size c.prefetch_param hF hP
  refine ⟨fun r1 h1 => ?_, fun hdrop hS31 => ?_, fun k hk => ?_, b1,
    fun i _ => read_inside_prefetch _ _ i hP hdvd, ?_, rfl, rfl⟩
  · obtain ⟨vs, final, hfv2, hp⟩ := run_pass_prefetch_calls env c inner r r1 hon h1
    rw [hfv] at hfv2
    simp only [Option.some.injEq, Prod.mk.injEq] at hfv2
    obtain ⟨q1, _⟩ := run_pass_reads env c inner r r1 h1
    have htr := (timed_reads_eq c inner _ _ hfv).1
    rw [List.length_map, List.length_range] at htr
    refine ⟨?_, ?_⟩
    · rw [hp, ← hfv2.1, prefetch_schedule_filter,
        multiples_in_loop c.file_size c.io_size c.prefetch_param hF hS hP hdvd]
    · rw [q1, htr, hwr]
      rfl
  · exact run_pass_completes env c inner r _ _ hfv
      (fun h => (hnoff h).elim) (fun _ => by omega) (fun h => by rw [hv] at h; cases h)
      (fun j => fread_ret_nonneg _ _ _ hnd hS31) hdrop
  · have : k * c.prefetch_param ≤ (ceil_div c.file_size c.prefetch_param - 1) * c.prefetch_param :=
      Nat.mul_le_mul_right _ (by omega)
    omega
  · intro S P hS2 hP2 hlt
    simp only [io_sizes, List.mem_cons, List.mem_singleton, List.not_mem_nil,
      or_false] at hS2 hP2
    rcases hS2 with rfl | rfl | rfl | rfl | rfl | rfl <;>
      rcases hP2 with rfl | rfl | rfl | rfl | rfl | rfl <;>
      first
      | (exfalso; revert hlt; decide)
      | decide

/-- Witness of `online_prefetch_coverage`: a 12-byte file read 4 bytes at a time
with a prefetch every 8 bytes; the pass prefetches at the offsets 0 and 8. -/
theorem online_prefetch_coverage_witness :
    ∃ r1, run_pass sample_env sample_online_config 4 Run.initial = Outcome.ok r1 ∧
      prefetch_calls_of r1.trace =
        [Event.client_cache_prefetch 0 8, Event.client_cache_prefetch 8 8] := by
  have h := online_prefetch_coverage sample_env sample_online_config 4 Run.initial rfl rfl
    (by decide) (by decide) (by decide) (by decide) (by decide) (by decide)
  obtain ⟨r1, h1⟩ := h.2.1 sample_env_drops (by decide)
  refine ⟨r1, h1, ?_⟩
  rw [(h.1 r1 h1).1]
  rfl

/-- C29 as stated does not hold: `F = 2 ^ 64 - 1`, `S = 2 ^ 62` and `P = 2 ^ 63`
satisfy `F ≥ 1`, `S, P ≥ 1`, `S` divides `P`, and `P > S` (the pair is not
skipped); no read returns a negative value, but the loop variable goes
`0, 2 ^ 62, 2 ^ 63, 3 * 2 ^ 62, 0, ...`: the pass never ends, and it does not
issue the prefetch at the offsets `0` and `2 ^ 63` only. -/
theorem online_prefetch_coverage_counterexample :
    (1 ≤ wrap_online_config.file_size ∧ 1 ≤ wrap_online_config.io_size ∧
        1 ≤ wrap_online_config.prefetch_param ∧
        wrap_online_config.io_size ∣ wrap_online_config.prefetch_param ∧
        wrap_online_config.io_size < wrap_online_config.prefetch_param ∧
        wrap_online_config.io_size ≤ wrap_online_config.file_size) ∧
      ceil_div wrap_online_config.file_size wrap_online_config.prefetch_param = 2 ∧
      (∀ j, 0 ≤ sample_env.read_result j) ∧
      ∀ inner r r1, run_pass sample_env wrap_online_config inner r ≠ Outcome.ok r1 := by
  refine ⟨⟨by decide, by decide, by decide, ⟨2, by decide⟩, by decide, by decide⟩, by decide,
    fun _ => (by decide : (0 : Int) ≤ 2147483647), ?_⟩
  intro inner r r1 h
  obtain ⟨⟨vs, final, hfv⟩, _⟩ := run_pass_summary sample_env wrap_online_config inner r r1 h
  have hc : timed_cond wrap_online_config = sequential_cond (2 ^ 64 - 1) := rfl
  have hs : wrap_online_config.io_size = 2 ^ 62 := rfl
  rw [hc, hs, (quarter_wrap_loops inner).1] at hfv
  cases hfv

end IOHints
